import Mathlib

/-!
Verification of the MIDI Pattern RAG Retrieval & Fallback Engine of the
OrchestrAIte music generator.

The development shallowly embeds the Python code of
`src/utils/midi_rag_system.py` (vectorizers, retrieval with its three-tier
fallback cascade, the embedding adapter) and
`src/load_tegridy_midi_to_chromadb.py` (the MIDI pattern extractor).

Python strings are modelled as `List Char`; Python/JSON values as the mutual
inductive `Json` below, whose numbers are decimal fixed-point values
`m / 10 ^ e` (every float literal occurring in the embedded code is such a
decimal).  External collaborators (the ChromaDB vector store, the Gemini
embedding provider, `random`, `pretty_midi`) are passed in as explicit
parameters, and fallible external calls are `Except`-valued.
-/

set_option maxHeartbeats 1000000
set_option maxRecDepth 8192
set_option linter.unusedVariables false

/-- Python strings, modelled as lists of characters. -/
abbrev Str := List Char

/-- Literal Lean string to Python string. -/
def lit (s : String) : Str := s.data

/-- Python `str.lower()` (ASCII behaviour suffices for the embedded code). -/
def pyLower (s : Str) : Str := s.map Char.toLower

/-- Characters that Python `str.strip()` removes. -/
def isPySpace (c : Char) : Bool :=
  c == ' ' || c == '\t' || c == '\n' || c == '\r' || c == '\x0b' || c == '\x0c'

/-- Python `str.strip()`. -/
def pyStrip (s : Str) : Str :=
  ((s.dropWhile isPySpace).reverse.dropWhile isPySpace).reverse

/-- Python `sep.join(parts)`. -/
def pyJoin (sep : Str) (parts : List Str) : Str := List.intercalate sep parts

/-- Python `sub in s` substring test. -/
def pyIn (sub s : Str) : Bool := decide (sub <:+: s)

/-- Worker for `pySplit`: scans left to right for the leftmost occurrence of
the (non-empty) separator `c0 :: sep`, accumulating the current chunk in
reverse. -/
def splitGo (c0 : Char) (sep : Str) : Nat → Str → Str → List Str
  | 0, rest, acc => [acc.reverse ++ rest]
  | fuel + 1, s, acc =>
    match s with
    | [] => [acc.reverse]
    | d :: rest =>
      if (c0 :: sep) <+: (d :: rest) then
        acc.reverse :: splitGo c0 sep fuel (List.drop sep.length rest) []
      else
        splitGo c0 sep fuel rest (d :: acc)

/-- Python `s.split(sep)` for a non-empty separator (the embedded code only
splits on the literal marker `==PATTERN_DATA==`).  The fuel `s.length`
dominates the scan, which consumes at least one character per step. -/
def pySplit (s sep : Str) : List Str :=
  match sep with
  | [] => [s]
  | c :: cs => splitGo c cs s.length s []

mutual
/-- JSON/Python values as manipulated by the embedded code.  Numbers are
decimal fixed-point: `num m e` denotes `m / 10 ^ e`; Python ints are `e = 0`
and every float literal in the source is a finite decimal. -/
inductive Json where
  | null : Json
  | bool (b : Bool) : Json
  | num (m : Int) (e : Nat) : Json
  | str (s : Str) : Json
  | arr (elems : JsonList) : Json
  | obj (fields : JsonFields) : Json
deriving DecidableEq
/-- Lists of JSON values (mutual with `Json`). -/
inductive JsonList where
  | nil : JsonList
  | cons (hd : Json) (tl : JsonList) : JsonList
deriving DecidableEq
/-- Key/value field lists of JSON objects (mutual with `Json`). -/
inductive JsonFields where
  | fnil : JsonFields
  | fcons (key : Str) (val : Json) (tl : JsonFields) : JsonFields
deriving DecidableEq
end

/-- Build a `JsonList` from a Lean list. -/
def JsonList.ofList : List Json → JsonList
  | [] => .nil
  | j :: js => .cons j (JsonList.ofList js)

/-- Back to a Lean list. -/
def JsonList.toList : JsonList → List Json
  | .nil => []
  | .cons j js => j :: js.toList

/-- Build `JsonFields` from a Lean association list. -/
def JsonFields.ofList : List (Str × Json) → JsonFields
  | [] => .fnil
  | (k, v) :: rest => .fcons k v (JsonFields.ofList rest)

/-- Association list view of object fields. -/
def JsonFields.toList : JsonFields → List (Str × Json)
  | .fnil => []
  | .fcons k v tl => (k, v) :: tl.toList

/-- Shorthand: JSON string from a Lean string literal. -/
def jS (s : String) : Json := Json.str s.data

/-- Shorthand: JSON (Python) integer. -/
def jI (m : Int) : Json := Json.num m 0

/-- Shorthand: JSON (Python) decimal float `m / 10 ^ e`. -/
def jF (m : Int) (e : Nat) : Json := Json.num m e

/-- Shorthand: JSON array from a Lean list. -/
def jA (l : List Json) : Json := Json.arr (JsonList.ofList l)

/-- Shorthand: JSON object from a Lean association list with string-literal
keys. -/
def jO (l : List (String × Json)) : Json :=
  Json.obj (JsonFields.ofList (l.map (fun p => (p.1.data, p.2))))

/-- Python truthiness of a value (`if pattern_data:` and friends). -/
def Json.truthy : Json → Bool
  | .null => false
  | .bool b => b
  | .num m _ => m != 0
  | .str s => !s.isEmpty
  | .arr .nil => false
  | .arr (.cons _ _) => true
  | .obj .fnil => false
  | .obj (.fcons _ _ _) => true

/-- First binding of a key in an object's field list. -/
def JsonFields.find (fs : JsonFields) (k : Str) : Option Json :=
  match fs with
  | .fnil => none
  | .fcons k2 v tl => if k2 = k then some v else tl.find k

/-- Python `d[k]` / `k in d` support: the value bound to `k` when the value
is an object that contains it. -/
def Json.getKey (j : Json) (k : Str) : Option Json :=
  match j with
  | .obj fs => fs.find k
  | _ => none

/-- Python `k in d` for a dict. -/
def Json.hasKeyB (j : Json) (k : Str) : Bool := (j.getKey k).isSome

/-- Python `isinstance(x, dict)`. -/
def Json.isObjB : Json → Bool
  | .obj _ => true
  | _ => false

/-- Python `d.get(k, default)` for values known to be dicts. -/
def Json.getKeyD (j : Json) (k : Str) (d : Json) : Json := (j.getKey k).getD d

/-- Decimal digit to its character. -/
def digitChar (d : Nat) : Char := Char.ofNat (48 + d)

/-- Decimal representation of a natural number, most significant digit
first. -/
def natToChars (n : Nat) : Str :=
  if n = 0 then ['0'] else (Nat.digits 10 n).reverse.map digitChar

/-- Decimal representation of an integer. -/
def intToChars (m : Int) : Str :=
  if m < 0 then '-' :: natToChars m.natAbs else natToChars m.natAbs

/-- Decimal representation of the fixed-point number `m / 10 ^ e`, exactly
as Python prints the corresponding int (`e = 0`) or float (`e > 0`,
`<int part>.<e fractional digits>`). -/
def numToChars (m : Int) (e : Nat) : Str :=
  if e = 0 then intToChars m
  else
    let n := m.natAbs
    let fracDigits := natToChars (n % 10 ^ e)
    (if m < 0 then ['-'] else []) ++ natToChars (n / 10 ^ e) ++
      '.' :: (List.replicate (e - fracDigits.length) '0' ++ fracDigits)

/-- Hexadecimal digit character (lower case, as Python emits). -/
def hexDigitChar (d : Nat) : Char :=
  if d < 10 then digitChar d else Char.ofNat (87 + d)

/-- JSON string escaping of one character, following `json.dumps`: quote,
backslash and the common control characters get two-character escapes,
remaining control characters get `\u00XX`, everything else passes through. -/
def escapeChar (c : Char) : Str :=
  if c = '"' then ['\\', '"']
  else if c = '\\' then ['\\', '\\']
  else if c = '\n' then ['\\', 'n']
  else if c = '\t' then ['\\', 't']
  else if c = '\r' then ['\\', 'r']
  else if c.toNat < 32 then
    ['\\', 'u', '0', '0', hexDigitChar (c.toNat / 16), hexDigitChar (c.toNat % 16)]
  else [c]

/-- JSON string escaping. -/
def escapeStr (s : Str) : Str := s.flatMap escapeChar

mutual
/-- `json.dumps` with its default separators `", "` and `": "`. -/
def Json.dump : Json → Str
  | .null => lit "null"
  | .bool true => lit "true"
  | .bool false => lit "false"
  | .num m e => numToChars m e
  | .str s => '"' :: (escapeStr s ++ ['"'])
  | .arr l => '[' :: (JsonList.dumpElems l ++ [']'])
  | .obj fs => '{' :: (JsonFields.dumpFields fs ++ ['}'])
/-- Array elements, separated by `", "`. -/
def JsonList.dumpElems : JsonList → Str
  | .nil => []
  | .cons j .nil => j.dump
  | .cons j (.cons j2 tl) =>
      j.dump ++ ',' :: ' ' :: JsonList.dumpElems (.cons j2 tl)
/-- Object fields `"key": value`, separated by `", "`. -/
def JsonFields.dumpFields : JsonFields → Str
  | .fnil => []
  | .fcons k v .fnil => '"' :: (escapeStr k ++ '"' :: ':' :: ' ' :: v.dump)
  | .fcons k v (.fcons k2 v2 tl) =>
      ('"' :: (escapeStr k ++ '"' :: ':' :: ' ' :: v.dump)) ++
        ',' :: ' ' :: JsonFields.dumpFields (.fcons k2 v2 tl)
end

/-- JSON insignificant whitespace. -/
def isJsonWs (c : Char) : Bool := c == ' ' || c == '\t' || c == '\n' || c == '\r'

/-- Skip insignificant whitespace. -/
def skipWs (s : Str) : Str := s.dropWhile isJsonWs

/-- Value of a decimal digit character. -/
def digitVal (c : Char) : Nat := c.toNat - 48

/-- Hexadecimal digit test. -/
def isHexB (c : Char) : Bool :=
  c.isDigit || ('a' ≤ c && c ≤ 'f') || ('A' ≤ c && c ≤ 'F')

/-- Value of a hexadecimal digit character. -/
def hexVal (c : Char) : Nat :=
  if c.isDigit then c.toNat - 48
  else if 'a' ≤ c && c ≤ 'f' then c.toNat - 87
  else c.toNat - 55

/-- Decode a single-character JSON escape. -/
def escDecode (c : Char) : Option Char :=
  if c = '"' then some '"'
  else if c = '\\' then some '\\'
  else if c = '/' then some '/'
  else if c = 'n' then some '\n'
  else if c = 't' then some '\t'
  else if c = 'r' then some '\r'
  else if c = 'b' then some '\x08'
  else if c = 'f' then some '\x0c'
  else none

/-- Parse the body of a JSON string after the opening quote, returning the
decoded string and the remaining input after the closing quote. -/
def parseStrAux : Str → Option (Str × Str)
  | [] => none
  | c :: rest =>
    if c = '"' then some ([], rest)
    else if c = '\\' then
      match rest with
      | [] => none
      | e :: rest2 =>
        if e = 'u' then
          match rest2 with
          | h1 :: h2 :: h3 :: h4 :: r =>
            if isHexB h1 && isHexB h2 && isHexB h3 && isHexB h4 then
              (parseStrAux r).map (fun p =>
                (Char.ofNat (((hexVal h1 * 16 + hexVal h2) * 16 + hexVal h3) * 16 + hexVal h4)
                  :: p.1, p.2))
            else none
          | _ => none
        else
          match escDecode e with
          | some d => (parseStrAux rest2).map (fun p => (d :: p.1, p.2))
          | none => none
    else (parseStrAux rest).map (fun p => (c :: p.1, p.2))

/-- Value of a big-endian digit string. -/
def digitsVal (ds : Str) : Nat := ds.foldl (fun a c => 10 * a + digitVal c) 0

/-- An integer with an optional already-detected sign. -/
def signedOf (neg : Bool) (n : Nat) : Int := if neg then -(n : Int) else (n : Int)

/-- Parse a JSON number (decimal integers and decimal fractions; the printer
above never emits exponent notation, which is therefore not modelled). -/
def parseNum (s : Str) : Option (Json × Str) :=
  let neg : Bool := s.head? = some '-'
  let s1 := if neg then s.tail else s
  let ds := s1.takeWhile Char.isDigit
  let r1 := s1.dropWhile Char.isDigit
  if ds = [] then none
  else if r1.head? = some '.' then
    let fs := r1.tail.takeWhile Char.isDigit
    let r3 := r1.tail.dropWhile Char.isDigit
    if fs = [] then none
    else some (Json.num (signedOf neg (digitsVal ds * 10 ^ fs.length + digitsVal fs)) fs.length, r3)
  else some (Json.num (signedOf neg (digitsVal ds)) 0, r1)

/-- Intermediate result of the JSON parser: a value, an array tail or an
object tail. -/
inductive PRes where
  | jv (j : Json) : PRes
  | jl (elems : JsonList) : PRes
  | jf (kv : JsonFields) : PRes

/-- What the parser is currently reading: one value, the element list of an
array (consuming the closing bracket) or the field list of an object
(consuming the closing brace). -/
inductive PMode where
  | val : PMode
  | elems : PMode
  | fields : PMode

/-- The JSON parser; `fuel` bounds the nesting depth.  This is one function
over an explicit mode so that recursion is structural in `fuel` and the
definition reduces inside the kernel. -/
def parseCore : Nat → PMode → Str → Option (PRes × Str)
  | 0, _, _ => none
  | fuel + 1, PMode.val, s =>
    match skipWs s with
    | [] => none
    | c :: rest =>
      if c = 'n' then
        match rest with
        | 'u' :: 'l' :: 'l' :: r => some (.jv Json.null, r)
        | _ => none
      else if c = 't' then
        match rest with
        | 'r' :: 'u' :: 'e' :: r => some (.jv (Json.bool true), r)
        | _ => none
      else if c = 'f' then
        match rest with
        | 'a' :: 'l' :: 's' :: 'e' :: r => some (.jv (Json.bool false), r)
        | _ => none
      else if c = '"' then
        (parseStrAux rest).map (fun p => (.jv (Json.str p.1), p.2))
      else if c = '[' then
        if (skipWs rest).head? = some ']' then some (.jv (Json.arr .nil), (skipWs rest).tail)
        else
          match parseCore fuel PMode.elems rest with
          | some (.jl l, r) => some (.jv (Json.arr l), r)
          | _ => none
      else if c = '{' then
        if (skipWs rest).head? = some '}' then some (.jv (Json.obj .fnil), (skipWs rest).tail)
        else
          match parseCore fuel PMode.fields rest with
          | some (.jf fs2, r) => some (.jv (Json.obj fs2), r)
          | _ => none
      else (parseNum (c :: rest)).map (fun p => (.jv p.1, p.2))
  | fuel + 1, PMode.elems, s =>
    match parseCore fuel PMode.val s with
    | some (.jv j, rest) =>
      if (skipWs rest).head? = some ',' then
        match parseCore fuel PMode.elems (skipWs rest).tail with
        | some (.jl l, r2) => some (.jl (.cons j l), r2)
        | _ => none
      else if (skipWs rest).head? = some ']' then some (.jl (.cons j .nil), (skipWs rest).tail)
      else none
    | _ => none
  | fuel + 1, PMode.fields, s =>
    match skipWs s with
    | [] => none
    | c :: rest =>
      if c = '"' then
        match parseStrAux rest with
        | some (k, r1) =>
          match skipWs r1 with
          | ':' :: r2 =>
            match parseCore fuel PMode.val r2 with
            | some (.jv v, r3) =>
              if (skipWs r3).head? = some ',' then
                match parseCore fuel PMode.fields (skipWs r3).tail with
                | some (.jf fs2, r4) => some (.jf (.fcons k v fs2), r4)
                | _ => none
              else if (skipWs r3).head? = some '}' then
                some (.jf (.fcons k v .fnil), (skipWs r3).tail)
              else none
            | _ => none
          | _ => none
        | _ => none
      else none

/-- `json.loads`: parse a complete JSON document, allowing trailing
whitespace only.  The fuel `s.length + 1` dominates any possible nesting
depth. -/
def Json.parse (s : Str) : Option Json :=
  match parseCore (s.length + 1) PMode.val s with
  | some (.jv j, rest) => if skipWs rest = [] then some j else none
  | _ => none

/-! ## The retrieval engine of `src/utils/midi_rag_system.py` -/

/-- The literal payload delimiter `==PATTERN_DATA==`. -/
def marker : Str := lit "==PATTERN_DATA=="

/-- A `pattern_data` metadata value: ChromaDB stores strings, but the code
also tolerates an already-deserialized value
(`isinstance(metadata['pattern_data'], str)` dispatch). -/
inductive PData where
  | fromStr (s : Str) : PData
  | fromVal (v : Json) : PData
deriving DecidableEq

/-- The metadata fields of a stored pattern that
`retrieve_similar_patterns` reads. -/
structure Metadata where
  genre : Option Str
  type_ : Option Str
  patternData : Option PData
  synthetic : Bool
deriving DecidableEq

/-- Python `{}`: the default metadata used when a result has none. -/
def Metadata.empty : Metadata := ⟨none, none, none, false⟩

/-- One `collection.query` result (first row of ChromaDB's batched lists). -/
structure QueryResult where
  documents : List Str
  metadatas : List Metadata
  distances : List ℚ
deriving DecidableEq

/-- The dictionaries returned by `retrieve_similar_patterns`.  The
`original_genre` key is only ever added on the random-adaptation path, hence
an `Option`. -/
structure Record where
  description : Str
  metadata : Metadata
  patternData : Json
  similarity : ℚ
  genre : Str
  type_ : Str
  dataSource : Str
  originalGenre : Option Str
deriving DecidableEq

/-- Payload recovery shared by the primary and random-adaptation paths
(lines 898-926 and 1001-1023 of `midi_rag_system.py`): start from
`pattern_data = {}` with source `"none"`, try the metadata field (parsing it
when it is a string, keeping `{}` on a decode error), then, if the result is
still falsy and the document contains the marker, parse the stripped text
after the first marker occurrence. -/
def recoverMeta (meta : Metadata) : Json × Str :=
  match meta.patternData with
  | some (PData.fromStr s) =>
      match Json.parse s with
      | some j => (j, lit "metadata")
      | none => (Json.obj .fnil, lit "none")
  | some (PData.fromVal j) => (j, lit "metadata")
  | none => (Json.obj .fnil, lit "none")

/-- The document-text stage: when the metadata stage produced a falsy value
and the document contains the marker, parse the stripped text after the
first marker occurrence. -/
def recoverFromDocument (doc : Str) (st : Json × Str) : Json × Str :=
  if !st.1.truthy && pyIn marker doc then
    match (pySplit doc marker).get? 1 with
    | some part =>
        match Json.parse (pyStrip part) with
        | some j => (j, lit "document")
        | none => st
    | none => st
  else st

/-- Both stages composed, as the source runs them. -/
def recoverPattern (doc : Str) (meta : Metadata) : Json × Str :=
  recoverFromDocument doc (recoverMeta meta)

/-- The `is_valid` structure check of lines 929-939: the recovered value
must be a dict with the type-required key. -/
def shapeValid (ptype : Str) (pd : Json) : Bool :=
  if ptype = lit "segment" then pd.isObjB && pd.hasKeyB (lit "instruments")
  else if ptype = lit "progression" then pd.isObjB && pd.hasKeyB (lit "chords")
  else if ptype = lit "melody" then pd.isObjB && pd.hasKeyB (lit "intervals")
  else false

/-- `doc.split('==PATTERN_DATA==')[0] if '==PATTERN_DATA==' in doc else
doc` (line 945). -/
def descPart (doc : Str) : Str :=
  if pyIn marker doc then (pySplit doc marker).headD doc else doc

/-- Processing of one primary-path candidate (lines 895-952): recover the
payload, skip falsy or shape-invalid data, otherwise build the result
dictionary. -/
def processCandidate (ptype qgenre : Str) (doc : Str) (meta : Metadata) (dist : ℚ) :
    Option Record :=
  let r := recoverPattern doc meta
  if !r.1.truthy then none
  else if !shapeValid ptype r.1 then none
  else some {
    description := descPart doc
    metadata := meta
    patternData := r.1
    similarity := 1 - dist
    genre := meta.genre.getD qgenre
    type_ := meta.type_.getD ptype
    dataSource := r.2
    originalGenre := none }

/-- The primary-path result list: `zip(documents, metadatas)` (truncating to
the shorter list, exactly as `zip` does) with
`distances[i] if i < len(distances) else 1.0`. -/
def primaryResults (ptype qgenre : Str) (R : QueryResult) : List Record :=
  ((R.documents.zip R.metadatas).enum).filterMap (fun p =>
    processCandidate ptype qgenre p.2.1 p.2.2 (R.distances.getD p.1 1))

/-- Lines 956-959: `if len(retrieved_patterns) > top_k: retrieved_patterns =
retrieved_patterns[:top_k]`. -/
def trimTo (k : Nat) (l : List Record) : List Record :=
  if k < l.length then l.take k else l

/-! ### Synthetic templates (`_init_synthetic_patterns`, lines 298-498) -/

/-- A note entry `[pitch, start, duration, velocity]` with decimal-float
times. -/
def jN4 (p : Int) (sm : Int) (se : Nat) (dm : Int) (de : Nat) (v : Int) : Json :=
  jA [jI p, jF sm se, jF dm de, jI v]

/-- A chord entry `{"root": r, "pitches": ps, "duration": d}`. -/
def jChord (r : Int) (ps : List Int) (dm : Int) (de : Nat) : Json :=
  jO [("root", jI r), ("pitches", jA (ps.map jI)), ("duration", jF dm de)]

/-- The per-genre template triple. -/
structure GenreTemplates where
  segments : List Json
  chordProgressions : List Json
  melodySequences : List Json
deriving DecidableEq

/-- `self.synthetic_templates["pop"]`. -/
def popTemplates : GenreTemplates where
  segments := [jO [
    ("instruments", jA [
      jO [("name", jS "piano"),
          ("note_sequence", jA [jN4 60 0 1 5 1 80, jN4 64 5 1 10 1 75,
                                jN4 67 10 1 15 1 70, jN4 64 15 1 20 1 75]),
          ("melodic_intervals", jA [jI 4, jI 3, jI (-3), jI 4, jI (-4), jI (-3)]),
          ("rhythm_pattern", jA [jF 5 1, jF 5 1, jF 5 1, jF 5 1, jF 25 2, jF 25 2])],
      jO [("name", jS "bass"),
          ("note_sequence", jA [jN4 48 0 1 10 1 90, jN4 48 10 1 20 1 85,
                                jN4 55 20 1 30 1 90, jN4 55 30 1 40 1 85]),
          ("melodic_intervals", jA [jI 0, jI 7, jI 0, jI (-7)]),
          ("rhythm_pattern", jA [jF 10 1, jF 10 1, jF 10 1, jF 10 1])]]),
    ("duration", jF 40 1)]]
  chordProgressions := [jO [
    ("chords", jA [jChord 60 [60, 64, 67] 10 1, jChord 67 [67, 71, 74] 10 1,
                   jChord 65 [65, 69, 72] 10 1, jChord 62 [62, 65, 69] 10 1]),
    ("instrument", jS "piano")]]
  melodySequences := [jO [
    ("intervals", jA ([0, 2, 2, 1, 2, 2, 2, 1, -1, -2, -2, -2, -1, -2].map jI)),
    ("start_pitch", jI 60),
    ("instrument", jS "piano")]]

/-- `self.synthetic_templates["rock"]`. -/
def rockTemplates : GenreTemplates where
  segments := [jO [
    ("instruments", jA [
      jO [("name", jS "electric_guitar"),
          ("note_sequence", jA [jN4 40 0 1 5 1 100, jN4 40 5 1 10 1 95,
                                jN4 47 10 1 15 1 100, jN4 47 15 1 20 1 95]),
          ("melodic_intervals", jA ([0, 7, 0, -7, 5, -5].map jI)),
          ("rhythm_pattern", jA [jF 25 2, jF 25 2, jF 25 2, jF 25 2, jF 5 1, jF 5 1])],
      jO [("name", jS "bass"),
          ("note_sequence", jA [jN4 28 0 1 10 1 95, jN4 28 10 1 20 1 90,
                                jN4 35 20 1 30 1 95, jN4 35 30 1 40 1 90]),
          ("melodic_intervals", jA ([0, 7, 0, -7, 5, -5].map jI)),
          ("rhythm_pattern", jA [jF 10 1, jF 10 1, jF 10 1, jF 10 1, jF 5 1, jF 5 1])]]),
    ("duration", jF 40 1)]]
  chordProgressions := [jO [
    ("chords", jA [jChord 40 [40, 47, 52] 20 1, jChord 45 [45, 52, 57] 20 1,
                   jChord 47 [47, 54, 59] 20 1, jChord 38 [38, 45, 50] 20 1]),
    ("instrument", jS "guitar")]]
  melodySequences := [jO [
    ("intervals", jA ([0, 3, 2, 0, 0, 2, 3, 0, -3, -2, 0, 0, -2, -3].map jI)),
    ("start_pitch", jI 64),
    ("instrument", jS "guitar")]]

/-- `self.synthetic_templates["classical"]`. -/
def classicalTemplates : GenreTemplates where
  segments := [jO [
    ("instruments", jA [
      jO [("name", jS "piano"),
          ("note_sequence", jA [jN4 60 0 1 5 1 80, jN4 64 5 1 10 1 75,
                                jN4 67 10 1 15 1 85, jN4 72 15 1 20 1 80]),
          ("melodic_intervals", jA ([4, 3, 5, -5, -3, -4].map jI)),
          ("rhythm_pattern", jA [jF 5 1, jF 5 1, jF 5 1, jF 5 1, jF 75 2, jF 25 2])],
      jO [("name", jS "violin"),
          ("note_sequence", jA [jN4 76 0 1 10 1 75, jN4 79 10 1 20 1 80,
                                jN4 77 20 1 30 1 75]),
          ("melodic_intervals", jA ([3, -2, 4, -3, 2, -4].map jI)),
          ("rhythm_pattern", jA [jF 10 1, jF 10 1, jF 10 1, jF 5 1, jF 5 1, jF 10 1])]]),
    ("duration", jF 40 1)]]
  chordProgressions := [jO [
    ("chords", jA [jChord 60 [60, 64, 67] 20 1, jChord 67 [67, 71, 74] 20 1,
                   jChord 65 [65, 69, 72] 20 1, jChord 62 [62, 65, 69] 20 1]),
    ("instrument", jS "piano")]]
  melodySequences := [jO [
    ("intervals", jA ([0, 2, 2, 1, 0, -1, -2, -2, 2, 2, 1, 2, 2, 2].map jI)),
    ("start_pitch", jI 67),
    ("instrument", jS "violin")]]

/-- `self.synthetic_templates["jazz"]`. -/
def jazzTemplates : GenreTemplates where
  segments := [jO [
    ("instruments", jA [
      jO [("name", jS "piano"),
          ("note_sequence", jA [jN4 60 0 1 5 1 70, jN4 63 5 1 10 1 75,
                                jN4 67 10 1 15 1 70, jN4 70 15 1 20 1 80]),
          ("melodic_intervals", jA ([3, 4, 3, -3, -4, -3].map jI)),
          ("rhythm_pattern", jA [jF 5 1, jF 5 1, jF 5 1, jF 5 1, jF 75 2, jF 25 2])],
      jO [("name", jS "bass"),
          ("note_sequence", jA [jN4 43 0 1 5 1 90, jN4 45 10 1 15 1 85,
                                jN4 48 20 1 25 1 90, jN4 50 30 1 35 1 85]),
          ("melodic_intervals", jA ([2, 3, 2, -2, -3, -2].map jI)),
          ("rhythm_pattern", jA [jF 5 1, jF 5 1, jF 5 1, jF 5 1, jF 10 1, jF 5 1])]]),
    ("duration", jF 40 1)]]
  chordProgressions := [jO [
    ("chords", jA [jChord 60 [60, 64, 67, 71] 20 1, jChord 55 [55, 59, 62, 65] 20 1,
                   jChord 50 [50, 54, 57, 60] 20 1, jChord 57 [57, 61, 64, 67] 20 1]),
    ("instrument", jS "piano")]]
  melodySequences := [jO [
    ("intervals", jA ([0, 3, 1, 1, -1, -1, 4, -3, -1, -1, -2, 3, 2, -5].map jI)),
    ("start_pitch", jI 65),
    ("instrument", jS "saxophone")]]

/-- `self.synthetic_templates["default"]`. -/
def defaultTemplates : GenreTemplates where
  segments := [jO [
    ("instruments", jA [
      jO [("name", jS "piano"),
          ("note_sequence", jA [jN4 60 0 1 5 1 80, jN4 64 5 1 10 1 75,
                                jN4 67 10 1 15 1 70, jN4 64 15 1 20 1 75]),
          ("melodic_intervals", jA ([4, 3, -3, 4, -4, -3].map jI)),
          ("rhythm_pattern", jA [jF 5 1, jF 5 1, jF 5 1, jF 5 1, jF 25 2, jF 25 2])]]),
    ("duration", jF 40 1)]]
  chordProgressions := [jO [
    ("chords", jA [jChord 60 [60, 64, 67] 10 1, jChord 67 [67, 71, 74] 10 1,
                   jChord 65 [65, 69, 72] 10 1, jChord 62 [62, 65, 69] 10 1]),
    ("instrument", jS "piano")]]
  melodySequences := [jO [
    ("intervals", jA ([0, 2, 2, 1, 2, 2, 2, -1, -2, -2, -2, -1, -2].map jI)),
    ("start_pitch", jI 60),
    ("instrument", jS "piano")]]

/-- The full template table. -/
def syntheticTemplates : List (Str × GenreTemplates) :=
  [(lit "pop", popTemplates), (lit "rock", rockTemplates),
   (lit "classical", classicalTemplates), (lit "jazz", jazzTemplates),
   (lit "default", defaultTemplates)]

/-- Dictionary lookup in the template table. -/
def assocFind (k : Str) : List (Str × GenreTemplates) → Option GenreTemplates
  | [] => none
  | (k2, v) :: rest => if k2 = k then some v else assocFind k rest

/-- `note[3] = max(30, min(127, note[3] + delta))` on the fixed-point value
(template velocities are always numeric, other shapes are untouched). -/
def addClampVel (d : Int) : Json → Json
  | Json.num m e =>
      Json.num (max (30 * (10 : Int) ^ e) (min (127 * (10 : Int) ^ e) (m + d * (10 : Int) ^ e))) e
  | j => j

/-- Velocity jitter of one note list entry, guarded by `len(note) > 3`. -/
def jitterNote (d : Int) (note : Json) : Json :=
  match note with
  | Json.arr l =>
      if 3 < l.toList.length then
        Json.arr (JsonList.ofList (l.toList.set 3 (addClampVel d (l.toList.getD 3 Json.null))))
      else note
  | j => j

/-- Rebuild an object with one field transformed (Python mutates the nested
lists in place; templates always carry the accessed keys). -/
def mapField (k : Str) (f : Json → Json) : Json → Json
  | Json.obj fs =>
      Json.obj (JsonFields.ofList (fs.toList.map (fun p => if p.1 = k then (p.1, f p.2) else p)))
  | j => j

/-- Jitter every note of one instrument. -/
def jitterInst (rnd : Nat → Int) (inst : Json) : Json :=
  mapField (lit "note_sequence") (fun ns =>
    match ns with
    | Json.arr l => Json.arr (JsonList.ofList (l.toList.mapIdx (fun ni note => jitterNote (rnd ni) note)))
    | j => j) inst

/-- Jitter every instrument of one segment template. -/
def jitterSegment (rnd : Nat → Nat → Int) (seg : Json) : Json :=
  mapField (lit "instruments") (fun insts =>
    match insts with
    | Json.arr l => Json.arr (JsonList.ofList (l.toList.mapIdx (fun ii inst => jitterInst (rnd ii) inst)))
    | j => j) seg

/-- The `_generate_synthetic_patterns` result dictionary. -/
structure SynthPatterns where
  musicalSegments : List Json
  chordProgressions : List Json
  melodySequences : List Json

/-- `_generate_synthetic_patterns` (lines 615-659): pick the lower-cased
genre's template (falling back to `"default"`), emit three
velocity-jittered variants per segment template and deep copies of the
chord/melody templates.  `rnd ti vi ii ni` stands for the
`random.randint(-10, 10)` draw of template `ti`, variation `vi`,
instrument `ii`, note `ni`. -/
def templateFor (genre : Str) : GenreTemplates :=
  (assocFind (pyLower genre) syntheticTemplates).getD defaultTemplates

/-- See `templateFor`: `rnd ti vi ii ni` stands for the
`random.randint(-10, 10)` draw of template `ti`, variation `vi`,
instrument `ii`, note `ni`. -/
def segmentVariants (rnd : Nat → Nat → Nat → Nat → Int) : Nat → List Json → List Json
  | _, [] => []
  | ti, tmpl :: rest =>
      (List.range 3).map (fun vi => jitterSegment (fun ii ni => rnd ti vi ii ni) tmpl) ++
        segmentVariants rnd (ti + 1) rest

/-- See `templateFor` above for the genre/default dispatch. -/
def generateSyntheticPatterns (genre : Str) (rnd : Nat → Nat → Nat → Nat → Int) :
    SynthPatterns where
  musicalSegments := segmentVariants rnd 0 (templateFor genre).segments
  chordProgressions := (templateFor genre).chordProgressions
  melodySequences := (templateFor genre).melodySequences

/-! ### The fallback cascade and `retrieve_similar_patterns` -/

/-- `random.sample(range(n), k)`: modelled by an adversarial preference list
`perm`; the result is some list of at most `k` distinct indices below `n`
(any concrete sample arises from a suitable `perm`). -/
def pySampleIdx (perm : List Nat) (n k : Nat) : List Nat :=
  ((perm.filter (fun i => i < n)).dedup).take k

/-- The pattern-type word interpolated into the adapted-result description
strings (`"Adapted {g} segment for {q}"` etc.). -/
def adaptWord (ptype : Str) : Str :=
  if ptype = lit "segment" then lit "segment"
  else if ptype = lit "progression" then lit "progression"
  else lit "melody"

/-- Tier-1 random adaptation (lines 966-1161).  The source repeats one block
verbatim for each of the three collections; the block is modelled once with
the type-dependent strings factored out.  `count` is `collection.count()`,
`generic` the genre-agnostic `collection.query` result (`.error` when that
query raises, which the inner `except` turns into an empty list), `perm`
the `random.sample` draw. -/
def randomFallback (qgenre ptype : Str) (topk : Nat) (count : Nat)
    (generic : Except Unit QueryResult) (perm : List Nat) : List Record :=
  if 0 < count then
    match generic with
    | .error _ => []
    | .ok R =>
      if 0 < R.documents.length then
        let sampleSize := min topk count
        let docs := R.documents
        let metas := R.metadatas
        let idxs := if sampleSize < docs.length then pySampleIdx perm docs.length sampleSize
                    else List.range docs.length
        idxs.filterMap (fun idx =>
          let doc := docs.getD idx []
          let meta := metas.getD idx Metadata.empty
          let r := recoverPattern doc meta
          if r.1.truthy then
            let srcGenre := meta.genre.getD (lit "unknown")
            some {
              description := lit "Adapted " ++ srcGenre ++ lit " " ++ adaptWord ptype
                               ++ lit " for " ++ qgenre
              metadata := meta
              patternData := r.1
              similarity := 1/2
              genre := qgenre
              type_ := ptype
              dataSource := r.2
              originalGenre := some srcGenre }
          else none)
      else []
  else []

/-- One synthetic result dictionary (lines 1169-1207). -/
def synthRecord (qgenre ptype word tyname : Str) (pd : Json) : Record where
  description := lit "Synthetic " ++ qgenre ++ lit " " ++ word
  metadata := { genre := some qgenre, type_ := some tyname, patternData := none,
                synthetic := true }
  patternData := pd
  similarity := 3/10
  genre := qgenre
  type_ := ptype
  dataSource := lit "synthetic"
  originalGenre := none

/-- Tier-2 synthetic fallback (lines 1162-1212): generate synthetic
patterns for the requested genre and keep at most `top_k` of the relevant
kind (the `enumerate`/`break` loop). -/
def syntheticFallback (qgenre ptype : Str) (topk : Nat)
    (rnd : Nat → Nat → Nat → Nat → Int) : List Record :=
  if ptype = lit "segment" then
    if 0 < (generateSyntheticPatterns qgenre rnd).musicalSegments.length then
      ((generateSyntheticPatterns qgenre rnd).musicalSegments.take topk).map
        (synthRecord qgenre ptype (lit "segment") (lit "segment"))
    else []
  else if ptype = lit "progression" then
    if 0 < (generateSyntheticPatterns qgenre rnd).chordProgressions.length then
      ((generateSyntheticPatterns qgenre rnd).chordProgressions.take topk).map
        (synthRecord qgenre ptype (lit "chord progression") (lit "progression"))
    else []
  else if ptype = lit "melody" then
    if 0 < (generateSyntheticPatterns qgenre rnd).melodySequences.length then
      ((generateSyntheticPatterns qgenre rnd).melodySequences.take topk).map
        (synthRecord qgenre ptype (lit "melody") (lit "melody"))
    else []
  else []

/-- The pattern types for which the query construction does not raise
`ValueError` (lines 825-854). -/
def validTypeP (ptype : Str) : Prop :=
  ptype = lit "segment" ∨ ptype = lit "progression" ∨ ptype = lit "melody"

instance (p : Str) : Decidable (validTypeP p) := by unfold validTypeP; infer_instance

/-- The enriched query text of lines 818-857 (it only feeds the vector
store's similarity search, which is external; recorded for fidelity). -/
def buildQueryText (qgenre qartist ptype : Str) : Str :=
  let base := [lit "Genre: " ++ qgenre] ++ (if qartist.isEmpty then [] else [lit "Artist style: " ++ qartist])
  let parts :=
    if ptype = lit "segment" then
      base ++ [lit "Musical segment with instruments and rhythm patterns"] ++
        (if pyLower qgenre = lit "rock" ∨ pyLower qgenre = lit "metal" then
          [lit "Strong rhythm, guitar, drums, medium to high intensity"]
        else if pyLower qgenre = lit "jazz" then
          [lit "Complex harmonies, swing rhythm, improvisation"]
        else if pyLower qgenre = lit "classical" then
          [lit "Orchestra, piano, violin, structured composition"]
        else if pyLower qgenre = lit "electronic" ∨ pyLower qgenre = lit "edm" then
          [lit "Synthesizers, repetitive beats, electronic sounds"]
        else [])
    else if ptype = lit "progression" then
      base ++ [lit "Chord progression with harmonic movement"] ++
        (if pyLower qgenre = lit "pop" ∨ pyLower qgenre = lit "rock" then
          [lit "Major chords, standard cadences, 4-chord patterns"]
        else if pyLower qgenre = lit "jazz" then
          [lit "Complex chords, sevenths, ninths, jazz harmonies"]
        else [])
    else
      base ++ [lit "Melody sequence with melodic intervals"] ++
        (if pyLower qgenre = lit "pop" then
          [lit "Catchy, stepwise movement, moderate range"]
        else if pyLower qgenre = lit "jazz" then
          [lit "Large leaps, complex patterns, chromatic elements"]
        else [])
  pyJoin (lit " | ") parts

/-- The store-side inputs of one `retrieve_similar_patterns` call: the
truthiness of the collection handle, `collection.count()`, the primary and
generic `collection.query` results (`.error` when the call raises), the
`random.sample` draw and the `random.randint` stream. -/
structure StoreView where
  available : Bool
  count : Nat
  primary : Except Unit QueryResult
  generic : Except Unit QueryResult
  perm : List Nat
  rnd : Nat → Nat → Nat → Nat → Int

/-- `retrieve_similar_patterns` (lines 810-1218).  An invalid pattern type
raises `ValueError`, and a raising primary query propagates to the outer
`except`; both make the function return `[]`.  Otherwise the primary
results are trimmed to `top_k`; when empty, tier 1 (random adaptation) and
then tier 2 (synthetic templates) are tried. -/
def retrieveSimilarPatterns (qgenre qartist ptype : Str) (topk : Nat) (sv : StoreView) :
    List Record :=
  if validTypeP ptype then
    if sv.available then
      match sv.primary with
      | .error _ => []
      | .ok R =>
        let prim := trimTo topk (primaryResults ptype qgenre R)
        if 0 < prim.length then prim
        else
          let rand := randomFallback qgenre ptype topk sv.count sv.generic sv.perm
          if 0 < rand.length then rand
          else syntheticFallback qgenre ptype topk sv.rnd
    else []
  else []

/-! ### The embedding adapter (`MIDIEmbeddingFunction.__call__`, lines 55-82) -/

/-- The per-text loop of `MIDIEmbeddingFunction.__call__`; `none` models an
exception escaping the loop. -/
def embedLoop (provider : Str → Except Unit (List ℚ)) : List Str → Option (List (List ℚ))
  | [] => some []
  | t :: ts =>
    match provider t with
    | .ok e => (embedLoop provider ts).map (fun es => e :: es)
    | .error _ => none

/-- `MIDIEmbeddingFunction.__call__`: the whole batch loop runs under one
`try`; any provider failure abandons the partial results and returns a
768-dimensional zero vector for every input text. -/
def embedCall (provider : Str → Except Unit (List ℚ)) (input : List Str) : List (List ℚ) :=
  match embedLoop provider input with
  | some es => es
  | none => input.map (fun _ => List.replicate 768 (0 : ℚ))

/-! ## Basic facts about the retrieval model -/

theorem trimTo_length_le (k : Nat) (l : List Record) : (trimTo k l).length ≤ k := by
  unfold trimTo
  split
  · simp [List.length_take]
  · omega

theorem randomFallback_length_le (qg t : Str) (k count : Nat)
    (generic : Except Unit QueryResult) (perm : List Nat) :
    (randomFallback qg t k count generic perm).length ≤ k := by
  unfold randomFallback
  split
  · match generic with
    | .error _ => simp
    | .ok R =>
      simp only
      split
      · refine le_trans (List.length_filterMap_le _ _) ?_
        split
        · next h =>
          refine le_trans ?_ (Nat.min_le_left k count)
          simp [pySampleIdx, List.length_take]
        · next h =>
          simp only [List.length_range]
          omega
      · simp
  · simp

theorem syntheticFallback_length_le (qg t : Str) (k : Nat)
    (rnd : Nat → Nat → Nat → Nat → Int) :
    (syntheticFallback qg t k rnd).length ≤ k := by
  simp only [syntheticFallback]
  repeat' split
  all_goals simp [List.length_take]

/-- Claim C4: for every genre, artist, pattern type and requested count, the
result of `retrieve_similar_patterns` has length at most `top_k`, on the
primary, random-adaptation and synthetic paths alike. -/
theorem retrieve_length_le_topk (qg qa t : Str) (k : Nat) (sv : StoreView) :
    (retrieveSimilarPatterns qg qa t k sv).length ≤ k := by
  unfold retrieveSimilarPatterns
  split
  · split
    · match h : sv.primary with
      | .error _ => simp
      | .ok R =>
        simp only
        split
        · exact trimTo_length_le k _
        · split
          · exact randomFallback_length_le qg t k sv.count sv.generic sv.perm
          · exact syntheticFallback_length_le qg t k sv.rnd
    · simp
  · simp

/-- Claim C9: an invalid pattern type (internal `ValueError`) or a raising
primary collection query is caught inside `retrieve_similar_patterns`, which
then returns the empty list. -/
theorem retrieve_exception_empty (qg qa t : Str) (k : Nat) (sv : StoreView)
    (h : ¬ validTypeP t ∨ sv.primary = .error ()) :
    retrieveSimilarPatterns qg qa t k sv = [] := by
  unfold retrieveSimilarPatterns
  rcases h with h | h
  · simp [h]
  · split
    · split
      · rw [h]
      · rfl
    · rfl

/-- Witness for C9 at the concrete invalid type `"rhythm"`. -/
theorem retrieve_exception_empty_witness :
    (¬ validTypeP (lit "rhythm") ∨
        (StoreView.mk true 0 (.ok ⟨[], [], []⟩) (.ok ⟨[], [], []⟩) [] (fun _ _ _ _ => 0)).primary
          = .error ()) ∧
    retrieveSimilarPatterns (lit "jazz") (lit "") (lit "rhythm") 3
      (StoreView.mk true 0 (.ok ⟨[], [], []⟩) (.ok ⟨[], [], []⟩) [] (fun _ _ _ _ => 0)) = [] :=
  ⟨Or.inl (by decide),
   retrieve_exception_empty (lit "jazz") (lit "") (lit "rhythm") 3 _ (Or.inl (by decide))⟩

theorem assocFind_mem {k : Str} {l : List (Str × GenreTemplates)} {v : GenreTemplates}
    (h : assocFind k l = some v) : v ∈ l.map Prod.snd := by
  induction l with
  | nil => simp [assocFind] at h
  | cons p rest ih =>
    obtain ⟨k2, v2⟩ := p
    simp only [assocFind] at h
    split at h
    · cases h
      rw [List.map_cons]
      exact List.mem_cons_self _ _
    · rw [List.map_cons]
      exact List.mem_cons_of_mem _ (ih h)

theorem templateFor_cases (g : Str) :
    templateFor g = popTemplates ∨ templateFor g = rockTemplates ∨
    templateFor g = classicalTemplates ∨ templateFor g = jazzTemplates ∨
    templateFor g = defaultTemplates := by
  unfold templateFor
  cases h : assocFind (pyLower g) syntheticTemplates with
  | none => simp
  | some v =>
    have hv := assocFind_mem h
    simp only [syntheticTemplates, List.map_cons, List.map_nil, List.mem_cons,
      List.mem_singleton, List.not_mem_nil, or_false] at hv
    rcases hv with rfl | rfl | rfl | rfl | rfl <;> simp

theorem templateFor_lengths (g : Str) :
    0 < (templateFor g).segments.length ∧ 0 < (templateFor g).chordProgressions.length ∧
    0 < (templateFor g).melodySequences.length := by
  rcases templateFor_cases g with h | h | h | h | h <;> rw [h] <;> exact ⟨by decide, by decide, by decide⟩

theorem segmentVariants_length (rnd : Nat → Nat → Nat → Nat → Int) (ti : Nat) (l : List Json) :
    (segmentVariants rnd ti l).length = 3 * l.length := by
  induction l generalizing ti with
  | nil => simp [segmentVariants]
  | cons tmpl rest ih => simp [segmentVariants, ih]; omega

theorem generateSynthetic_seg_length (g : Str) (rnd : Nat → Nat → Nat → Nat → Int) :
    (generateSyntheticPatterns g rnd).musicalSegments.length =
      3 * (templateFor g).segments.length := by
  simp [generateSyntheticPatterns, segmentVariants_length]

theorem syntheticFallback_ne_nil (qg t : Str) (k : Nat) (rnd : Nat → Nat → Nat → Nat → Int)
    (ht : validTypeP t) (hk : 0 < k) : syntheticFallback qg t k rnd ≠ [] := by
  have h1 := templateFor_lengths qg
  apply List.ne_nil_of_length_pos
  rcases ht with rfl | rfl | rfl
  · unfold syntheticFallback
    rw [if_pos rfl, if_pos (by rw [generateSynthetic_seg_length]; omega)]
    rw [List.length_map, List.length_take, generateSynthetic_seg_length]
    omega
  · unfold syntheticFallback
    rw [if_neg (by decide), if_pos rfl,
      if_pos (show 0 < (generateSyntheticPatterns qg rnd).chordProgressions.length from h1.2.1)]
    rw [List.length_map, List.length_take]
    have := h1.2.1
    simp only [generateSyntheticPatterns] at this ⊢
    omega
  · unfold syntheticFallback
    rw [if_neg (by decide), if_neg (by decide), if_pos rfl,
      if_pos (show 0 < (generateSyntheticPatterns qg rnd).melodySequences.length from h1.2.2)]
    rw [List.length_map, List.length_take]
    have := h1.2.2
    simp only [generateSyntheticPatterns] at this ⊢
    omega

theorem syntheticFallback_source (qg t : Str) (k : Nat) (rnd : Nat → Nat → Nat → Nat → Int) :
    ∀ r ∈ syntheticFallback qg t k rnd, r.dataSource = lit "synthetic" := by
  intro r hr
  simp only [syntheticFallback] at hr
  repeat' split at hr
  all_goals first
    | exact absurd hr (List.not_mem_nil r)
    | (obtain ⟨pd, _, rfl⟩ := List.mem_map.mp hr; rfl)

theorem primaryResults_nil (t qg : Str) (R : QueryResult) (hd : R.documents = []) :
    primaryResults t qg R = [] := by
  unfold primaryResults
  rw [hd]
  rfl

theorem randomFallback_count_zero (qg t : Str) (k : Nat) (generic : Except Unit QueryResult)
    (perm : List Nat) : randomFallback qg t k 0 generic perm = [] := by
  unfold randomFallback
  simp

/-- Claim C1: for a valid pattern type and `top_k ≥ 1`, a non-raising call
to `retrieve_similar_patterns` never returns the empty list; when the store
is entirely empty (zero count, empty primary answer) every returned pattern
comes from the synthetic template table; and a genre with no template of
its own is served from the `"default"` template. -/
theorem retrieve_nonempty (qg qa t : Str) (k : Nat) (sv : StoreView) (R : QueryResult)
    (ht : validTypeP t) (hk : 0 < k) (ha : sv.available = true) (hR : sv.primary = .ok R) :
    retrieveSimilarPatterns qg qa t k sv ≠ [] ∧
    (sv.count = 0 → R.documents = [] →
      ∀ r ∈ retrieveSimilarPatterns qg qa t k sv, r.dataSource = lit "synthetic") ∧
    (assocFind (pyLower qg) syntheticTemplates = none → templateFor qg = defaultTemplates) := by
  have hretr : retrieveSimilarPatterns qg qa t k sv =
      (let prim := trimTo k (primaryResults t qg R)
       if 0 < prim.length then prim
       else
         let rand := randomFallback qg t k sv.count sv.generic sv.perm
         if 0 < rand.length then rand
         else syntheticFallback qg t k sv.rnd) := by
    unfold retrieveSimilarPatterns
    rw [if_pos ht, ha, if_pos rfl, hR]
  refine ⟨?_, ?_, ?_⟩
  · rw [hretr]
    simp only
    split
    · next h => exact List.ne_nil_of_length_pos h
    · split
      · next h => exact List.ne_nil_of_length_pos h
      · exact syntheticFallback_ne_nil qg t k sv.rnd ht hk
  · intro hc hd r hr
    rw [hretr] at hr
    rw [primaryResults_nil t qg R hd] at hr
    rw [hc, randomFallback_count_zero] at hr
    have htn : trimTo k [] = [] := by unfold trimTo; split <;> simp
    rw [htn] at hr
    rw [if_neg (by simp), if_neg (by simp)] at hr
    exact syntheticFallback_source qg t k sv.rnd r hr
  · intro h
    unfold templateFor
    rw [h]
    rfl

/-- Witness for C1: an entirely empty store, genre `"klezmer"` (which has no
template of its own), melody retrieval with `top_k = 2`. -/
theorem retrieve_nonempty_witness :
    validTypeP (lit "melody") ∧ 0 < 2 ∧
    (StoreView.mk true 0 (.ok ⟨[], [], []⟩) (.ok ⟨[], [], []⟩) [] (fun _ _ _ _ => 3)).available = true ∧
    (retrieveSimilarPatterns (lit "klezmer") (lit "") (lit "melody") 2
        (StoreView.mk true 0 (.ok ⟨[], [], []⟩) (.ok ⟨[], [], []⟩) [] (fun _ _ _ _ => 3)) ≠ [] ∧
      ((StoreView.mk true 0 (.ok ⟨[], [], []⟩) (.ok ⟨[], [], []⟩) [] (fun _ _ _ _ => 3)).count = 0 →
        (⟨[], [], []⟩ : QueryResult).documents = [] →
        ∀ r ∈ retrieveSimilarPatterns (lit "klezmer") (lit "") (lit "melody") 2
            (StoreView.mk true 0 (.ok ⟨[], [], []⟩) (.ok ⟨[], [], []⟩) [] (fun _ _ _ _ => 3)),
          r.dataSource = lit "synthetic") ∧
      (assocFind (pyLower (lit "klezmer")) syntheticTemplates = none →
        templateFor (lit "klezmer") = defaultTemplates)) :=
  ⟨by decide, by decide, rfl,
   retrieve_nonempty (lit "klezmer") (lit "") (lit "melody") 2 _ ⟨[], [], []⟩
     (by decide) (by decide) rfl rfl⟩

/-! ## Payload-recovery and per-path lemmas -/

theorem recoverMeta_cases (meta : Metadata) :
    (recoverMeta meta).2 = lit "metadata" ∨
    ((recoverMeta meta).1 = Json.obj .fnil ∧ (recoverMeta meta).2 = lit "none") := by
  unfold recoverMeta
  rcases meta.patternData with _ | pd
  · exact Or.inr ⟨rfl, rfl⟩
  · rcases pd with s | v
    · rcases h : Json.parse s with _ | j <;> simp [h]
    · exact Or.inl rfl

theorem recoverFromDocument_cases (doc : Str) (st : Json × Str) :
    recoverFromDocument doc st = st ∨
    ∃ j, recoverFromDocument doc st = (j, lit "document") := by
  unfold recoverFromDocument
  split
  · cases hg : (pySplit doc marker).get? 1 with
    | none => exact Or.inl rfl
    | some part =>
      dsimp only
      cases hp : Json.parse (pyStrip part) with
      | none => exact Or.inl rfl
      | some j => exact Or.inr ⟨j, rfl⟩
  · exact Or.inl rfl

theorem recoverPattern_source (doc : Str) (meta : Metadata)
    (h : (recoverPattern doc meta).1.truthy = true) :
    (recoverPattern doc meta).2 = lit "metadata" ∨
    (recoverPattern doc meta).2 = lit "document" := by
  unfold recoverPattern at *
  rcases recoverFromDocument_cases doc (recoverMeta meta) with he | ⟨j, he⟩
  · rw [he] at h ⊢
    rcases recoverMeta_cases meta with hm | ⟨h1, h2⟩
    · exact Or.inl hm
    · rw [h1] at h
      simp [Json.truthy] at h
  · rw [he]
    exact Or.inr rfl

/-- The key demanded by the shape check for each valid pattern type. -/
def requiredKey (ptype : Str) : Option Str :=
  if ptype = lit "segment" then some (lit "instruments")
  else if ptype = lit "progression" then some (lit "chords")
  else if ptype = lit "melody" then some (lit "intervals")
  else none

theorem shapeValid_required {t : Str} {pd : Json} {key : Str}
    (hs : shapeValid t pd = true) (hk : requiredKey t = some key) :
    pd.hasKeyB key = true := by
  unfold shapeValid at hs
  unfold requiredKey at hk
  split at hs
  · rw [if_pos (by assumption)] at hk
    cases hk
    simp only [Bool.and_eq_true] at hs
    exact hs.2
  · split at hs
    · next h1 h2 =>
      rw [if_neg h1, if_pos h2] at hk
      cases hk
      simp only [Bool.and_eq_true] at hs
      exact hs.2
    · split at hs
      · next h1 h2 h3 =>
        rw [if_neg h1, if_neg h2, if_pos h3] at hk
        cases hk
        simp only [Bool.and_eq_true] at hs
        exact hs.2
      · exact absurd hs (by simp)

theorem shapeValid_validType {t : Str} {pd : Json} (hs : shapeValid t pd = true) :
    validTypeP t := by
  unfold shapeValid at hs
  unfold validTypeP
  split at hs
  · exact Or.inl (by assumption)
  · split at hs
    · exact Or.inr (Or.inl (by assumption))
    · split at hs
      · exact Or.inr (Or.inr (by assumption))
      · exact absurd hs (by simp)

theorem processCandidate_some {t qg doc : Str} {meta : Metadata} {dist : ℚ} {r : Record}
    (h : processCandidate t qg doc meta dist = some r) :
    r.patternData.truthy = true ∧ shapeValid t r.patternData = true ∧
    r.originalGenre = none ∧ r.genre = meta.genre.getD qg ∧ r.metadata = meta ∧
    r.similarity = 1 - dist ∧ r.type_ = meta.type_.getD t ∧ r.description = descPart doc ∧
    (r.dataSource = lit "metadata" ∨ r.dataSource = lit "document") := by
  simp only [processCandidate] at h
  split at h
  · exact absurd h (by simp)
  · split at h
    · exact absurd h (by simp)
    · next h1 h2 =>
      cases h
      refine ⟨by simpa using h1, by simpa using h2, rfl, rfl, rfl, rfl, rfl, rfl, ?_⟩
      exact recoverPattern_source doc meta (by simpa using h1)

theorem findMapped_isSome (k key : Str) (f : Json → Json) :
    (fs : JsonFields) →
    ((JsonFields.ofList (fs.toList.map (fun p => if p.1 = k then (p.1, f p.2) else p))).find key).isSome
      = (fs.find key).isSome
  | .fnil => rfl
  | .fcons k2 v tl => by
    have ih := findMapped_isSome k key f tl
    have hhead : (if ((k2, v) : Str × Json).1 = k then ((k2, v).1, f (k2, v).2) else (k2, v))
        = (k2, if k2 = k then f v else v) := by
      by_cases h : k2 = k <;> simp [h]
    show ((JsonFields.ofList (((k2, v) :: tl.toList).map
        (fun p => if p.1 = k then (p.1, f p.2) else p))).find key).isSome
      = ((JsonFields.fcons k2 v tl).find key).isSome
    rw [List.map_cons, hhead]
    by_cases h2 : k2 = key
    · simp [JsonFields.ofList, JsonFields.find, h2]
    · simp [JsonFields.ofList, JsonFields.find, h2, ih]

theorem mapField_hasKeyB (k : Str) (f : Json → Json) (j : Json) (key : Str) :
    (mapField k f j).hasKeyB key = j.hasKeyB key := by
  cases j <;> try rfl
  case obj fs =>
    simp only [mapField, Json.hasKeyB, Json.getKey]
    exact findMapped_isSome k key f fs

theorem mapField_truthy (k : Str) (f : Json → Json) (j : Json) :
    (mapField k f j).truthy = j.truthy := by
  cases j <;> try rfl
  case obj fs => cases fs <;> rfl

theorem jitterSegment_hasKeyB (rnd : Nat → Nat → Int) (seg : Json) (key : Str) :
    (jitterSegment rnd seg).hasKeyB key = seg.hasKeyB key := by
  unfold jitterSegment
  exact mapField_hasKeyB _ _ seg key

theorem jitterSegment_truthy (rnd : Nat → Nat → Int) (seg : Json) :
    (jitterSegment rnd seg).truthy = seg.truthy := by
  unfold jitterSegment
  exact mapField_truthy _ _ seg

theorem segmentVariants_mem {rnd : Nat → Nat → Nat → Nat → Int} {ti : Nat} {l : List Json}
    {x : Json} (h : x ∈ segmentVariants rnd ti l) :
    ∃ tmpl ∈ l, ∃ f, x = jitterSegment f tmpl := by
  induction l generalizing ti with
  | nil => simp [segmentVariants] at h
  | cons tmpl rest ih =>
    simp only [segmentVariants, List.mem_append] at h
    rcases h with h | h
    · obtain ⟨vi, _, rfl⟩ := List.mem_map.mp h
      exact ⟨tmpl, List.mem_cons_self _ _, _, rfl⟩
    · obtain ⟨t2, ht2, f, rfl⟩ := ih h
      exact ⟨t2, List.mem_cons_of_mem _ ht2, f, rfl⟩

theorem templateFor_segment_keys (g : Str) :
    ∀ tmpl ∈ (templateFor g).segments,
      tmpl.truthy = true ∧ tmpl.hasKeyB (lit "instruments") = true := by
  rcases templateFor_cases g with h | h | h | h | h <;> rw [h] <;>
    intro tmpl htm <;>
    simp only [popTemplates, rockTemplates, classicalTemplates, jazzTemplates, defaultTemplates,
      List.mem_singleton] at htm <;> subst htm <;> exact ⟨by decide, by decide⟩

theorem templateFor_prog_keys (g : Str) :
    ∀ x ∈ (templateFor g).chordProgressions,
      x.truthy = true ∧ x.hasKeyB (lit "chords") = true := by
  rcases templateFor_cases g with h | h | h | h | h <;> rw [h] <;>
    intro x hx <;>
    simp only [popTemplates, rockTemplates, classicalTemplates, jazzTemplates, defaultTemplates,
      List.mem_singleton] at hx <;> subst hx <;> exact ⟨by decide, by decide⟩

theorem templateFor_mel_keys (g : Str) :
    ∀ x ∈ (templateFor g).melodySequences,
      x.truthy = true ∧ x.hasKeyB (lit "intervals") = true := by
  rcases templateFor_cases g with h | h | h | h | h <;> rw [h] <;>
    intro x hx <;>
    simp only [popTemplates, rockTemplates, classicalTemplates, jazzTemplates, defaultTemplates,
      List.mem_singleton] at hx <;> subst hx <;> exact ⟨by decide, by decide⟩

theorem syntheticFallback_mem {qg t : Str} {k : Nat} {rnd : Nat → Nat → Nat → Nat → Int}
    {r : Record} (h : r ∈ syntheticFallback qg t k rnd) :
    r.originalGenre = none ∧ r.dataSource = lit "synthetic" ∧ r.patternData.truthy = true ∧
    (∀ key, requiredKey t = some key → r.patternData.hasKeyB key = true) := by
  unfold syntheticFallback at h
  split at h
  · next h1 =>
    split at h
    · obtain ⟨pd, hpd, rfl⟩ := List.mem_map.mp h
      have hpd2 := List.mem_of_mem_take hpd
      simp only [generateSyntheticPatterns] at hpd2
      obtain ⟨tmpl, htm, f, rfl⟩ := segmentVariants_mem hpd2
      have hk := templateFor_segment_keys qg tmpl htm
      subst h1
      refine ⟨rfl, rfl, ?_, ?_⟩
      · rw [show (synthRecord qg (lit "segment") (lit "segment") (lit "segment")
            (jitterSegment f tmpl)).patternData = jitterSegment f tmpl from rfl]
        rw [jitterSegment_truthy]
        exact hk.1
      · intro key hkey
        cases hkey
        rw [show (synthRecord qg (lit "segment") (lit "segment") (lit "segment")
            (jitterSegment f tmpl)).patternData = jitterSegment f tmpl from rfl]
        rw [jitterSegment_hasKeyB]
        exact hk.2
    · exact absurd h (List.not_mem_nil r)
  · split at h
    · next h1 h2 =>
      split at h
      · obtain ⟨pd, hpd, rfl⟩ := List.mem_map.mp h
        have hpd2 := List.mem_of_mem_take hpd
        simp only [generateSyntheticPatterns] at hpd2
        have hk := templateFor_prog_keys qg pd hpd2
        subst h2
        exact ⟨rfl, rfl, hk.1, by intro key hkey; cases hkey; exact hk.2⟩
      · exact absurd h (List.not_mem_nil r)
    · split at h
      · next h1 h2 h3 =>
        split at h
        · obtain ⟨pd, hpd, rfl⟩ := List.mem_map.mp h
          have hpd2 := List.mem_of_mem_take hpd
          simp only [generateSyntheticPatterns] at hpd2
          have hk := templateFor_mel_keys qg pd hpd2
          subst h3
          exact ⟨rfl, rfl, hk.1, by intro key hkey; cases hkey; exact hk.2⟩
        · exact absurd h (List.not_mem_nil r)
      · exact absurd h (List.not_mem_nil r)

theorem randomFallback_mem {qg t : Str} {k count : Nat} {generic : Except Unit QueryResult}
    {perm : List Nat} {r : Record} (h : r ∈ randomFallback qg t k count generic perm) :
    r.patternData.truthy = true ∧ r.similarity = 1/2 ∧ r.genre = qg ∧ r.type_ = t ∧
    r.originalGenre = some (r.metadata.genre.getD (lit "unknown")) ∧
    (r.dataSource = lit "metadata" ∨ r.dataSource = lit "document") := by
  unfold randomFallback at h
  split at h
  · split at h
    · exact absurd h (List.not_mem_nil r)
    · next R =>
      split at h
      · obtain ⟨idx, _, hf⟩ := List.mem_filterMap.mp h
        simp only at hf
        split at hf
        · next htr =>
          cases hf
          refine ⟨htr, rfl, rfl, rfl, rfl, ?_⟩
          exact recoverPattern_source _ _ htr
        · exact absurd hf (by simp)
      · exact absurd h (List.not_mem_nil r)
  · exact absurd h (List.not_mem_nil r)

theorem retrieve_mem_cases {qg qa t : Str} {k : Nat} {sv : StoreView} {r : Record}
    (h : r ∈ retrieveSimilarPatterns qg qa t k sv) :
    (∃ R, sv.primary = .ok R ∧ r ∈ primaryResults t qg R) ∨
    r ∈ randomFallback qg t k sv.count sv.generic sv.perm ∨
    r ∈ syntheticFallback qg t k sv.rnd := by
  unfold retrieveSimilarPatterns at h
  split at h
  · split at h
    · split at h
      · exact absurd h (List.not_mem_nil r)
      · next R hR =>
        simp only at h
        split at h
        · refine Or.inl ⟨R, hR, ?_⟩
          unfold trimTo at h
          split at h
          · exact List.mem_of_mem_take h
          · exact h
        · split at h
          · exact Or.inr (Or.inl h)
          · exact Or.inr (Or.inr h)
    · exact absurd h (List.not_mem_nil r)
  · exact absurd h (List.not_mem_nil r)

/-- Claim C2 (amended): every result of `retrieve_similar_patterns` has
truthy `pattern_data`, and every result that is not random-adapted (i.e.
with no `original_genre` field: primary and synthetic results) carries the
type-required key.  Random-adaptation results are only guaranteed truthy
data — the source performs no shape validation on that path. -/
theorem retrieve_pattern_keys (qg qa t : Str) (k : Nat) (sv : StoreView) :
    ∀ r ∈ retrieveSimilarPatterns qg qa t k sv,
      r.patternData.truthy = true ∧
      (r.originalGenre = none → ∀ key, requiredKey t = some key →
        r.patternData.hasKeyB key = true) := by
  intro r hr
  rcases retrieve_mem_cases hr with ⟨R, _, hp⟩ | hrand | hsyn
  · obtain ⟨p, _, hpc⟩ := List.mem_filterMap.mp hp
    have hp2 := processCandidate_some hpc
    exact ⟨hp2.1, fun _ key hkey => shapeValid_required hp2.2.1 hkey⟩
  · have h5 := randomFallback_mem hrand
    refine ⟨h5.1, fun hog => ?_⟩
    have hcontra := h5.2.2.2.2.1
    rw [hog] at hcontra
    exact absurd hcontra (by simp)
  · have h6 := syntheticFallback_mem hsyn
    exact ⟨h6.2.2.1, fun _ => h6.2.2.2⟩

/-- A store whose single segment entry has a recoverable payload without the
`"instruments"` key: the primary path rejects it, but the random-adaptation
path returns it unvalidated. -/
def invalidShapeMeta : Metadata :=
  ⟨some (lit "rock"), some (lit "segment"),
    some (PData.fromStr (lit "\x7b\"foo\": 1\x7d")), false⟩

/-- See `invalidShapeMeta`. -/
def invalidShapeStore : StoreView :=
  ⟨true, 1, .ok ⟨[lit "stored doc"], [invalidShapeMeta], [(1 : ℚ)/4]⟩,
    .ok ⟨[lit "stored doc"], [invalidShapeMeta], []⟩, [0], fun _ _ _ _ => 0⟩

/-- Counterexample to C2 as stated: against `invalidShapeStore`, a segment
query returns exactly one pattern whose `pattern_data` lacks the
`"instruments"` key (it came through the unvalidated random-adaptation
path). -/
theorem retrieve_pattern_keys_counterexample :
    (retrieveSimilarPatterns (lit "klezmer") (lit "") (lit "segment") 1 invalidShapeStore).map
      (fun r => r.patternData.hasKeyB (lit "instruments")) = [false] := by rfl

/-- The empty store: everything falls through to synthetic templates. -/
def emptyStore : StoreView :=
  ⟨true, 0, .ok ⟨[], [], []⟩, .ok ⟨[], [], []⟩, [], fun _ _ _ _ => 0⟩

/-- The synthetic chord-progression record returned for genre `"pop"` on an
empty store. -/
def popProgRecord : Record :=
  synthRecord (lit "pop") (lit "progression") (lit "chord progression") (lit "progression")
    (popTemplates.chordProgressions.getD 0 Json.null)

/-- Witness for the amended C2 on a concrete synthetic result. -/
theorem retrieve_pattern_keys_witness :
    popProgRecord ∈
      retrieveSimilarPatterns (lit "pop") (lit "") (lit "progression") 1 emptyStore ∧
    (popProgRecord.patternData.truthy = true ∧
      (popProgRecord.originalGenre = none →
        ∀ key, requiredKey (lit "progression") = some key →
          popProgRecord.patternData.hasKeyB key = true)) := by
  have heq : retrieveSimilarPatterns (lit "pop") (lit "") (lit "progression") 1 emptyStore
      = [popProgRecord] := by rfl
  have hmem : popProgRecord ∈
      retrieveSimilarPatterns (lit "pop") (lit "") (lit "progression") 1 emptyStore := by
    rw [heq]; exact List.mem_cons_self _ _
  exact ⟨hmem,
    retrieve_pattern_keys (lit "pop") (lit "") (lit "progression") 1 emptyStore popProgRecord hmem⟩

/-- Claim C5 (amended): every random-adaptation result (identified by its
`original_genre` field, which only that path writes) has similarity exactly
0.5, the `genre` field overridden to the requested genre, `original_genre`
recording the stored source genre, and `data_source` equal to the payload
recovery source — `"metadata"` or `"document"`, never `"random_adapted"`,
which the source never writes. -/
theorem random_adapt_fields (qg qa t : Str) (k : Nat) (sv : StoreView) :
    ∀ r ∈ retrieveSimilarPatterns qg qa t k sv, r.originalGenre.isSome = true →
      r.similarity = 1/2 ∧ r.genre = qg ∧ r.type_ = t ∧
      r.originalGenre = some (r.metadata.genre.getD (lit "unknown")) ∧
      (r.dataSource = lit "metadata" ∨ r.dataSource = lit "document") := by
  intro r hr hog
  rcases retrieve_mem_cases hr with ⟨R, _, hp⟩ | hrand | hsyn
  · obtain ⟨p, _, hpc⟩ := List.mem_filterMap.mp hp
    have hp2 := processCandidate_some hpc
    rw [hp2.2.2.1] at hog
    exact absurd hog (by simp)
  · have h5 := randomFallback_mem hrand
    exact ⟨h5.2.1, h5.2.2.1, h5.2.2.2.1, h5.2.2.2.2.1, h5.2.2.2.2.2⟩
  · have h6 := syntheticFallback_mem hsyn
    rw [h6.1] at hog
    exact absurd hog (by simp)

/-- Counterexample to C5 as stated: a Tier-1 random-adaptation result whose
`data_source` is `"metadata"`, not `"random_adapted"`. -/
theorem random_adapt_fields_counterexample :
    (retrieveSimilarPatterns (lit "klezmer") (lit "") (lit "segment") 1 invalidShapeStore).map
      (fun r => (r.dataSource, r.originalGenre, r.similarity, r.genre)) =
      [(lit "metadata", some (lit "rock"), 1/2, lit "klezmer")] ∧
    lit "metadata" ≠ lit "random_adapted" :=
  ⟨by rfl, by decide⟩

/-- The record of `invalidShapeStore`'s random-adaptation answer. -/
def adaptedFooRecord : Record :=
  ⟨lit "Adapted rock segment for klezmer", invalidShapeMeta,
    Json.obj (.fcons (lit "foo") (jI 1) .fnil), 1/2, lit "klezmer", lit "segment",
    lit "metadata", some (lit "rock")⟩

/-- Witness for the amended C5 on that concrete record. -/
theorem random_adapt_fields_witness :
    adaptedFooRecord ∈
      retrieveSimilarPatterns (lit "klezmer") (lit "") (lit "segment") 1 invalidShapeStore ∧
    adaptedFooRecord.originalGenre.isSome = true ∧
    (adaptedFooRecord.similarity = 1/2 ∧ adaptedFooRecord.genre = lit "klezmer" ∧
      adaptedFooRecord.type_ = lit "segment" ∧
      adaptedFooRecord.originalGenre =
        some (adaptedFooRecord.metadata.genre.getD (lit "unknown")) ∧
      (adaptedFooRecord.dataSource = lit "metadata" ∨
        adaptedFooRecord.dataSource = lit "document")) := by
  have heq : retrieveSimilarPatterns (lit "klezmer") (lit "") (lit "segment") 1 invalidShapeStore
      = [adaptedFooRecord] := by rfl
  have hmem : adaptedFooRecord ∈
      retrieveSimilarPatterns (lit "klezmer") (lit "") (lit "segment") 1 invalidShapeStore := by
    rw [heq]; exact List.mem_cons_self _ _
  exact ⟨hmem, by decide,
    random_adapt_fields (lit "klezmer") (lit "") (lit "segment") 1 invalidShapeStore
      adaptedFooRecord hmem (by decide)⟩

theorem recoverPattern_genre_irrel (doc : Str) (meta : Metadata) (g2 : Option Str) :
    recoverPattern doc { meta with genre := g2 } = recoverPattern doc meta := rfl

/-- Claim C10: the primary path applies no genre filtering — whether a
candidate is kept depends only on its payload, never on its metadata genre;
a kept candidate is a normal (non-fallback) result whose `genre` field is
the stored metadata genre, falling back to the query genre exactly when the
metadata has no genre; and a store answering with such a candidate has it
returned by `retrieve_similar_patterns` itself. -/
theorem primary_no_genre_filter (t qg : Str) :
    (∀ doc meta dist r, processCandidate t qg doc meta dist = some r →
        r.genre = meta.genre.getD qg ∧ (meta.genre = none → r.genre = qg) ∧
        r.originalGenre = none ∧
        (r.dataSource = lit "metadata" ∨ r.dataSource = lit "document")) ∧
    (∀ doc meta dist g2,
        (processCandidate t qg doc { meta with genre := some g2 } dist).isSome =
          (processCandidate t qg doc meta dist).isSome) ∧
    (∀ qa k sv doc meta dist r, 0 < k → sv.available = true →
        sv.primary = .ok ⟨[doc], [meta], [dist]⟩ →
        processCandidate t qg doc meta dist = some r →
        retrieveSimilarPatterns qg qa t k sv = [r]) := by
  refine ⟨?_, ?_, ?_⟩
  · intro doc meta dist r h
    have hp := processCandidate_some h
    exact ⟨hp.2.2.2.1, fun hg => by rw [hp.2.2.2.1, hg]; rfl, hp.2.2.1, hp.2.2.2.2.2.2.2.2⟩
  · intro doc meta dist g2
    have hre : recoverPattern doc { meta with genre := some g2 } = recoverPattern doc meta :=
      recoverPattern_genre_irrel doc meta (some g2)
    simp only [processCandidate, hre]
    cases htr : (recoverPattern doc meta).1.truthy <;>
      cases hsv : shapeValid t (recoverPattern doc meta).1 <;> simp [htr, hsv]
  · intro qa k sv doc meta dist r hk ha hp hpc
    unfold retrieveSimilarPatterns
    rw [if_pos (shapeValid_validType (processCandidate_some hpc).2.1), ha, if_pos rfl, hp]
    have hpr : primaryResults t qg ⟨[doc], [meta], [dist]⟩ = [r] := by
      unfold primaryResults
      simp [List.enum, List.enumFrom, List.getD, hpc]
    simp only [hpr]
    have htr : trimTo k [r] = [r] := by
      unfold trimTo
      rw [if_neg (by simp; omega)]
    rw [htr]
    simp

/-- A stored candidate whose metadata genre `"rock"` differs from the query
genre `"jazz"`. -/
def mismatchMeta : Metadata :=
  ⟨some (lit "rock"), some (lit "segment"),
    some (PData.fromStr (lit "\x7b\"instruments\": [1]\x7d")), false⟩

/-- See `mismatchMeta`. -/
def mismatchStore : StoreView :=
  ⟨true, 1, .ok ⟨[lit "stored doc"], [mismatchMeta], [(0 : ℚ)]⟩,
    .ok ⟨[], [], []⟩, [], fun _ _ _ _ => 0⟩

/-- The result record for `mismatchStore`. -/
def mismatchRecord : Record :=
  ⟨lit "stored doc", mismatchMeta,
    Json.obj (.fcons (lit "instruments") (jA [jI 1]) .fnil), (1 : ℚ) - 0,
    lit "rock", lit "segment", lit "metadata", none⟩

/-- Witness for C10: the `"rock"` candidate is returned unchanged for a
`"jazz"` query, with its stored genre. -/
theorem primary_no_genre_filter_witness :
    0 < 1 ∧ mismatchStore.available = true ∧
    mismatchStore.primary = .ok ⟨[lit "stored doc"], [mismatchMeta], [(0 : ℚ)]⟩ ∧
    processCandidate (lit "segment") (lit "jazz") (lit "stored doc") mismatchMeta 0 =
      some mismatchRecord ∧
    retrieveSimilarPatterns (lit "jazz") (lit "") (lit "segment") 1 mismatchStore =
      [mismatchRecord] :=
  ⟨by decide, rfl, rfl, by rfl,
   (primary_no_genre_filter (lit "segment") (lit "jazz")).2.2 (lit "") 1 mismatchStore
     (lit "stored doc") mismatchMeta 0 mismatchRecord (by decide) rfl rfl (by rfl)⟩

/-! ## The embedding adapter: claims about `MIDIEmbeddingFunction.__call__` -/

/-- Whether an external call succeeded. -/
def exOk : Except Unit (List ℚ) → Bool
  | .ok _ => true
  | .error _ => false

theorem embedLoop_length {provider : Str → Except Unit (List ℚ)} :
    ∀ {input : List Str} {es : List (List ℚ)}, embedLoop provider input = some es →
      es.length = input.length := by
  intro input
  induction input with
  | nil =>
    intro es h
    cases h
    rfl
  | cons t ts ih =>
    intro es h
    unfold embedLoop at h
    split at h
    · next e he =>
      rcases hm : embedLoop provider ts with _ | es2 <;> rw [hm] at h
      · cases h
      · cases h
        simp [ih hm]
    · cases h

theorem embedLoop_all_ok {provider : Str → Except Unit (List ℚ)} :
    ∀ {input : List Str}, (∀ t ∈ input, exOk (provider t) = true) →
      embedLoop provider input =
        some (input.map (fun t =>
          match provider t with | .ok e => e | .error _ => List.replicate 768 (0 : ℚ))) := by
  intro input
  induction input with
  | nil => intro _; rfl
  | cons t ts ih =>
    intro hall
    have ht := hall t (List.mem_cons_self _ _)
    rcases hp : provider t with e | e
    · rw [hp] at ht
      simp [exOk] at ht
    · unfold embedLoop
      rw [hp, ih (fun x hx => hall x (List.mem_cons_of_mem _ hx))]
      simp [hp]

theorem embedLoop_failure {provider : Str → Except Unit (List ℚ)} :
    ∀ {input : List Str}, (∃ t ∈ input, exOk (provider t) = false) →
      embedLoop provider input = none := by
  intro input
  induction input with
  | nil => rintro ⟨t, ht, _⟩; cases ht
  | cons t ts ih =>
    rintro ⟨t2, ht2, hbad⟩
    unfold embedLoop
    rcases List.mem_cons.mp ht2 with rfl | hmem
    · rcases hp : provider t2 with e | e
      · rfl
      · rw [hp] at hbad
        simp [exOk] at hbad
    · rcases hp : provider t with e | e
      · rfl
      · rw [ih ⟨t2, hmem, hbad⟩]
        rfl

/-- Claim C8 (amended): the embedding adapter is total and returns exactly
one vector per input text; when every provider call succeeds each text gets
its real embedding; but on any single failure the whole batch — successes
included — is replaced by 768-dimensional zero vectors (the `try` wraps the
whole loop, so there is no per-text substitution). -/
theorem embedCall_props (provider : Str → Except Unit (List ℚ)) (input : List Str) :
    (embedCall provider input).length = input.length ∧
    ((∀ t ∈ input, exOk (provider t) = true) →
      embedCall provider input =
        input.map (fun t =>
          match provider t with | .ok e => e | .error _ => List.replicate 768 (0 : ℚ))) ∧
    ((∃ t ∈ input, exOk (provider t) = false) →
      ∀ v ∈ embedCall provider input, v = List.replicate 768 (0 : ℚ)) := by
  refine ⟨?_, ?_, ?_⟩
  · unfold embedCall
    rcases hm : embedLoop provider input with _ | es
    · simp
    · simpa using embedLoop_length hm
  · intro hall
    unfold embedCall
    rw [embedLoop_all_ok hall]
  · intro hex v hv
    unfold embedCall at hv
    rw [embedLoop_failure hex] at hv
    obtain ⟨t, _, rfl⟩ := List.mem_map.mp hv
    rfl

/-- A provider that fails on the text `"b"` only. -/
def failProvider : Str → Except Unit (List ℚ) := fun t =>
  if t = lit "b" then .error () else .ok [1]

/-- Counterexample to C8 as stated: with a two-text batch whose second text
fails, the first text does not keep its real embedding `[1]` — both entries
are zero vectors. -/
theorem embedCall_counterexample :
    embedCall failProvider [lit "a", lit "b"] =
      [List.replicate 768 (0 : ℚ), List.replicate 768 (0 : ℚ)] ∧
    failProvider (lit "a") = .ok [(1 : ℚ)] ∧
    List.replicate 768 (0 : ℚ) ≠ [(1 : ℚ)] := by
  refine ⟨by rfl, by rfl, fun h => ?_⟩
  have := congrArg List.length h
  simp at this

/-- Witness for the amended C8 at the concrete failing batch. -/
theorem embedCall_props_witness :
    (∃ t ∈ [lit "a", lit "b"], exOk (failProvider t) = false) ∧
    (∀ v ∈ embedCall failProvider [lit "a", lit "b"], v = List.replicate 768 (0 : ℚ)) :=
  ⟨⟨lit "b", by decide, by rfl⟩,
   (embedCall_props failProvider [lit "a", lit "b"]).2.2 ⟨lit "b", by decide, by rfl⟩⟩

/-! ## The MIDI pattern extractor of `src/load_tegridy_midi_to_chromadb.py` -/

/-- A `pretty_midi` note. -/
structure PMNote where
  pitch : Int
  start : ℚ
  stop : ℚ
  velocity : Int
deriving DecidableEq

/-- A `pretty_midi` instrument. -/
structure PMInstrument where
  program : Nat
  is_drum : Bool
  notes : List PMNote
deriving DecidableEq

/-- A parsed `pretty_midi.PrettyMIDI` object. -/
structure PrettyMIDI where
  instruments : List PMInstrument
deriving DecidableEq

/-- `pm.get_end_time()`: the largest event end time (note ends in this
model; `0.0` for an empty file, as in `pretty_midi`). -/
def PrettyMIDI.getEndTime (pm : PrettyMIDI) : ℚ :=
  ((pm.instruments.flatMap (fun i => i.notes)).map (fun n => n.stop)).foldr max 0

/-- `os.path.split` for `os.sep = "/"`: split at the last separator and
strip trailing separators from the head unless it is all separators. -/
def pySplitPath (p : Str) : Str × Str :=
  let tail := (p.reverse.takeWhile (fun c => c ≠ '/')).reverse
  let head := p.take (p.length - tail.length)
  let head2 :=
    if head ≠ [] ∧ ¬ (head.all (fun c => c = '/')) then
      (head.reverse.dropWhile (fun c => c = '/')).reverse
    else head
  (head2, tail)

/-- `os.path.basename`. -/
def pathBasename (p : Str) : Str := (pySplitPath p).2

/-- `os.path.dirname`. -/
def pathDirname (p : Str) : Str := (pySplitPath p).1

/-- The `tegridy_specific_genres` table (in dict insertion order). -/
def tegridySpecificGenres : List (Str × List Str) :=
  [(lit "classical", [lit "classical-piano-strings", lit "piano", lit "tegridy-piano"]),
   (lit "jazz", [lit "tegridy-jazz", lit "jazz-collection"]),
   (lit "rock", [lit "rock-collection", lit "tegridy-rock"]),
   (lit "pop", [lit "tegridy-pop", lit "pop-collection"]),
   (lit "ambient", [lit "ambient", lit "relax-in-tegridy"]),
   (lit "children", [lit "tegridy-children", lit "children-songs"]),
   (lit "anime", [lit "beautiful-anime", lit "anime-masterpieces"]),
   (lit "film", [lit "gothic-horror-movies", lit "soundtrack"])]

/-- The `genre_keywords` table (in dict insertion order). -/
def genreKeywords : List (Str × List Str) :=
  [(lit "classical", [lit "classical", lit "baroque", lit "romantic", lit "piano", lit "mozart",
      lit "beethoven", lit "bach", lit "chopin", lit "strings"]),
   (lit "jazz", [lit "jazz", lit "blues", lit "swing", lit "bebop", lit "fusion", lit "dixieland"]),
   (lit "rock", [lit "rock", lit "metal", lit "punk", lit "indie", lit "alternative", lit "guitar"]),
   (lit "pop", [lit "pop", lit "dance", lit "disco", lit "edm", lit "electronic", lit "synth"]),
   (lit "folk", [lit "folk", lit "country", lit "bluegrass", lit "acoustic", lit "americana"]),
   (lit "hip-hop", [lit "hip", lit "hop", lit "rap", lit "trap", lit "beats", lit "rhyme"]),
   (lit "r&b", [lit "r&b", lit "rnb", lit "soul", lit "funk", lit "motown"]),
   (lit "latin", [lit "latin", lit "salsa", lit "bossa", lit "tango", lit "samba", lit "flamenco"]),
   (lit "world", [lit "world", lit "ethnic", lit "traditional", lit "asian", lit "african", lit "indian"]),
   (lit "ambient", [lit "ambient", lit "chillout", lit "lounge", lit "relaxation", lit "meditation", lit "relax"]),
   (lit "film", [lit "soundtrack", lit "score", lit "film", lit "movie", lit "cinematic", lit "horror"]),
   (lit "video-game", [lit "game", lit "gaming", lit "video game", lit "8bit", lit "chiptune", lit "arcade"])]

/-- First dataset-specific folder pattern matching the file/parent/
grandparent names. -/
def findSpecific (fileName parentDir grandparentDir : Str) :
    List (Str × List Str) → Option Str
  | [] => none
  | (g, pats) :: rest =>
    if pats.any (fun pat => pyIn pat parentDir || pyIn pat grandparentDir || pyIn pat fileName)
    then some g
    else findSpecific fileName parentDir grandparentDir rest

/-- First genre one of whose keywords occurs in `fullPath`. -/
def findKeywordIn (fullPath : Str) : List (Str × List Str) → Option Str
  | [] => none
  | (g, kws) :: rest =>
    if kws.any (fun kw => pyIn kw fullPath) then some g else findKeywordIn fullPath rest

/-- First genre whose keyword list contains the path segment exactly. -/
def genreOfPart (part : Str) : List (Str × List Str) → Option Str
  | [] => none
  | (g, kws) :: rest => if kws.contains part then some g else genreOfPart part rest

/-- Outer loop over path segments of the exact-segment match. -/
def findPartMatch (tbl : List (Str × List Str)) : List Str → Option Str
  | [] => none
  | part :: rest =>
    match genreOfPart part tbl with
    | some g => some g
    | none => findPartMatch tbl rest

/-- `detect_genre_from_path` (lines 208-262). -/
def detect_genre_from_path (filePath : Str) : Str :=
  let pathLower := pyLower filePath
  let fileName := pathBasename pathLower
  let parentDir := pathBasename (pathDirname pathLower)
  let grandparentDir := pathBasename (pathDirname (pathDirname pathLower))
  match findSpecific fileName parentDir grandparentDir tegridySpecificGenres with
  | some g => g
  | none =>
    if pyIn (lit "tegridy") pathLower &&
        (pyIn (lit "piano") pathLower || pyIn (lit "classical") pathLower) then lit "classical"
    else if pyIn (lit "tegridy") pathLower && pyIn (lit "melodies") pathLower then lit "misc"
    else if pyIn (lit "tegridy") pathLower && pyIn (lit "children") pathLower then lit "children"
    else if pyIn (lit "beautiful") pathLower && pyIn (lit "anime") pathLower then lit "anime"
    else if pyIn (lit "beautiful") pathLower && pyIn (lit "music") pathLower then lit "classical"
    else
      let fullPath := fileName ++ lit " " ++ parentDir ++ lit " " ++ grandparentDir
      match findKeywordIn fullPath genreKeywords with
      | some g => g
      | none =>
        match findPartMatch genreKeywords (pySplit pathLower (lit "/")) with
        | some g => g
        | none => lit "misc"

/-- `normalize_instrument_name` (lines 264-297); `progToName` stands for the
external `pretty_midi.program_to_instrument_name`. -/
def normalize_instrument_name (progToName : Nat → Str) (inst : PMInstrument) : Str :=
  if inst.is_drum then lit "drums"
  else
    let instName := pyLower (progToName inst.program)
    if [lit "piano", lit "grand", lit "bright", lit "honky"].any (fun x => pyIn x instName) then
      lit "piano"
    else if [lit "guitar", lit "acoustic"].any (fun x => pyIn x instName) then
      lit "acoustic_guitar"
    else if [lit "electric guitar"].any (fun x => pyIn x instName) then
      lit "electric_guitar"
    else if [lit "bass"].any (fun x => pyIn x instName) then
      lit "bass"
    else if [lit "violin", lit "viola", lit "cello", lit "contrabass", lit "string"].any
        (fun x => pyIn x instName) then
      lit "strings"
    else if [lit "trumpet", lit "trombone", lit "tuba", lit "brass", lit "horn"].any
        (fun x => pyIn x instName) then
      lit "brass"
    else if [lit "sax", lit "clarinet", lit "flute", lit "piccolo", lit "oboe", lit "wind"].any
        (fun x => pyIn x instName) then
      lit "woodwinds"
    else if [lit "synth"].any (fun x => pyIn x instName) then
      lit "synth"
    else if [lit "organ"].any (fun x => pyIn x instName) then
      lit "organ"
    else lit "other"

/-- `extract_notes_from_instrument` (lines 299-312):
`(pitch, start, duration, velocity)` for the first `max_notes` notes. -/
def extract_notes_from_instrument (inst : PMInstrument) (maxNotes : Nat) :
    List (Int × ℚ × ℚ × Int) :=
  (inst.notes.take maxNotes).map (fun n => (n.pitch, n.start, n.stop - n.start, n.velocity))

/-- The harmony-capable instruments of `extract_chord_progression`. -/
def chordInstruments (progToName : Nat → Str) (pm : PrettyMIDI) : List PMInstrument :=
  pm.instruments.filter (fun inst =>
    [lit "piano", lit "acoustic_guitar", lit "electric_guitar", lit "organ", lit "synth"].contains
      (normalize_instrument_name progToName inst))

/-- The distinct pitch classes of notes sounding at instant `t`
(`note.start <= current_time < note.end`) across the given instruments. -/
def activePitchClasses (insts : List PMInstrument) (t : ℚ) : Finset Int :=
  (((insts.flatMap (fun i => i.notes)).filter
      (fun n => decide (n.start ≤ t) && decide (t < n.stop))).map
    (fun n => n.pitch % 12)).toFinset

/-- One extracted chord record `{"pitches": ..., "duration": step, "time":
...}` (the source emits no `"root"` key here). -/
structure ChordRec where
  pitches : List Int
  duration : ℚ
  time : ℚ
deriving DecidableEq

/-- The number of iterations of `while current_time < end_time` with
`current_time` starting at `start` and stepping by `2.0` (all the float
arithmetic involved is exact). -/
def numChordSteps (start endTime : ℚ) : Nat := ⌈(endTime - start) / 2⌉₊

/-- `extract_chord_progression` (lines 314-354). -/
def extract_chord_progression (progToName : Nat → Str) (pm : PrettyMIDI)
    (start : ℚ) (endTime? : Option ℚ) (minNotes : Nat) : List ChordRec :=
  let endTime := endTime?.getD pm.getEndTime
  if chordInstruments progToName pm = [] then []
  else
    (List.range (numChordSteps start endTime)).filterMap (fun (k : Nat) =>
      let t : ℚ := start + 2 * (k : ℚ)
      let aps := activePitchClasses (chordInstruments progToName pm) t
      if minNotes ≤ aps.card then
        some { pitches := aps.sort (· ≤ ·), duration := 2, time := t }
      else none)

/-- The extracted melody pattern (`{}` is modelled by `none` at the
caller). -/
structure MelodyRec where
  intervals : List Int
  startPitch : Int
  instrumentName : Str
deriving DecidableEq

/-- Python `max(xs, key=f)`: the first element attaining the maximum. -/
def pyMaxBy (key : PMInstrument → Nat) : List PMInstrument → Option PMInstrument
  | [] => none
  | x :: xs => some (xs.foldl (fun best y => if key best < key y then y else best) x)

/-- `extract_melody_pattern` (lines 356-397). -/
def extract_melody_pattern (progToName : Nat → Str) (pm : PrettyMIDI) : Option MelodyRec :=
  if pm.instruments = [] then none
  else
    let melodyFamilies := pm.instruments.filter (fun inst =>
      [lit "piano", lit "woodwinds", lit "brass", lit "strings", lit "synth"].contains
          (normalize_instrument_name progToName inst) &&
        decide (10 ≤ inst.notes.length))
    let melodyInstruments :=
      if melodyFamilies = [] then
        pm.instruments.filter (fun i => decide (10 ≤ i.notes.length))
      else melodyFamilies
    if melodyInstruments = [] then none
    else
      match pyMaxBy (fun x => (x.notes.filter (fun n => decide (60 < n.pitch))).length)
          melodyInstruments with
      | none => none
      | some lead =>
        if lead.notes = [] then none
        else
          let notes := (lead.notes.mergeSort (fun a b => decide (a.start ≤ b.start))).take 50
          match notes with
          | [] => none
          | n0 :: _ =>
            some { intervals := List.zipWith (fun a b => b.pitch - a.pitch) notes notes.tail,
                   startPitch := n0.pitch,
                   instrumentName := normalize_instrument_name progToName lead }

/-- One instrument entry of a musical segment. -/
structure InstTrack where
  name : Str
  program : Nat
  is_drum : Bool
  notes : List (Int × ℚ × ℚ × Int)
deriving DecidableEq

/-- The extracted multi-instrument segment. -/
structure Segment where
  instruments : List InstTrack
  duration : ℚ
deriving DecidableEq

/-- The `patterns` dictionary built by `extract_patterns_from_midi`; each
chord-progression entry is the dict `{"chords": [...]}`, modelled by its
chord list. -/
structure PatternsBundle where
  segments : List Segment
  chordProgressions : List (List ChordRec)
  melodies : List MelodyRec
  filename : Str
  genre : Str
deriving DecidableEq

/-- The `pattern_counts` dictionary. -/
structure PatternCounts where
  segments : Nat
  chordProgressions : Nat
  melodies : Nat
  rhythms : Nat
deriving DecidableEq

/-- The three distinct values `extract_patterns_from_midi` can return: the
bare `{}` of line 407 (the zero-instruments / under-5-seconds filter), the
pair `({}, {})` of line 457 (the `except` path), and a proper
`(patterns, pattern_counts)` pair. -/
inductive ExtractResult where
  | emptyDict : ExtractResult
  | emptyPair : ExtractResult
  | ok (patterns : PatternsBundle) (counts : PatternCounts) : ExtractResult
deriving DecidableEq

/-- `extract_patterns_from_midi` (lines 399-457); `parsed` is the outcome of
the external `pretty_midi.PrettyMIDI(midi_path)` call. -/
def extract_patterns_from_midi (progToName : Nat → Str) (midiPath : Str)
    (parsed : Except Unit PrettyMIDI) : ExtractResult :=
  match parsed with
  | .error _ => .emptyPair
  | .ok pm =>
    if pm.instruments = [] ∨ pm.getEndTime < 5 then .emptyDict
    else
      let segInsts := pm.instruments.filterMap (fun inst =>
        if inst.notes.length < 5 then none
        else
          let notes := extract_notes_from_instrument inst 100
          if notes = [] then none
          else some { name := normalize_instrument_name progToName inst,
                      program := inst.program, is_drum := inst.is_drum,
                      notes := notes : InstTrack })
      let chordProgression := extract_chord_progression progToName pm 0 none 3
      let melodyPattern := extract_melody_pattern progToName pm
      .ok
        { segments := if segInsts = [] then [] else [⟨segInsts, pm.getEndTime⟩],
          chordProgressions := if chordProgression = [] then [] else [chordProgression],
          melodies := match melodyPattern with | some m => [m] | none => [],
          filename := pathBasename midiPath,
          genre := detect_genre_from_path midiPath }
        { segments := if segInsts = [] then 0 else 1,
          chordProgressions := if chordProgression = [] then 0 else 1,
          melodies := match melodyPattern with | some _ => 1 | none => 0,
          rhythms := 0 }

/-- Claim C6 (a code bug): a MIDI file that parses successfully but has
zero instruments or a total duration under 5 seconds makes
`extract_patterns_from_midi` return the bare `{}` of line 407 — not the
pair `({}, {})` that the exception path returns and that both callers
(which unpack `patterns, pattern_counts = ...`) expect. -/
theorem extract_short_returns_bare_dict (progToName : Nat → Str) (path : Str)
    (pm : PrettyMIDI) (h : pm.instruments = [] ∨ pm.getEndTime < 5) :
    extract_patterns_from_midi progToName path (.ok pm) = ExtractResult.emptyDict ∧
    extract_patterns_from_midi progToName path (.error ()) = ExtractResult.emptyPair ∧
    ExtractResult.emptyDict ≠ ExtractResult.emptyPair := by
  refine ⟨?_, rfl, by decide⟩
  unfold extract_patterns_from_midi
  simp only [if_pos h]

/-- Witness for C6 at a parsed file with no instruments. -/
theorem extract_short_returns_bare_dict_witness :
    ((⟨[]⟩ : PrettyMIDI).instruments = [] ∨ (⟨[]⟩ : PrettyMIDI).getEndTime < 5) ∧
    (extract_patterns_from_midi (fun _ => lit "piano") (lit "short.mid") (.ok ⟨[]⟩) =
        ExtractResult.emptyDict ∧
      extract_patterns_from_midi (fun _ => lit "piano") (lit "short.mid") (.error ()) =
        ExtractResult.emptyPair ∧
      ExtractResult.emptyDict ≠ ExtractResult.emptyPair) :=
  ⟨Or.inl rfl,
   extract_short_returns_bare_dict (fun _ => lit "piano") (lit "short.mid") ⟨[]⟩ (Or.inl rfl)⟩

/-- Claim C7: `extract_chord_progression` (as called by the extractor:
start 0, end `get_end_time()`, `min_notes = 3`) emits a chord record at
time `t` if and only if `t` is one of the 2-second sample instants before
the end of the file and at least 3 distinct pitch classes are sounding at
`t` across the harmony-capable instruments. -/
theorem chord_progression_sampling (progToName : Nat → Str) (pm : PrettyMIDI) (t : ℚ) :
    (∃ c ∈ extract_chord_progression progToName pm 0 none 3, c.time = t) ↔
      ((∃ k : ℕ, t = 2 * k ∧ t < pm.getEndTime) ∧
        3 ≤ (activePitchClasses (chordInstruments progToName pm) t).card) := by
  simp only [extract_chord_progression, Option.getD]
  by_cases hci : chordInstruments progToName pm = []
  · rw [if_pos hci]
    constructor
    · rintro ⟨c, hc, _⟩
      exact absurd hc (List.not_mem_nil c)
    · rintro ⟨_, hcard⟩
      rw [hci] at hcard
      simp [activePitchClasses] at hcard
  · rw [if_neg hci]
    constructor
    · rintro ⟨c, hc, htime⟩
      obtain ⟨k, hk, hsome⟩ := List.mem_filterMap.mp hc
      rw [List.mem_range] at hk
      split at hsome
      · next hcard =>
        cases hsome
        have ht2 : t = 2 * (k : ℚ) := by rw [← htime]; ring
        refine ⟨⟨k, ht2, ?_⟩, ?_⟩
        · have := Nat.lt_ceil.mp hk
          rw [ht2]
          nlinarith
        · rw [show (0 : ℚ) + 2 * k = t from by rw [ht2]; ring] at hcard
          exact hcard
      · cases hsome
    · rintro ⟨⟨k, rfl, hlt⟩, hcard⟩
      have hk : k < numChordSteps 0 pm.getEndTime := by
        rw [numChordSteps]
        rw [Nat.lt_ceil]
        rw [lt_div_iff₀ (by norm_num : (0:ℚ) < 2)]
        nlinarith
      have ht0 : (0 : ℚ) + 2 * k = 2 * (k : ℚ) := by ring
      refine ⟨⟨(activePitchClasses (chordInstruments progToName pm) ((0:ℚ) + 2 * k)).sort (· ≤ ·),
        2, (0:ℚ) + 2 * k⟩, List.mem_filterMap.mpr ⟨k, List.mem_range.mpr hk, ?_⟩, ?_⟩
      · rw [if_pos (by rw [ht0]; exact hcard)]
      · exact ht0

/-! ## Printer/parser round trip for the JSON model -/

theorem digitChar_isDigit {d : Nat} (h : d < 10) : (digitChar d).isDigit = true := by
  interval_cases d <;> decide

theorem digitVal_digitChar {d : Nat} (h : d < 10) : digitVal (digitChar d) = d := by
  interval_cases d <;> decide

theorem natToChars_ne_nil (n : Nat) : natToChars n ≠ [] := by
  unfold natToChars
  split
  · simp
  · next h =>
    simp [List.map_eq_nil_iff, List.reverse_eq_nil_iff, Nat.digits_ne_nil_iff_ne_zero.mpr h]

theorem natToChars_all_digits (n : Nat) : ∀ c ∈ natToChars n, c.isDigit = true := by
  unfold natToChars
  split
  · intro c hc
    rw [List.mem_singleton] at hc
    subst hc
    decide
  · intro c hc
    rw [List.mem_map] at hc
    obtain ⟨d, hd, rfl⟩ := hc
    rw [List.mem_reverse] at hd
    exact digitChar_isDigit (Nat.digits_lt_base (by norm_num) hd)

theorem natToChars_head_digit (n : Nat) :
    ∃ c t, natToChars n = c :: t ∧ c.isDigit = true := by
  rcases h : natToChars n with _ | ⟨c, t⟩
  · exact absurd h (natToChars_ne_nil n)
  · exact ⟨c, t, rfl, natToChars_all_digits n c (h ▸ List.mem_cons_self _ _)⟩

theorem isDigit_ne_minus {c : Char} (h : c.isDigit = true) : c ≠ '-' := by
  rintro rfl
  simp at h

theorem digitsVal_aux (ds : List Nat) (a : Nat) (h : ∀ d ∈ ds, d < 10) :
    (ds.reverse.map digitChar).foldl (fun x c => 10 * x + digitVal c) a
      = a * 10 ^ ds.length + Nat.ofDigits 10 ds := by
  induction ds generalizing a with
  | nil => simp
  | cons d t ih =>
    rw [List.reverse_cons, List.map_append, List.foldl_append]
    rw [ih a (fun x hx => h x (List.mem_cons_of_mem _ hx))]
    simp only [List.map_cons, List.map_nil, List.foldl_cons, List.foldl_nil]
    rw [digitVal_digitChar (h d (List.mem_cons_self _ _))]
    rw [Nat.ofDigits_cons]
    simp only [List.length_cons, pow_succ]
    ring

theorem digitsVal_natToChars (n : Nat) : digitsVal (natToChars n) = n := by
  unfold digitsVal natToChars
  split
  · next h => subst h; decide
  · rw [digitsVal_aux _ 0 (fun d hd => Nat.digits_lt_base (by norm_num) hd)]
    simp [Nat.ofDigits_digits]

theorem digitsVal_replicate_zero (k : Nat) (X : Str) :
    digitsVal (List.replicate k '0' ++ X) = digitsVal X := by
  induction k with
  | zero => rfl
  | succ k ih => simpa [List.replicate_succ, digitsVal] using ih

theorem digitsLen_le_of_lt_pow {m e : Nat} (h : m < 10 ^ e) :
    (Nat.digits 10 m).length ≤ e := by
  by_contra hgt
  push_neg at hgt
  have hm : m ≠ 0 := by
    intro h0
    subst h0
    simp at hgt
  have h1 : 10 ^ (Nat.digits 10 m).length ≤ 10 * m :=
    Nat.base_pow_length_digits_le 10 m (by norm_num) hm
  have h2 : 10 ^ (e + 1) ≤ 10 ^ (Nat.digits 10 m).length :=
    Nat.pow_le_pow_right (by norm_num) hgt
  have h3 : 10 ^ e * 10 ≤ 10 * m := by
    rw [← pow_succ]
    exact le_trans h2 h1
  omega

theorem natToChars_length_le {m e : Nat} (he : 0 < e) (h : m < 10 ^ e) :
    (natToChars m).length ≤ e := by
  unfold natToChars
  split
  · simpa using he
  · rw [List.length_map, List.length_reverse]
    exact digitsLen_le_of_lt_pow h

theorem takeWhileAppendAll {p : Char → Bool} {A : Str} (B : Str) (h : ∀ a ∈ A, p a = true) :
    (A ++ B).takeWhile p = A ++ B.takeWhile p := by
  induction A with
  | nil => simp
  | cons a A ih =>
    simp only [List.cons_append, List.takeWhile_cons, h a (List.mem_cons_self _ _), if_true]
    rw [ih (fun x hx => h x (List.mem_cons_of_mem _ hx))]

theorem dropWhileAppendAll {p : Char → Bool} {A : Str} (B : Str) (h : ∀ a ∈ A, p a = true) :
    (A ++ B).dropWhile p = B.dropWhile p := by
  induction A with
  | nil => simp
  | cons a A ih =>
    simp only [List.cons_append, List.dropWhile_cons, h a (List.mem_cons_self _ _)]
    rw [ih (fun x hx => h x (List.mem_cons_of_mem _ hx))]
    simp

/-- All characters of a string are JSON whitespace. -/
def AllWs (sp : Str) : Prop := ∀ c ∈ sp, isJsonWs c = true

/-- The remaining input cannot extend a just-parsed number: it is empty or
starts with a character that is neither a digit nor a decimal point. -/
def NumCloser (r : Str) : Prop :=
  ∀ c, r.head? = some c → c.isDigit = false ∧ c ≠ '.'

theorem allWs_nil : AllWs [] := by
  intro c hc
  simp at hc

theorem allWs_space : AllWs [' '] := by
  intro c hc
  rw [List.mem_singleton] at hc
  subst hc
  decide

theorem numCloser_nil : NumCloser [] := by
  intro c hc
  simp at hc

theorem numCloser_cons {c : Char} (h1 : c.isDigit = false) (h2 : c ≠ '.') (t : Str) :
    NumCloser (c :: t) := by
  intro d hd
  simp only [List.head?_cons, Option.some.injEq] at hd
  subst hd
  exact ⟨h1, h2⟩

theorem numCloser_take {r : Str} (h : NumCloser r) : r.takeWhile Char.isDigit = [] := by
  cases r with
  | nil => rfl
  | cons c t =>
    have := (h c rfl).1
    simp [List.takeWhile_cons, this]

theorem numCloser_drop {r : Str} (h : NumCloser r) : r.dropWhile Char.isDigit = r := by
  cases r with
  | nil => rfl
  | cons c t =>
    have := (h c rfl).1
    simp [List.dropWhile_cons, this]

theorem skipWs_cons_notWs {c : Char} (h : isJsonWs c = false) (t : Str) :
    skipWs (c :: t) = c :: t := by
  simp [skipWs, List.dropWhile_cons, h]

theorem skipWs_append {sp : Str} (h : AllWs sp) (t : Str) :
    skipWs (sp ++ t) = skipWs t :=
  dropWhileAppendAll t h

theorem isDigit_ne {c d : Char} (h : c.isDigit = true) (hd : d.isDigit = false) :
    c ≠ d := by
  rintro rfl
  rw [h] at hd
  cases hd

theorem isDigit_not_ws {c : Char} (h : c.isDigit = true) : isJsonWs c = false := by
  cases hw : isJsonWs c with
  | false => rfl
  | true =>
    simp only [isJsonWs, Bool.or_eq_true, beq_iff_eq] at hw
    rcases hw with ((rfl | rfl) | rfl) | rfl <;> exact absurd h (by decide)

theorem intToChars_ne_nil (m : Int) : intToChars m ≠ [] := by
  unfold intToChars
  split
  · simp
  · exact natToChars_ne_nil _

theorem numToChars_ne_nil (m : Int) (e : Nat) : numToChars m e ≠ [] := by
  simp only [numToChars]
  split
  · exact intToChars_ne_nil m
  · intro h
    rcases List.append_eq_nil.mp h with ⟨h1, h2⟩
    cases h2

theorem numToChars_head (m : Int) (e : Nat) :
    ∃ c t, numToChars m e = c :: t ∧ (c = '-' ∨ c.isDigit = true) := by
  simp only [numToChars]
  split
  · simp only [intToChars]
    split
    · exact ⟨'-', _, rfl, Or.inl rfl⟩
    · obtain ⟨c, t, hct, hcd⟩ := natToChars_head_digit m.natAbs
      exact ⟨c, t, hct, Or.inr hcd⟩
  · split
    · exact ⟨'-', _, rfl, Or.inl rfl⟩
    · obtain ⟨c, t, hct, hcd⟩ := natToChars_head_digit (m.natAbs / 10 ^ e)
      rw [List.nil_append, hct, List.cons_append]
      exact ⟨c, _, rfl, Or.inr hcd⟩

theorem dump_head (j : Json) :
    ∃ c t, Json.dump j = c :: t ∧ isJsonWs c = false ∧ c ≠ ']' ∧ c ≠ '}' := by
  cases j with
  | null => exact ⟨'n', _, rfl, by decide⟩
  | bool b =>
    cases b with
    | true => exact ⟨'t', _, rfl, by decide⟩
    | false => exact ⟨'f', _, rfl, by decide⟩
  | num m e =>
    obtain ⟨c, t, hct, hc⟩ := numToChars_head m e
    refine ⟨c, t, hct, ?_, ?_, ?_⟩
    · rcases hc with rfl | hd
      · decide
      · exact isDigit_not_ws hd
    · rcases hc with rfl | hd
      · decide
      · exact isDigit_ne hd (by decide)
    · rcases hc with rfl | hd
      · decide
      · exact isDigit_ne hd (by decide)
  | str s => exact ⟨'"', _, rfl, by decide⟩
  | arr l => exact ⟨'[', _, rfl, by decide⟩
  | obj fs => exact ⟨'{', _, rfl, by decide⟩

theorem dumpElems_head (j : Json) (tl : JsonList) :
    ∃ c t, JsonList.dumpElems (.cons j tl) = c :: t ∧
      isJsonWs c = false ∧ c ≠ ']' ∧ c ≠ '}' := by
  obtain ⟨c, t, hct, h1, h2, h3⟩ := dump_head j
  cases tl with
  | nil => exact ⟨c, t, by simp [JsonList.dumpElems, hct], h1, h2, h3⟩
  | cons j2 tl2 =>
    exact ⟨c, t ++ ',' :: ' ' :: JsonList.dumpElems (.cons j2 tl2),
      by simp [JsonList.dumpElems, hct], h1, h2, h3⟩

theorem dumpFields_head (k : Str) (v : Json) (tl : JsonFields) :
    ∃ t, JsonFields.dumpFields (.fcons k v tl) = '"' :: t := by
  cases tl with
  | fnil => exact ⟨_, rfl⟩
  | fcons k2 v2 tl2 => exact ⟨_, rfl⟩

theorem isHexB_hexDigitChar {d : Nat} (h : d < 16) : isHexB (hexDigitChar d) = true := by
  interval_cases d <;> decide

theorem hexVal_hexDigitChar {d : Nat} (h : d < 16) : hexVal (hexDigitChar d) = d := by
  interval_cases d <;> decide

theorem parseStrAux_quote (rest : Str) : parseStrAux ('"' :: rest) = some ([], rest) := by
  rw [parseStrAux.eq_def]
  simp

theorem parseStrAux_esc2 {e d : Char} (he : escDecode e = some d) (hne : e ≠ 'u')
    (rest : Str) :
    parseStrAux ('\\' :: e :: rest)
      = (parseStrAux rest).map (fun p => (d :: p.1, p.2)) := by
  rw [parseStrAux.eq_def]
  simp only [if_neg (show ¬('\\' = '"') by decide), if_pos rfl]
  rw [if_neg hne, he]
  simp

theorem parseStrAux_unicode {h1 h2 h3 h4 : Char}
    (hh1 : isHexB h1 = true) (hh2 : isHexB h2 = true)
    (hh3 : isHexB h3 = true) (hh4 : isHexB h4 = true) (rest : Str) :
    parseStrAux ('\\' :: 'u' :: h1 :: h2 :: h3 :: h4 :: rest)
      = (parseStrAux rest).map (fun p =>
          (Char.ofNat (((hexVal h1 * 16 + hexVal h2) * 16 + hexVal h3) * 16 + hexVal h4)
            :: p.1, p.2)) := by
  rw [parseStrAux.eq_def]
  simp only [if_neg (show ¬('\\' = '"') by decide), if_pos rfl]
  simp [hh1, hh2, hh3, hh4]

theorem parseStrAux_plain {c : Char} (h1 : c ≠ '"') (h2 : c ≠ '\\') (rest : Str) :
    parseStrAux (c :: rest)
      = (parseStrAux rest).map (fun p => (c :: p.1, p.2)) := by
  rw [parseStrAux.eq_def]
  simp only [if_neg h1, if_neg h2]

theorem parseStrAux_escape (s rest : Str) :
    parseStrAux (escapeStr s ++ '"' :: rest) = some (s, rest) := by
  induction s with
  | nil => simp [escapeStr, parseStrAux_quote]
  | cons c s ih =>
    have hesc : escapeStr (c :: s) = escapeChar c ++ escapeStr s := by
      simp [escapeStr]
    rw [hesc, List.append_assoc]
    by_cases hq : c = '"'
    · subst hq
      have he : escapeChar '"' = ['\\', '"'] := rfl
      rw [he, List.cons_append, List.cons_append, List.nil_append]
      rw [@parseStrAux_esc2 '"' '"' (by decide) (by decide), ih]
      rfl
    · by_cases hb : c = '\\'
      · subst hb
        have he : escapeChar '\\' = ['\\', '\\'] := rfl
        rw [he, List.cons_append, List.cons_append, List.nil_append]
        rw [@parseStrAux_esc2 '\\' '\\' (by decide) (by decide), ih]
        rfl
      · by_cases hn : c = '\n'
        · subst hn
          have he : escapeChar '\n' = ['\\', 'n'] := rfl
          rw [he, List.cons_append, List.cons_append, List.nil_append]
          rw [@parseStrAux_esc2 'n' '\n' (by decide) (by decide), ih]
          rfl
        · by_cases ht : c = '\t'
          · subst ht
            have he : escapeChar '\t' = ['\\', 't'] := rfl
            rw [he, List.cons_append, List.cons_append, List.nil_append]
            rw [@parseStrAux_esc2 't' '\t' (by decide) (by decide), ih]
            rfl
          · by_cases hr : c = '\r'
            · subst hr
              have he : escapeChar '\r' = ['\\', 'r'] := rfl
              rw [he, List.cons_append, List.cons_append, List.nil_append]
              rw [@parseStrAux_esc2 'r' '\r' (by decide) (by decide), ih]
              rfl
            · by_cases hc : c.toNat < 32
              · have he : escapeChar c
                    = ['\\', 'u', '0', '0', hexDigitChar (c.toNat / 16),
                       hexDigitChar (c.toNat % 16)] := by
                  simp only [escapeChar, if_neg hq, if_neg hb, if_neg hn, if_neg ht,
                    if_neg hr, if_pos hc]
                have hq16 : c.toNat / 16 < 16 := by omega
                have hr16 : c.toNat % 16 < 16 := Nat.mod_lt _ (by norm_num)
                rw [he]
                simp only [List.cons_append, List.nil_append]
                rw [parseStrAux_unicode (by decide) (by decide)
                  (isHexB_hexDigitChar hq16) (isHexB_hexDigitChar hr16), ih]
                have hv : ((hexVal '0' * 16 + hexVal '0') * 16
                      + hexVal (hexDigitChar (c.toNat / 16))) * 16
                      + hexVal (hexDigitChar (c.toNat % 16)) = c.toNat := by
                  rw [hexVal_hexDigitChar hq16, hexVal_hexDigitChar hr16]
                  have : hexVal '0' = 0 := by decide
                  rw [this]
                  omega
                rw [hv, Char.ofNat_toNat]
                rfl
              · have he : escapeChar c = [c] := by
                  simp only [escapeChar, if_neg hq, if_neg hb, if_neg hn, if_neg ht,
                    if_neg hr, if_neg hc]
                rw [he, List.cons_append, List.nil_append]
                rw [parseStrAux_plain hq hb, ih]
                rfl

theorem neg_detect_false (a : Nat) (B : Str) :
    decide ((natToChars a ++ B).head? = some '-') = false := by
  obtain ⟨c, t, hct, hcd⟩ := natToChars_head_digit a
  rw [hct, List.cons_append, List.head?_cons]
  exact decide_eq_false (fun h => isDigit_ne hcd (by decide) (Option.some.inj h))

theorem natToChars_take {B : Str} (hB : B.takeWhile Char.isDigit = []) (a : Nat) :
    (natToChars a ++ B).takeWhile Char.isDigit = natToChars a := by
  rw [takeWhileAppendAll B (natToChars_all_digits a), hB, List.append_nil]

theorem natToChars_drop {B : Str} (hB : B.dropWhile Char.isDigit = B) (a : Nat) :
    (natToChars a ++ B).dropWhile Char.isDigit = B := by
  rw [dropWhileAppendAll B (natToChars_all_digits a), hB]

theorem dot_take (B : Str) : ('.' :: B).takeWhile Char.isDigit = [] := by
  simp [List.takeWhile_cons]

theorem dot_drop (B : Str) : ('.' :: B).dropWhile Char.isDigit = '.' :: B := by
  simp [List.dropWhile_cons]

theorem parseNum_int (a : Nat) {rest : Str} (h : NumCloser rest) :
    parseNum (natToChars a ++ rest) = some (Json.num (a : Int) 0, rest) := by
  have hdot : ¬ (rest.head? = some '.') := by
    intro hh
    cases rest with
    | nil => cases hh
    | cons c t => exact (h c rfl).2 (Option.some.inj hh)
  have hneg := neg_detect_false a rest
  have h2 := natToChars_take (numCloser_take h) a
  have h3 := natToChars_drop (numCloser_drop h) a
  have h4 := natToChars_ne_nil a
  have hsval : signedOf false (digitsVal (natToChars a)) = (a : Int) := by
    rw [digitsVal_natToChars]
    simp [signedOf]
  simp only [parseNum]
  rw [hneg]
  simp only [Bool.false_eq_true, if_false]
  rw [h2, h3, if_neg h4, if_neg hdot, hsval]

theorem parseNum_int_neg (a : Nat) {rest : Str} (h : NumCloser rest) :
    parseNum ('-' :: (natToChars a ++ rest)) = some (Json.num (-(a : Int)) 0, rest) := by
  have hdot : ¬ (rest.head? = some '.') := by
    intro hh
    cases rest with
    | nil => cases hh
    | cons c t => exact (h c rfl).2 (Option.some.inj hh)
  have h2 := natToChars_take (numCloser_take h) a
  have h3 := natToChars_drop (numCloser_drop h) a
  have h4 := natToChars_ne_nil a
  have hsval : signedOf true (digitsVal (natToChars a)) = -(a : Int) := by
    rw [digitsVal_natToChars]
    simp [signedOf]
  simp only [parseNum, List.head?_cons, List.tail_cons]
  have hs1 : (if (decide True = true) then natToChars a ++ rest
      else '-' :: (natToChars a ++ rest)) = natToChars a ++ rest := if_pos (by decide)
  rw [hs1, h2, h3, if_neg h4, if_neg hdot]
  have hsg : signedOf (decide True) (digitsVal (natToChars a)) = -(a : Int) := by
    rw [(by decide : decide True = true), hsval]
  rw [hsg]

theorem frac_digits (a e : Nat) :
    ∀ c ∈ List.replicate (e - (natToChars (a % 10 ^ e)).length) '0'
        ++ natToChars (a % 10 ^ e), c.isDigit = true := by
  intro c hc
  rcases List.mem_append.mp hc with hc | hc
  · rw [List.eq_of_mem_replicate hc]
    decide
  · exact natToChars_all_digits _ c hc

theorem frac_ne_nil (a e : Nat) :
    List.replicate (e - (natToChars (a % 10 ^ e)).length) '0'
      ++ natToChars (a % 10 ^ e) ≠ [] := by
  intro hh
  exact natToChars_ne_nil _ (List.append_eq_nil.mp hh).2

theorem frac_length (a e : Nat) (he : 0 < e) :
    (List.replicate (e - (natToChars (a % 10 ^ e)).length) '0'
      ++ natToChars (a % 10 ^ e)).length = e := by
  have hlt : a % 10 ^ e < 10 ^ e := Nat.mod_lt _ (Nat.pos_pow_of_pos e (by norm_num))
  have hle := natToChars_length_le he hlt
  rw [List.length_append, List.length_replicate]
  omega

theorem frac_val (a e : Nat) :
    digitsVal (List.replicate (e - (natToChars (a % 10 ^ e)).length) '0'
      ++ natToChars (a % 10 ^ e)) = a % 10 ^ e := by
  rw [digitsVal_replicate_zero, digitsVal_natToChars]

theorem parseNum_frac (a e : Nat) (he : 0 < e) {rest : Str} (h : NumCloser rest) :
    parseNum (natToChars (a / 10 ^ e) ++ '.' ::
        ((List.replicate (e - (natToChars (a % 10 ^ e)).length) '0'
          ++ natToChars (a % 10 ^ e)) ++ rest))
      = some (Json.num (a : Int) e, rest) := by
  have hneg := neg_detect_false (a / 10 ^ e)
    ('.' :: ((List.replicate (e - (natToChars (a % 10 ^ e)).length) '0'
      ++ natToChars (a % 10 ^ e)) ++ rest))
  have htake1 := natToChars_take (dot_take ((List.replicate
    (e - (natToChars (a % 10 ^ e)).length) '0' ++ natToChars (a % 10 ^ e)) ++ rest))
    (a / 10 ^ e)
  have hdrop1 := natToChars_drop (dot_drop ((List.replicate
    (e - (natToChars (a % 10 ^ e)).length) '0' ++ natToChars (a % 10 ^ e)) ++ rest))
    (a / 10 ^ e)
  have h4 := natToChars_ne_nil (a / 10 ^ e)
  have htakeF : ((List.replicate (e - (natToChars (a % 10 ^ e)).length) '0'
      ++ natToChars (a % 10 ^ e)) ++ rest).takeWhile Char.isDigit
      = List.replicate (e - (natToChars (a % 10 ^ e)).length) '0'
        ++ natToChars (a % 10 ^ e) := by
    rw [takeWhileAppendAll rest (frac_digits a e), numCloser_take h, List.append_nil]
  have hdropF : ((List.replicate (e - (natToChars (a % 10 ^ e)).length) '0'
      ++ natToChars (a % 10 ^ e)) ++ rest).dropWhile Char.isDigit = rest := by
    rw [dropWhileAppendAll rest (frac_digits a e), numCloser_drop h]
  have hval : signedOf false (digitsVal (natToChars (a / 10 ^ e)) * 10 ^ e
      + digitsVal (List.replicate (e - (natToChars (a % 10 ^ e)).length) '0'
        ++ natToChars (a % 10 ^ e))) = (a : Int) := by
    rw [frac_val, digitsVal_natToChars]
    simp only [signedOf, Bool.false_eq_true, if_false]
    norm_cast
    rw [Nat.mul_comm]
    exact Nat.div_add_mod a (10 ^ e)
  simp only [parseNum]
  rw [hneg]
  simp only [Bool.false_eq_true, if_false]
  rw [htake1, hdrop1, if_neg h4]
  simp only [List.head?_cons, List.tail_cons]
  rw [if_pos (trivial : True)]
  rw [htakeF, hdropF, if_neg (frac_ne_nil a e), frac_length a e he, hval]

theorem parseNum_frac_neg (a e : Nat) (he : 0 < e) {rest : Str} (h : NumCloser rest) :
    parseNum ('-' :: (natToChars (a / 10 ^ e) ++ '.' ::
        ((List.replicate (e - (natToChars (a % 10 ^ e)).length) '0'
          ++ natToChars (a % 10 ^ e)) ++ rest)))
      = some (Json.num (-(a : Int)) e, rest) := by
  have htake1 := natToChars_take (dot_take ((List.replicate
    (e - (natToChars (a % 10 ^ e)).length) '0' ++ natToChars (a % 10 ^ e)) ++ rest))
    (a / 10 ^ e)
  have hdrop1 := natToChars_drop (dot_drop ((List.replicate
    (e - (natToChars (a % 10 ^ e)).length) '0' ++ natToChars (a % 10 ^ e)) ++ rest))
    (a / 10 ^ e)
  have h4 := natToChars_ne_nil (a / 10 ^ e)
  have htakeF : ((List.replicate (e - (natToChars (a % 10 ^ e)).length) '0'
      ++ natToChars (a % 10 ^ e)) ++ rest).takeWhile Char.isDigit
      = List.replicate (e - (natToChars (a % 10 ^ e)).length) '0'
        ++ natToChars (a % 10 ^ e) := by
    rw [takeWhileAppendAll rest (frac_digits a e), numCloser_take h, List.append_nil]
  have hdropF : ((List.replicate (e - (natToChars (a % 10 ^ e)).length) '0'
      ++ natToChars (a % 10 ^ e)) ++ rest).dropWhile Char.isDigit = rest := by
    rw [dropWhileAppendAll rest (frac_digits a e), numCloser_drop h]
  have hval : signedOf (decide True) (digitsVal (natToChars (a / 10 ^ e)) * 10 ^ e
      + digitsVal (List.replicate (e - (natToChars (a % 10 ^ e)).length) '0'
        ++ natToChars (a % 10 ^ e))) = -(a : Int) := by
    rw [frac_val, digitsVal_natToChars, (by decide : decide True = true)]
    simp only [signedOf, eq_self_iff_true, if_true]
    rw [Nat.mul_comm]
    exact congrArg (fun n : Nat => -(n : Int)) (Nat.div_add_mod a (10 ^ e))
  simp only [parseNum, List.head?_cons, List.tail_cons]
  have hs1 : (if (decide True = true)
      then natToChars (a / 10 ^ e) ++ '.' ::
        ((List.replicate (e - (natToChars (a % 10 ^ e)).length) '0'
          ++ natToChars (a % 10 ^ e)) ++ rest)
      else '-' :: (natToChars (a / 10 ^ e) ++ '.' ::
        ((List.replicate (e - (natToChars (a % 10 ^ e)).length) '0'
          ++ natToChars (a % 10 ^ e)) ++ rest)))
      = natToChars (a / 10 ^ e) ++ '.' ::
        ((List.replicate (e - (natToChars (a % 10 ^ e)).length) '0'
          ++ natToChars (a % 10 ^ e)) ++ rest) := if_pos (by decide)
  rw [hs1, htake1, hdrop1, if_neg h4]
  simp only [List.head?_cons, List.tail_cons]
  rw [if_pos (trivial : True)]
  rw [htakeF, hdropF, if_neg (frac_ne_nil a e), frac_length a e he, hval]

theorem parseNum_numToChars (m : Int) (e : Nat) {rest : Str} (h : NumCloser rest) :
    parseNum (numToChars m e ++ rest) = some (Json.num m e, rest) := by
  by_cases he : e = 0
  · subst he
    by_cases hm : m < 0
    · have hd : numToChars m 0 = '-' :: natToChars m.natAbs := by
        simp [numToChars, intToChars, hm]
      rw [hd, List.cons_append, parseNum_int_neg m.natAbs h,
        (by omega : -((m.natAbs : Nat) : Int) = m)]
    · have hd : numToChars m 0 = natToChars m.natAbs := by
        simp [numToChars, intToChars, hm]
      rw [hd, parseNum_int m.natAbs h, (by omega : ((m.natAbs : Nat) : Int) = m)]
  · have he0 : 0 < e := Nat.pos_of_ne_zero he
    by_cases hm : m < 0
    · have hd : numToChars m e ++ rest = '-' :: (natToChars (m.natAbs / 10 ^ e) ++ '.' ::
          ((List.replicate (e - (natToChars (m.natAbs % 10 ^ e)).length) '0'
            ++ natToChars (m.natAbs % 10 ^ e)) ++ rest)) := by
        simp [numToChars, he, hm, List.append_assoc]
      rw [hd, parseNum_frac_neg m.natAbs e he0 h,
        (by omega : -((m.natAbs : Nat) : Int) = m)]
    · have hd : numToChars m e ++ rest = natToChars (m.natAbs / 10 ^ e) ++ '.' ::
          ((List.replicate (e - (natToChars (m.natAbs % 10 ^ e)).length) '0'
            ++ natToChars (m.natAbs % 10 ^ e)) ++ rest) := by
        simp [numToChars, he, hm, List.append_assoc]
      rw [hd, parseNum_frac m.natAbs e he0 h, (by omega : ((m.natAbs : Nat) : Int) = m)]

theorem parse_dump_core (fuel : Nat) :
    (∀ (j : Json) (sp rest : Str), (Json.dump j).length ≤ fuel → AllWs sp →
      NumCloser rest →
      parseCore fuel PMode.val (sp ++ Json.dump j ++ rest) = some (.jv j, rest)) ∧
    (∀ (l : JsonList) (sp rest : Str), l ≠ .nil →
      (JsonList.dumpElems l).length + 1 ≤ fuel → AllWs sp →
      parseCore fuel PMode.elems (sp ++ JsonList.dumpElems l ++ ']' :: rest)
        = some (.jl l, rest)) ∧
    (∀ (fs : JsonFields) (sp rest : Str), fs ≠ .fnil →
      (JsonFields.dumpFields fs).length + 1 ≤ fuel → AllWs sp →
      parseCore fuel PMode.fields (sp ++ JsonFields.dumpFields fs ++ '}' :: rest)
        = some (.jf fs, rest)) := by
  induction fuel with
  | zero =>
    refine ⟨?_, ?_, ?_⟩
    · intro j sp rest hlen hsp hrest
      obtain ⟨c, t, hct, -⟩ := dump_head j
      rw [hct] at hlen
      simp at hlen
    · intro l sp rest hne hlen hsp
      omega
    · intro fs sp rest hne hlen hsp
      omega
  | succ f ih =>
    obtain ⟨ihv, ihe, ihf⟩ := ih
    refine ⟨?_, ?_, ?_⟩
    · intro j sp rest hlen hsp hrest
      cases j with
      | null =>
        have hsk : skipWs (sp ++ Json.dump Json.null ++ rest)
            = 'n' :: 'u' :: 'l' :: 'l' :: rest := by
          rw [List.append_assoc, skipWs_append hsp]
          exact skipWs_cons_notWs (by decide) _
        rw [parseCore.eq_def]
        dsimp only
        rw [hsk]
        simp
      | bool b =>
        cases b with
        | true =>
          have hsk : skipWs (sp ++ Json.dump (Json.bool true) ++ rest)
              = 't' :: 'r' :: 'u' :: 'e' :: rest := by
            rw [List.append_assoc, skipWs_append hsp]
            exact skipWs_cons_notWs (by decide) _
          rw [parseCore.eq_def]
          dsimp only
          rw [hsk]
          simp
        | false =>
          have hsk : skipWs (sp ++ Json.dump (Json.bool false) ++ rest)
              = 'f' :: 'a' :: 'l' :: 's' :: 'e' :: rest := by
            rw [List.append_assoc, skipWs_append hsp]
            exact skipWs_cons_notWs (by decide) _
          rw [parseCore.eq_def]
          dsimp only
          rw [hsk]
          simp
      | num m e =>
        obtain ⟨c, t, hct, hcd⟩ := numToChars_head m e
        have hnws : isJsonWs c = false := by
          rcases hcd with rfl | hd
          · decide
          · exact isDigit_not_ws hd
        have hsk : skipWs (sp ++ Json.dump (Json.num m e) ++ rest)
            = c :: (t ++ rest) := by
          rw [List.append_assoc, skipWs_append hsp]
          show skipWs (numToChars m e ++ rest) = c :: (t ++ rest)
          rw [hct, List.cons_append]
          exact skipWs_cons_notWs hnws _
        have hcn : ¬ (c = 'n') := by
          rcases hcd with rfl | hd
          · decide
          · exact isDigit_ne hd (by decide)
        have hctt : ¬ (c = 't') := by
          rcases hcd with rfl | hd
          · decide
          · exact isDigit_ne hd (by decide)
        have hcf : ¬ (c = 'f') := by
          rcases hcd with rfl | hd
          · decide
          · exact isDigit_ne hd (by decide)
        have hcq : ¬ (c = '"') := by
          rcases hcd with rfl | hd
          · decide
          · exact isDigit_ne hd (by decide)
        have hclb : ¬ (c = '[') := by
          rcases hcd with rfl | hd
          · decide
          · exact isDigit_ne hd (by decide)
        have hcob : ¬ (c = '{') := by
          rcases hcd with rfl | hd
          · decide
          · exact isDigit_ne hd (by decide)
        rw [parseCore.eq_def]
        dsimp only
        rw [hsk]
        dsimp only
        rw [if_neg hcn, if_neg hctt, if_neg hcf, if_neg hcq, if_neg hclb, if_neg hcob]
        have hback : c :: (t ++ rest) = numToChars m e ++ rest := by
          rw [hct, List.cons_append]
        rw [hback, parseNum_numToChars m e hrest]
        rfl
      | str s =>
        have hshape : sp ++ Json.dump (Json.str s) ++ rest
            = sp ++ ('"' :: (escapeStr s ++ '"' :: rest)) := by
          simp [Json.dump]
        rw [hshape]
        have hsk : skipWs (sp ++ ('"' :: (escapeStr s ++ '"' :: rest)))
            = '"' :: (escapeStr s ++ '"' :: rest) := by
          rw [skipWs_append hsp]
          exact skipWs_cons_notWs (by decide) _
        rw [parseCore.eq_def]
        dsimp only
        rw [hsk]
        simp [parseStrAux_escape]
      | arr l =>
        cases l with
        | nil =>
          have hshape : sp ++ Json.dump (Json.arr .nil) ++ rest
              = sp ++ ('[' :: ']' :: rest) := by
            simp [Json.dump, JsonList.dumpElems]
          rw [hshape]
          have hsk : skipWs (sp ++ ('[' :: ']' :: rest)) = '[' :: ']' :: rest := by
            rw [skipWs_append hsp]
            exact skipWs_cons_notWs (by decide) _
          have hsk2 : skipWs (']' :: rest) = ']' :: rest :=
            skipWs_cons_notWs (by decide) _
          rw [parseCore.eq_def]
          dsimp only
          rw [hsk]
          simp [hsk2]
        | cons j tl =>
          have hshape : sp ++ Json.dump (Json.arr (.cons j tl)) ++ rest
              = sp ++ ('[' :: (JsonList.dumpElems (.cons j tl) ++ ']' :: rest)) := by
            simp [Json.dump]
          rw [hshape]
          have hsk : skipWs (sp ++ ('[' :: (JsonList.dumpElems (.cons j tl) ++ ']' :: rest)))
              = '[' :: (JsonList.dumpElems (.cons j tl) ++ ']' :: rest) := by
            rw [skipWs_append hsp]
            exact skipWs_cons_notWs (by decide) _
          obtain ⟨c0, t0, hc0, hnws0, hnb0, -⟩ := dumpElems_head j tl
          have hsk2 : skipWs (JsonList.dumpElems (.cons j tl) ++ ']' :: rest)
              = c0 :: (t0 ++ ']' :: rest) := by
            rw [hc0, List.cons_append]
            exact skipWs_cons_notWs hnws0 _
          have hlook : ¬ ((skipWs (JsonList.dumpElems (.cons j tl) ++ ']' :: rest)).head?
              = some ']') := by
            rw [hsk2]
            intro hh
            exact hnb0 (Option.some.inj hh)
          have hlen2 : (JsonList.dumpElems (.cons j tl)).length + 1 ≤ f := by
            have : (Json.dump (Json.arr (.cons j tl))).length
                = (JsonList.dumpElems (.cons j tl)).length + 2 := by
              simp [Json.dump]
            omega
          have hrec := ihe (.cons j tl) [] rest
            (fun hh => JsonList.noConfusion hh) hlen2 allWs_nil
          rw [List.nil_append] at hrec
          rw [parseCore.eq_def]
          dsimp only
          rw [hsk]
          dsimp only
          rw [if_neg (by decide : ¬ ('[' = 'n')), if_neg (by decide : ¬ ('[' = 't')),
            if_neg (by decide : ¬ ('[' = 'f')), if_neg (by decide : ¬ ('[' = '"')),
            if_pos rfl, if_neg hlook, hrec]
      | obj fs =>
        cases fs with
        | fnil =>
          have hshape : sp ++ Json.dump (Json.obj .fnil) ++ rest
              = sp ++ ('{' :: '}' :: rest) := by
            simp [Json.dump, JsonFields.dumpFields]
          rw [hshape]
          have hsk : skipWs (sp ++ ('{' :: '}' :: rest)) = '{' :: '}' :: rest := by
            rw [skipWs_append hsp]
            exact skipWs_cons_notWs (by decide) _
          have hsk2 : skipWs ('}' :: rest) = '}' :: rest :=
            skipWs_cons_notWs (by decide) _
          rw [parseCore.eq_def]
          dsimp only
          rw [hsk]
          simp [hsk2]
        | fcons k v tl =>
          have hshape : sp ++ Json.dump (Json.obj (.fcons k v tl)) ++ rest
              = sp ++ ('{' :: (JsonFields.dumpFields (.fcons k v tl) ++ '}' :: rest)) := by
            simp [Json.dump]
          rw [hshape]
          have hsk : skipWs (sp ++ ('{' :: (JsonFields.dumpFields (.fcons k v tl) ++ '}' :: rest)))
              = '{' :: (JsonFields.dumpFields (.fcons k v tl) ++ '}' :: rest) := by
            rw [skipWs_append hsp]
            exact skipWs_cons_notWs (by decide) _
          obtain ⟨t0, hc0⟩ := dumpFields_head k v tl
          have hsk2 : skipWs (JsonFields.dumpFields (.fcons k v tl) ++ '}' :: rest)
              = '"' :: (t0 ++ '}' :: rest) := by
            rw [hc0, List.cons_append]
            exact skipWs_cons_notWs (by decide) _
          have hlook : ¬ ((skipWs (JsonFields.dumpFields (.fcons k v tl) ++ '}' :: rest)).head?
              = some '}') := by
            rw [hsk2]
            intro hh
            exact absurd (Option.some.inj hh) (by decide)
          have hlen2 : (JsonFields.dumpFields (.fcons k v tl)).length + 1 ≤ f := by
            have : (Json.dump (Json.obj (.fcons k v tl))).length
                = (JsonFields.dumpFields (.fcons k v tl)).length + 2 := by
              simp [Json.dump]
            omega
          have hrec := ihf (.fcons k v tl) [] rest
            (fun hh => JsonFields.noConfusion hh) hlen2 allWs_nil
          rw [List.nil_append] at hrec
          rw [parseCore.eq_def]
          dsimp only
          rw [hsk]
          dsimp only
          rw [if_neg (by decide : ¬ ('{' = 'n')), if_neg (by decide : ¬ ('{' = 't')),
            if_neg (by decide : ¬ ('{' = 'f')), if_neg (by decide : ¬ ('{' = '"')),
            if_neg (by decide : ¬ ('{' = '[')), if_pos rfl, if_neg hlook, hrec]
    · intro l sp rest hne hlen hsp
      cases l with
      | nil => exact absurd rfl hne
      | cons j tl =>
        cases tl with
        | nil =>
          have hshape : sp ++ JsonList.dumpElems (.cons j .nil) ++ ']' :: rest
              = sp ++ Json.dump j ++ ']' :: rest := by
            simp [JsonList.dumpElems]
          rw [hshape]
          have hlv : (Json.dump j).length ≤ f := by
            have : JsonList.dumpElems (.cons j .nil) = Json.dump j := rfl
            rw [this] at hlen
            omega
          have hsk2 : skipWs (']' :: rest) = ']' :: rest :=
            skipWs_cons_notWs (by decide) _
          rw [parseCore.eq_def]
          dsimp only
          rw [ihv j sp (']' :: rest) hlv hsp (numCloser_cons (by decide) (by decide) _)]
          dsimp only
          rw [hsk2]
          simp
        | cons j2 tl2 =>
          have hshape : sp ++ JsonList.dumpElems (.cons j (.cons j2 tl2)) ++ ']' :: rest
              = sp ++ Json.dump j
                ++ ',' :: ' ' :: (JsonList.dumpElems (.cons j2 tl2) ++ ']' :: rest) := by
            simp [JsonList.dumpElems]
          rw [hshape]
          have hlv : (Json.dump j).length ≤ f := by
            have : (JsonList.dumpElems (.cons j (.cons j2 tl2))).length
                = (Json.dump j).length + 2 + (JsonList.dumpElems (.cons j2 tl2)).length := by
              simp [JsonList.dumpElems]
              omega
            omega
          have hle2 : (JsonList.dumpElems (.cons j2 tl2)).length + 1 ≤ f := by
            have : (JsonList.dumpElems (.cons j (.cons j2 tl2))).length
                = (Json.dump j).length + 2 + (JsonList.dumpElems (.cons j2 tl2)).length := by
              simp [JsonList.dumpElems]
              omega
            omega
          have hsk2 : skipWs (',' :: ' ' :: (JsonList.dumpElems (.cons j2 tl2) ++ ']' :: rest))
              = ',' :: ' ' :: (JsonList.dumpElems (.cons j2 tl2) ++ ']' :: rest) :=
            skipWs_cons_notWs (by decide) _
          have hrec := ihe (.cons j2 tl2) [' '] rest
            (fun hh => JsonList.noConfusion hh) hle2 allWs_space
          simp only [List.cons_append, List.nil_append] at hrec
          rw [parseCore.eq_def]
          dsimp only
          rw [ihv j sp _ hlv hsp (numCloser_cons (by decide) (by decide) _)]
          dsimp only
          rw [hsk2]
          simp only [List.head?_cons, List.tail_cons]
          rw [if_pos (trivial : True), hrec]
    · intro fs sp rest hne hlen hsp
      cases fs with
      | fnil => exact absurd rfl hne
      | fcons k v tl =>
        cases tl with
        | fnil =>
          have hshape : sp ++ JsonFields.dumpFields (.fcons k v .fnil) ++ '}' :: rest
              = sp ++ ('"' :: (escapeStr k ++ '"' :: (':' :: ' ' :: (Json.dump v ++ '}' :: rest)))) := by
            simp [JsonFields.dumpFields]
          rw [hshape]
          have hsk : skipWs (sp ++ ('"' :: (escapeStr k ++ '"' :: (':' :: ' ' :: (Json.dump v ++ '}' :: rest)))))
              = '"' :: (escapeStr k ++ '"' :: (':' :: ' ' :: (Json.dump v ++ '}' :: rest))) := by
            rw [skipWs_append hsp]
            exact skipWs_cons_notWs (by decide) _
          have hlv : (Json.dump v).length ≤ f := by
            have : (JsonFields.dumpFields (.fcons k v .fnil)).length
                = (escapeStr k).length + (Json.dump v).length + 4 := by
              simp [JsonFields.dumpFields]
              omega
            omega
          have hsk3 : skipWs (':' :: ' ' :: (Json.dump v ++ '}' :: rest))
              = ':' :: ' ' :: (Json.dump v ++ '}' :: rest) :=
            skipWs_cons_notWs (by decide) _
          have hrecv := ihv v [' '] ('}' :: rest) hlv allWs_space
            (numCloser_cons (by decide) (by decide) _)
          simp only [List.cons_append, List.nil_append] at hrecv
          have hsk4 : skipWs ('}' :: rest) = '}' :: rest :=
            skipWs_cons_notWs (by decide) _
          rw [parseCore.eq_def]
          dsimp only
          rw [hsk]
          simp [parseStrAux_escape, hsk3, hrecv, hsk4]
        | fcons k2 v2 tl2 =>
          have hshape : sp ++ JsonFields.dumpFields (.fcons k v (.fcons k2 v2 tl2)) ++ '}' :: rest
              = sp ++ ('"' :: (escapeStr k ++ '"' :: (':' :: ' ' :: (Json.dump v
                ++ ',' :: ' ' :: (JsonFields.dumpFields (.fcons k2 v2 tl2) ++ '}' :: rest))))) := by
            simp [JsonFields.dumpFields]
          rw [hshape]
          have hsk : skipWs (sp ++ ('"' :: (escapeStr k ++ '"' :: (':' :: ' ' :: (Json.dump v
              ++ ',' :: ' ' :: (JsonFields.dumpFields (.fcons k2 v2 tl2) ++ '}' :: rest))))))
              = '"' :: (escapeStr k ++ '"' :: (':' :: ' ' :: (Json.dump v
                ++ ',' :: ' ' :: (JsonFields.dumpFields (.fcons k2 v2 tl2) ++ '}' :: rest)))) := by
            rw [skipWs_append hsp]
            exact skipWs_cons_notWs (by decide) _
          have hlv : (Json.dump v).length ≤ f := by
            have : (JsonFields.dumpFields (.fcons k v (.fcons k2 v2 tl2))).length
                = (escapeStr k).length + (Json.dump v).length + 6
                  + (JsonFields.dumpFields (.fcons k2 v2 tl2)).length := by
              simp [JsonFields.dumpFields]
              omega
            omega
          have hlf2 : (JsonFields.dumpFields (.fcons k2 v2 tl2)).length + 1 ≤ f := by
            have : (JsonFields.dumpFields (.fcons k v (.fcons k2 v2 tl2))).length
                = (escapeStr k).length + (Json.dump v).length + 6
                  + (JsonFields.dumpFields (.fcons k2 v2 tl2)).length := by
              simp [JsonFields.dumpFields]
              omega
            omega
          have hsk3 : skipWs (':' :: ' ' :: (Json.dump v
              ++ ',' :: ' ' :: (JsonFields.dumpFields (.fcons k2 v2 tl2) ++ '}' :: rest)))
              = ':' :: ' ' :: (Json.dump v
                ++ ',' :: ' ' :: (JsonFields.dumpFields (.fcons k2 v2 tl2) ++ '}' :: rest)) :=
            skipWs_cons_notWs (by decide) _
          have hrecv := ihv v [' ']
            (',' :: ' ' :: (JsonFields.dumpFields (.fcons k2 v2 tl2) ++ '}' :: rest))
            hlv allWs_space (numCloser_cons (by decide) (by decide) _)
          simp only [List.cons_append, List.nil_append] at hrecv
          have hsk4 : skipWs (',' :: ' ' :: (JsonFields.dumpFields (.fcons k2 v2 tl2) ++ '}' :: rest))
              = ',' :: ' ' :: (JsonFields.dumpFields (.fcons k2 v2 tl2) ++ '}' :: rest) :=
            skipWs_cons_notWs (by decide) _
          have hrecf := ihf (.fcons k2 v2 tl2) [' '] rest
            (fun hh => JsonFields.noConfusion hh) hlf2 allWs_space
          simp only [List.cons_append, List.nil_append] at hrecf
          rw [parseCore.eq_def]
          dsimp only
          rw [hsk]
          simp [parseStrAux_escape, hsk3, hrecv, hsk4, hrecf]

/-- `json.loads` inverts `json.dumps` on the value model: the payload
serialization used by the vectorizers is lossless. -/
theorem json_roundtrip (j : Json) : Json.parse (Json.dump j) = some j := by
  have h := (parse_dump_core ((Json.dump j).length + 1)).1 j [] []
    (by omega) allWs_nil numCloser_nil
  simp only [List.nil_append, List.append_nil] at h
  unfold Json.parse
  rw [h]
  rfl

/-! ## Marker occurrence combinatorics for the `==PATTERN_DATA==` split -/

theorem prefix_append_cases {w X Y : Str} (h : w <+: X ++ Y) :
    w <+: X ∨ ∃ p, w = X ++ p ∧ p <+: Y := by
  induction X generalizing w with
  | nil =>
    right
    exact ⟨w, by simp, by simpa using h⟩
  | cons a X ih =>
    cases w with
    | nil => left; exact List.nil_prefix
    | cons b w =>
      rw [List.cons_append] at h
      obtain ⟨rfl, hw⟩ := List.cons_prefix_cons.mp h
      rcases ih hw with h1 | ⟨p, rfl, hp⟩
      · left
        exact List.cons_prefix_cons.mpr ⟨rfl, h1⟩
      · right
        exact ⟨p, by simp, hp⟩

theorem infix_append_cases {w X Y : Str} (h : w <:+: X ++ Y) :
    w <:+: X ∨ w <:+: Y ∨
      ∃ s p, w = s ++ p ∧ s ≠ [] ∧ p ≠ [] ∧ s <:+ X ∧ p <+: Y := by
  induction X generalizing w with
  | nil =>
    right; left
    simpa using h
  | cons a X ih =>
    rw [List.cons_append, List.infix_cons_iff] at h
    rcases h with hpre | hinf
    · cases w with
      | nil =>
        left
        exact ⟨[], a :: X, by simp⟩
      | cons b w =>
        obtain ⟨rfl, hw⟩ := List.cons_prefix_cons.mp hpre
        rcases prefix_append_cases hw with h1 | ⟨p, rfl, hp⟩
        · left
          exact (List.cons_prefix_cons.mpr ⟨rfl, h1⟩).isInfix
        · cases p with
          | nil =>
            left
            rw [List.append_nil]
          | cons c p =>
            right; right
            exact ⟨b :: X, c :: p, by simp, by simp, by simp,
              List.suffix_rfl, hp⟩
    · rcases ih hinf with h1 | h2 | ⟨s, p, rfl, hs, hp, hsX, hpY⟩
      · left
        exact List.infix_cons h1
      · right; left
        exact h2
      · right; right
        exact ⟨s, p, rfl, hs, hp, hsX.trans (List.suffix_cons a X), hpY⟩

theorem marker_eq_mem_left {s p : Str} (hm : marker = s ++ p) (hs : s ≠ []) :
    ('=' : Char) ∈ s := by
  cases s with
  | nil => exact absurd rfl hs
  | cons c s =>
    rw [List.cons_append] at hm
    have : c = '=' := by
      have h0 : marker = '=' :: (lit "=PATTERN_DATA==") := rfl
      rw [h0] at hm
      exact (List.cons.injEq _ _ _ _ ▸ hm).1.symm
    rw [this]
    exact List.mem_cons_self _ _

theorem marker_eq_mem_right {s p : Str} (hm : marker = s ++ p) (hp : p ≠ []) :
    ('=' : Char) ∈ p := by
  have hne : s ++ p ≠ [] := by
    simp [hp]
  have hlast : (s ++ p).getLast hne = p.getLast hp := List.getLast_append' s p hp
  have hmark : marker.getLast (by decide) = '=' := by decide
  have hlp : p.getLast hp = '=' := by
    rw [← hlast]
    rw [← hmark]
    congr 1
    · exact hm.symm
  rw [← hlp]
  exact List.getLast_mem hp

theorem mfree_of_no_eq {X : Str} (h : ('=' : Char) ∉ X) : ¬ marker <:+: X :=
  fun hi => h (hi.subset (by decide : ('=' : Char) ∈ marker))

theorem marker_free_sep_append (sep : Str) (hsep0 : sep ≠ [])
    (hsep1 : ('=' : Char) ∉ sep) (hsep2 : ∀ c ∈ sep, c ∉ marker)
    {A B : Str} (hA : ¬ marker <:+: A) (hB : ¬ marker <:+: B) :
    ¬ marker <:+: A ++ (sep ++ B) := by
  intro h
  rcases infix_append_cases h with h1 | h2 | ⟨s, p, hm, hs, hp, hsA, hpB⟩
  · exact hA h1
  · rcases infix_append_cases h2 with h3 | h4 | ⟨s, p, hm, hs, hp, hsS, hpB'⟩
    · exact hsep1 (h3.subset (by decide : ('=' : Char) ∈ marker))
    · exact hB h4
    · exact hsep1 (hsS.subset (marker_eq_mem_left hm hs))
  · have hlast : ('=' : Char) ∈ p := marker_eq_mem_right hm hp
    rcases prefix_append_cases hpB with hp1 | ⟨p2, rfl, hp2⟩
    · exact hsep1 (hp1.subset hlast)
    · obtain ⟨c, hc⟩ := List.exists_mem_of_ne_nil sep hsep0
      have hcm : c ∈ s ++ (sep ++ p2) := List.mem_append_right s (List.mem_append_left p2 hc)
      rw [← hm] at hcm
      exact hsep2 c hc hcm

theorem prefix_of_le {w X Y : Str} (h : w <+: X ++ Y) (hlen : w.length ≤ X.length) :
    w <+: X := by
  obtain ⟨t, ht⟩ := h
  have h2 : (w ++ t).take w.length = w := List.take_left w t
  rw [ht, List.take_append_eq_append_take, Nat.sub_eq_zero_of_le hlen,
    List.take_zero, List.append_nil] at h2
  rw [← h2]
  exact List.take_prefix _ _

theorem splitGo_no_match (c0 : Char) (sep : Str) (fuel : Nat) :
    ∀ (s acc : Str), ¬ (c0 :: sep) <:+: s →
    splitGo c0 sep fuel s acc = [acc.reverse ++ s] := by
  induction fuel with
  | zero =>
    intro s acc h
    rfl
  | succ f ih =>
    intro s acc h
    cases s with
    | nil => simp [splitGo]
    | cons d rest =>
      have hnp : ¬ (c0 :: sep) <+: (d :: rest) := fun hp => h hp.isInfix
      rw [splitGo.eq_def]
      dsimp only
      rw [if_neg hnp, ih rest (d :: acc) (fun hi => h (List.infix_cons hi))]
      simp

theorem splitGo_main (A : Str) : ∀ (fuel : Nat) (J acc : Str),
    ¬ marker <:+: (A ++ marker.dropLast) → ¬ marker <:+: J →
    A.length + 1 ≤ fuel →
    splitGo '=' marker.tail fuel (A ++ (marker ++ J)) acc
      = (acc.reverse ++ A) :: [J] := by
  induction A with
  | nil =>
    intro fuel J acc hA hJ hfuel
    cases fuel with
    | zero => omega
    | succ f =>
      have hshape : ([] : Str) ++ (marker ++ J) = '=' :: (marker.tail ++ J) := rfl
      rw [hshape, splitGo.eq_def]
      dsimp only
      rw [if_pos (List.cons_prefix_cons.mpr ⟨rfl, List.prefix_append _ _⟩)]
      rw [List.drop_left, splitGo_no_match '=' marker.tail f J [] hJ]
      simp
  | cons a A ih =>
    intro fuel J acc hA hJ hfuel
    cases fuel with
    | zero => omega
    | succ f =>
      have hshape : (a :: A) ++ (marker ++ J) = a :: (A ++ (marker ++ J)) := rfl
      rw [hshape, splitGo.eq_def]
      dsimp only
      have hnp : ¬ ('=' :: marker.tail) <+: (a :: (A ++ (marker ++ J))) := by
        intro hp
        have hp2 : marker <+: (a :: A) ++ (marker ++ J) := hp
        have hdl : marker = marker.dropLast ++ ['='] := by decide
        have hmj : marker ++ J = marker.dropLast ++ ('=' :: J) := by
          conv in marker ++ J => rw [hdl]
          simp
        have hp3 : marker <+: ((a :: A) ++ marker.dropLast) ++ ('=' :: J) := by
          rw [List.append_assoc, ← hmj]
          exact hp2
        have h16 : marker.length = 16 := by decide
        have h15 : marker.dropLast.length = 15 := by decide
        have hlen : marker.length ≤ ((a :: A) ++ marker.dropLast).length := by
          rw [List.length_append, h16, h15]
          simp
        exact hA (prefix_of_le hp3 hlen).isInfix
      rw [if_neg hnp]
      have hA' : ¬ marker <:+: (A ++ marker.dropLast) := by
        intro hi
        refine hA ?_
        rw [show (a :: A) ++ marker.dropLast = a :: (A ++ marker.dropLast) from rfl]
        exact List.infix_cons hi
      have hf : A.length + 1 ≤ f := by
        simp only [List.length_cons] at hfuel
        omega
      rw [ih f J (a :: acc) hA' hJ hf]
      simp

theorem pySplit_marker (A J : Str)
    (hA : ¬ marker <:+: (A ++ marker.dropLast)) (hJ : ¬ marker <:+: J) :
    pySplit (A ++ (marker ++ J)) marker = [A, J] := by
  have h0 : pySplit (A ++ (marker ++ J)) marker
      = splitGo '=' marker.tail (A ++ (marker ++ J)).length (A ++ (marker ++ J)) [] := rfl
  have h16 : marker.length = 16 := by decide
  have hfuel : A.length + 1 ≤ (A ++ (marker ++ J)).length := by
    rw [List.length_append, List.length_append, h16]
    omega
  rw [h0, splitGo_main A _ J [] hA hJ hfuel]
  simp

theorem pyStrip_brace (X : Str) : pyStrip ('{' :: (X ++ ['}'])) = '{' :: (X ++ ['}']) := by
  unfold pyStrip
  rw [List.dropWhile_cons, if_neg (by decide)]
  rw [show ('{' :: (X ++ ['}'])).reverse = '}' :: (X.reverse ++ ['{']) from by simp]
  rw [List.dropWhile_cons, if_neg (by decide)]
  simp

theorem mfree_nil : ¬ marker <:+: ([] : Str) := by
  intro hi
  have := hi.length_le
  simp at this
  exact absurd this (by decide)

theorem pyJoin_single (sep a : Str) : pyJoin sep [a] = a := by
  simp [pyJoin, List.intercalate]

theorem pyJoin_cons2 (sep a b : Str) (t : List Str) :
    pyJoin sep (a :: b :: t) = a ++ (sep ++ pyJoin sep (b :: t)) := by
  simp [pyJoin, List.intercalate, List.intersperse]

theorem mfree_join_sep (sep : Str) (hsep0 : sep ≠ []) (hsep1 : ('=' : Char) ∉ sep)
    (hsep2 : ∀ c ∈ sep, c ∉ marker) :
    ∀ {parts : List Str}, (∀ x ∈ parts, ¬ marker <:+: x) →
    ¬ marker <:+: pyJoin sep parts := by
  intro parts
  induction parts with
  | nil =>
    intro h
    rw [show pyJoin sep [] = [] from by simp [pyJoin, List.intercalate]]
    exact mfree_nil
  | cons a t ih =>
    intro h
    cases t with
    | nil =>
      rw [pyJoin_single]
      exact h a (List.mem_cons_self _ _)
    | cons b t2 =>
      rw [pyJoin_cons2]
      exact marker_free_sep_append sep hsep0 hsep1 hsep2
        (h a (List.mem_cons_self _ _))
        (ih (fun x hx => h x (List.mem_cons_of_mem _ hx)))

theorem mfree_join {parts : List Str} (h : ∀ x ∈ parts, ¬ marker <:+: x) :
    ¬ marker <:+: pyJoin (lit " | ") parts :=
  mfree_join_sep (lit " | ") (by decide) (by decide) (by decide) h

/-! ## The vectorizers of `MIDIPatternVectorizer` (`midi_rag_system.py` 89-269)

Python dynamic operations are modelled over the `Json` value type; operations
that raise (`TypeError`, `KeyError`, `ValueError`, ...) return `Except Unit`.
Floats are the exact decimals of the global embedding: scientific notation,
infinities and `nan` do not occur in the embedded data and are not modelled. -/

/-- `x.get(k, d)`: raises unless `x` is a dict. -/
def pyGet (j : Json) (k : Str) (d : Json) : Except Unit Json :=
  match j with
  | .obj fs => .ok ((fs.find k).getD d)
  | _ => .error ()

/-- `len(x)` for the sized values; raises on numbers and `None`. -/
def pyLen : Json → Except Unit Nat
  | .str s => .ok s.length
  | .arr l => .ok l.toList.length
  | .obj fs => .ok fs.toList.length
  | _ => .error ()

/-- `x[0]`: first element of a list, one-character string of a string;
a dict raises `KeyError` (its keys are strings), everything else
`TypeError`. -/
def pySub0 : Json → Except Unit Json
  | .arr .nil => .error ()
  | .arr (.cons j _) => .ok j
  | .str [] => .error ()
  | .str (c :: _) => .ok (Json.str [c])
  | _ => .error ()

/-- `for x in v`: lists yield elements, strings yield characters, dicts
yield their keys; everything else raises. -/
def pyIterate : Json → Except Unit (List Json)
  | .arr l => .ok l.toList
  | .str s => .ok (s.map (fun c => Json.str [c]))
  | .obj fs => .ok (fs.toList.map (fun kv => Json.str kv.1))
  | _ => .error ()

/-- `v[:10]` then iteration, for the `[... for x in xs[:10]]` comprehensions. -/
def pyIterSlice10 : Json → Except Unit (List Json)
  | .arr l => .ok (l.toList.take 10)
  | .str s => .ok ((s.take 10).map (fun c => Json.str [c]))
  | _ => .error ()

/-- A Python list comprehension `[f(x) for x in xs]`: stops at the first
raising element. -/
def mapE {α β : Type} (f : α → Except Unit β) : List α → Except Unit (List β)
  | [] => .ok []
  | a :: t =>
    match f a with
    | .error e => .error e
    | .ok b =>
      match mapE f t with
      | .error e => .error e
      | .ok bs => .ok (b :: bs)

/-- A numeric view: ints, floats and bools (`True == 1`) expose a decimal
`mantissa / 10 ^ exponent`. -/
def asNum : Json → Option (Int × Nat)
  | .num m e => some (m, e)
  | .bool true => some (1, 0)
  | .bool false => some (0, 0)
  | _ => none

/-- Unsigned float literal body: `digits`, `digits.digits`, `.digits` or
`digits.`. -/
def floatDigits (s : Str) : Option (Int × Nat) :=
  let ds := s.takeWhile Char.isDigit
  let r1 := s.dropWhile Char.isDigit
  match r1 with
  | [] => if ds.isEmpty then none else some ((digitsVal ds : Int), 0)
  | '.' :: r2 =>
    let fs := r2.takeWhile Char.isDigit
    let r3 := r2.dropWhile Char.isDigit
    if r3.isEmpty then
      if ds.isEmpty && fs.isEmpty then none
      else some ((digitsVal ds * 10 ^ fs.length + digitsVal fs : Int), fs.length)
    else none
  | _ => none

/-- `float(x)`: numbers and bools convert, strings parse as decimal
literals after stripping whitespace, everything else raises. -/
def pyFloat (j : Json) : Except Unit (Int × Nat) :=
  match asNum j with
  | some p => .ok p
  | none =>
    match j with
    | .str s =>
      match pyStrip s with
      | '-' :: t => match floatDigits t with
        | some (m, e) => .ok (-m, e)
        | none => .error ()
      | '+' :: t => match floatDigits t with
        | some (m, e) => .ok (m, e)
        | none => .error ()
      | t => match floatDigits t with
        | some (m, e) => .ok (m, e)
        | none => .error ()
    | _ => .error ()

/-- `abs` on a decimal. -/
def decAbs (p : Int × Nat) : Int × Nat := (if p.1 < 0 then -p.1 else p.1, p.2)

/-- Value comparison of two decimals. -/
def decLt (p q : Int × Nat) : Bool := p.1 * 10 ^ q.2 < q.1 * 10 ^ p.2

/-- Value equality of two decimals. -/
def decEqB (p q : Int × Nat) : Bool := p.1 * 10 ^ q.2 == q.1 * 10 ^ p.2

/-- Decimal addition (common denominator). -/
def decAdd (p q : Int × Nat) : Int × Nat :=
  (p.1 * 10 ^ (max p.2 q.2 - p.2) + q.1 * 10 ^ (max p.2 q.2 - q.2), max p.2 q.2)

/-- `max` of a non-empty decimal list (first element on ties, as Python). -/
def decMaxGo (acc : Int × Nat) : List (Int × Nat) → Int × Nat
  | [] => acc
  | b :: t => decMaxGo (if decLt acc b then b else acc) t

/-- `np.mean` of a decimal list as the exact rational
`numerator / denominator` (denominator positive); the empty list never
reaches it in the embedded code. -/
def meanOf (l : List (Int × Nat)) : Except Unit (Int × Int) :=
  match l with
  | [] => .error ()
  | _ =>
    let s := l.foldl decAdd (0, 0)
    .ok (s.1, ((l.length : Int) * 10 ^ s.2))

/-- `rational < m / 10 ^ e` for a positive-denominator rational. -/
def ratLtDec (r : Int × Int) (m : Int) (e : Nat) : Bool := r.1 * 10 ^ e < m * r.2

/-- `0 < rational` for a positive-denominator rational. -/
def ratPos (r : Int × Int) : Bool := 0 < r.1

/-- Round `num / den` (`den > 0`) to the nearest integer, ties to even -
the rounding of Python `format`. -/
def roundHalfEven (num den : Int) : Int :=
  let q := num.fdiv den
  let r := num.fmod den
  if 2 * r < den then q
  else if den < 2 * r then q + 1
  else if q % 2 = 0 then q else q + 1

/-- `format(value, '.kf')` for the exact rational `num / den`, `den > 0`. -/
def fmtFixed (k : Nat) (num den : Int) : Str :=
  let scaled := roundHalfEven (num * 10 ^ k) den
  if k = 0 then intToChars scaled
  else
    (if scaled < 0 then ['-'] else []) ++ natToChars (scaled.natAbs / 10 ^ k) ++
      '.' :: (List.replicate (k - (natToChars (scaled.natAbs % 10 ^ k)).length) '0'
        ++ natToChars (scaled.natAbs % 10 ^ k))

/-- `{x:.kf}` in an f-string: formats ints, floats and bools, raises on
everything else. -/
def pyFmtFixed (k : Nat) (j : Json) : Except Unit Str :=
  match asNum j with
  | some (m, e) => .ok (fmtFixed k m (10 ^ e : Int))
  | none => .error ()

/-- Strip trailing zeros of a decimal mantissa (`repr` float
normalization). -/
def stripZeros (m : Int) : Nat → Int × Nat
  | 0 => (m, 0)
  | e + 1 => if m % 10 = 0 then stripZeros (m / 10) e else (m, e + 1)

/-- `repr`/`str` of a float: trailing zeros dropped, at least one decimal
digit kept. -/
def floatChars (m : Int) (e : Nat) : Str :=
  match stripZeros m e with
  | (m2, 0) => intToChars m2 ++ lit ".0"
  | (m2, e2 + 1) => numToChars m2 (e2 + 1)

/-- Python `repr` escaping of one character inside single quotes. -/
def reprEscapeChar (c : Char) : Str :=
  if c = '\\' then ['\\', '\\']
  else if c = '\'' then ['\\', '\'']
  else if c = '\n' then ['\\', 'n']
  else if c = '\r' then ['\\', 'r']
  else if c = '\t' then ['\\', 't']
  else if c.toNat < 32 then
    ['\\', 'x', hexDigitChar (c.toNat / 16), hexDigitChar (c.toNat % 16)]
  else [c]

/-- Python `repr` escaping of a string body. -/
def reprEscape (s : Str) : Str := s.flatMap reprEscapeChar

mutual
/-- Python `repr` of a value (`str` falls back to this inside
containers). -/
def pyRepr : Json → Str
  | .null => lit "None"
  | .bool true => lit "True"
  | .bool false => lit "False"
  | .num m e => if e = 0 then intToChars m else floatChars m e
  | .str s => '\'' :: (reprEscape s ++ ['\''])
  | .arr l => '[' :: (JsonList.reprElems l ++ [']'])
  | .obj fs => '{' :: (JsonFields.reprFields fs ++ ['}'])
/-- `repr` of list elements, `", "`-separated. -/
def JsonList.reprElems : JsonList → Str
  | .nil => []
  | .cons j .nil => pyRepr j
  | .cons j (.cons j2 tl) =>
    pyRepr j ++ ',' :: ' ' :: JsonList.reprElems (.cons j2 tl)
/-- `repr` of dict fields `'key': value`, `", "`-separated. -/
def JsonFields.reprFields : JsonFields → Str
  | .fnil => []
  | .fcons k v .fnil => '\'' :: (reprEscape k ++ '\'' :: ':' :: ' ' :: pyRepr v)
  | .fcons k v (.fcons k2 v2 tl) =>
    ('\'' :: (reprEscape k ++ '\'' :: ':' :: ' ' :: pyRepr v)) ++
      ',' :: ' ' :: JsonFields.reprFields (.fcons k2 v2 tl)
end

/-- Python `str()` in an f-string: a string passes through, everything
else renders as `repr`. -/
def pyStr : Json → Str
  | .str s => s
  | j => pyRepr j

/-- Lexicographic character-list comparison (Python `str < str`). -/
def strCmp : Str → Str → Ordering
  | [], [] => .eq
  | [], _ :: _ => .lt
  | _ :: _, [] => .gt
  | a :: s, b :: t =>
    if a.toNat < b.toNat then .lt
    else if b.toNat < a.toNat then .gt
    else strCmp s t

/-- Decimal comparison as an `Ordering`. -/
def decCmp (p q : Int × Nat) : Ordering :=
  if decLt p q then .lt else if decLt q p then .gt else .eq

mutual
/-- Python comparison of two values: numbers (and bools) compare by value,
strings lexicographically, lists elementwise; every other combination
raises `TypeError`. -/
def pyCmp : Json → Json → Except Unit Ordering
  | .num m e, b =>
    match asNum b with
    | some q => .ok (decCmp (m, e) q)
    | none => .error ()
  | .bool b1, b =>
    match asNum b with
    | some q => .ok (decCmp (if b1 then (1, 0) else (0, 0)) q)
    | none => .error ()
  | .str s1, .str s2 => .ok (strCmp s1 s2)
  | .str _, _ => .error ()
  | .arr l1, .arr l2 => JsonList.pyCmpList l1 l2
  | _, _ => .error ()
/-- Lexicographic elementwise list comparison. -/
def JsonList.pyCmpList : JsonList → JsonList → Except Unit Ordering
  | .nil, .nil => .ok .eq
  | .nil, .cons _ _ => .ok .lt
  | .cons _ _, .nil => .ok .gt
  | .cons a t1, .cons b t2 =>
    match pyCmp a b with
    | .ok .eq => JsonList.pyCmpList t1 t2
    | .ok o => .ok o
    | .error e => .error e
end

/-- The scan of Python `min`/`max` (`useMax` selects), keeping the first
extremal element. -/
def pyExtGo (useMax : Bool) (acc : Json) : List Json → Except Unit Json
  | [] => .ok acc
  | b :: t =>
    match pyCmp b acc with
    | .error _ => .error ()
    | .ok o =>
      pyExtGo useMax
        (if useMax then (if o = Ordering.gt then b else acc)
          else (if o = Ordering.lt then b else acc)) t

/-- Python `min(l)` / `max(l)`. -/
def pyExtreme (useMax : Bool) : List Json → Except Unit Json
  | [] => .error ()
  | a :: t => pyExtGo useMax a t

/-- `p % 12` for a numeric value (Python modulo, result in `[0, 12)`). -/
def pyMod12 (j : Json) : Except Unit (Int × Nat) :=
  match asNum j with
  | some (m, e) => .ok (m.emod (12 * 10 ^ e), e)
  | none => .error ()

/-- The note filter-comprehension
`[note[0] for note in note_sequence if len(note) >= 1]`. -/
def pyPitches : List Json → Except Unit (List Json)
  | [] => .ok []
  | note :: t =>
    match pyLen note with
    | .error e => .error e
    | .ok n =>
      if n ≥ 1 then
        match pySub0 note with
        | .error e => .error e
        | .ok v =>
          match pyPitches t with
          | .error e => .error e
          | .ok vs => .ok (v :: vs)
      else pyPitches t

/-- `', '.join(xs)` : every element must be a string. -/
def pyJoinStrs (sep : Str) (l : List Json) : Except Unit Str :=
  match mapE (fun j => match j with | Json.str s => .ok s | _ => .error ()) l with
  | .error e => .error e
  | .ok ss => .ok (pyJoin sep ss)

/-- `sorted(xs) == [0, 4, 7]`-style comparison: a decimal list equals an
int list elementwise by value. -/
def intervalsEq : List (Int × Nat) → List Int → Bool
  | [], [] => true
  | p :: t, i :: t2 => decEqB p (i, 0) && intervalsEq t t2
  | _, _ => false

/-- Count of consecutive sign changes
(`sum(1 for i in range(1, n) if x[i] * x[i-1] < 0)`). -/
def countSignChanges : List (Int × Nat) → Nat
  | a :: b :: t => (if a.1 * b.1 < 0 then 1 else 0) + countSignChanges (b :: t)
  | _ => 0

/-- Per-instrument description parts of `vectorize_musical_segment`
(lines 113-144): pitch range, melodic movement and rhythm. -/
def segInstParts (inst : Json) : Except Unit (List Str) := do
  let instName ← pyGet inst (lit "name") (jS "Unknown")
  let noteSeq ← pyGet inst (lit "note_sequence") (jA [])
  let melInts ← pyGet inst (lit "melodic_intervals") (jA [])
  let rhythm ← pyGet inst (lit "rhythm_pattern") (jA [])
  let p1 ← (if noteSeq.truthy then do
      let notes ← pyIterate noteSeq
      let pitches ← pyPitches notes
      if pitches.isEmpty then pure ([] : List Str)
      else do
        let pmin ← pyExtreme false pitches
        let pmax ← pyExtreme true pitches
        pure [pyStr instName ++ lit " pitch range: " ++ pyStr pmin ++ '-' :: pyStr pmax]
    else pure ([] : List Str))
  let p2 ← (if melInts.truthy then do
      let xs ← pyIterSlice10 melInts
      let fl ← mapE pyFloat xs
      let avg ← meanOf (fl.map decAbs)
      let avgAll ← meanOf fl
      let direction := if ratPos avgAll then lit "ascending" else lit "descending"
      pure [pyStr instName ++ lit " melodic movement: " ++ direction
        ++ lit ", average interval " ++ fmtFixed 1 avg.1 avg.2 ++ lit " semitones"]
    else pure ([] : List Str))
  let p3 ← (if rhythm.truthy then do
      let xs ← pyIterSlice10 rhythm
      let fl ← mapE pyFloat xs
      let avg ← meanOf fl
      let rhythmType := if ratLtDec avg 25 2 then lit "fast"
        else if ratLtDec avg 10 1 then lit "moderate" else lit "slow"
      pure [pyStr instName ++ lit " rhythm: " ++ rhythmType
        ++ lit " notes, average duration " ++ fmtFixed 2 avg.1 avg.2 ++ lit "s"]
    else pure ([] : List Str))
  pure (p1 ++ p2 ++ p3)

/-- The `description_parts` of `vectorize_musical_segment` (lines 95-146). -/
def segParts (segment : Json) (genre artist : Str) : Except Unit (List Str) := do
  let base2 := [lit "Genre: " ++ genre]
    ++ (if artist.isEmpty then [] else [lit "Artist style: " ++ artist])
  let duration ← pyGet segment (lit "duration") (jF 160 1)
  let dstr ← pyFmtFixed 1 duration
  let base3 := base2 ++ [lit "Duration: " ++ dstr ++ lit " seconds"]
  let instruments ← pyGet segment (lit "instruments") (jA [])
  if instruments.truthy then do
    let insts ← pyIterate instruments
    let names ← mapE (fun i => pyGet i (lit "name") (jS "Unknown")) insts
    let joined ← pyJoinStrs (lit ", ") names
    let lists ← mapE segInstParts insts
    pure (base3 ++ [lit "Instruments: " ++ joined] ++ lists.flatten)
  else pure base3

/-- `vectorize_musical_segment` (lines 89-160): on success the parts are
joined with `" | "` and the serialized pattern is appended after the
marker (`json.dumps` of a `Json` value never raises, so the inner `try`
always succeeds); any dynamic error inside the outer `try` yields the
fallback string. -/
def vectorize_musical_segment (segment : Json) (genre artist : Str) : Str :=
  match segParts segment genre artist with
  | .ok parts => pyJoin (lit " | ") parts ++ (lit "\n\n" ++ (marker ++ Json.dump segment))
  | .error _ =>
    lit "Genre: " ++ genre ++ lit " | Artist: " ++ artist ++ lit " | Musical segment"

/-- Chord naming of lines 177-194: major/minor/complex by the sorted
pitch-class intervals, `Root_` for fewer than three pitches. -/
def chordName (chord : Json) : Except Unit Str := do
  let root ← pyGet chord (lit "root") (jI 0)
  let pitches ← pyGet chord (lit "pitches") (jA [])
  let n ← pyLen pitches
  if n ≥ 3 then do
    let ps ← pyIterate pitches
    let ms ← mapE pyMod12 ps
    let intervals := ms.mergeSort (fun a b => !decLt b a)
    if intervalsEq intervals [0, 4, 7] then pure (lit "Major_" ++ pyStr root)
    else if intervalsEq intervals [0, 3, 7] then pure (lit "Minor_" ++ pyStr root)
    else pure (lit "Complex_" ++ pyStr root)
  else pure (lit "Root_" ++ pyStr root)

/-- The `description_parts` of `vectorize_chord_progression`
(lines 167-201). -/
def progParts (progression : Json) (genre artist : Str) : Except Unit (List Str) := do
  let base2 := [lit "Genre: " ++ genre]
    ++ (if artist.isEmpty then [] else [lit "Artist style: " ++ artist])
  let chords ← pyGet progression (lit "chords") (jA [])
  if chords.truthy then do
    let cl ← pyIterate chords
    let roots ← mapE (fun c => pyGet c (lit "root") (jI 0)) cl
    let names ← mapE chordName cl
    let durs ← mapE (fun c => do
        let d ← pyGet c (lit "duration") (jF 20 1)
        pyFloat d) cl
    let avg ← meanOf durs
    pure (base2 ++ [lit "Chord progression: " ++ pyJoin (lit " -> ") (names.take 8),
      lit "Harmonic rhythm: " ++ fmtFixed 1 avg.1 avg.2 ++ lit "s per chord"])
  else pure base2

/-- `vectorize_chord_progression` (lines 162-214). -/
def vectorize_chord_progression (progression : Json) (genre artist : Str) : Str :=
  match progParts progression genre artist with
  | .ok parts => pyJoin (lit " | ") parts ++ (lit "\n\n" ++ (marker ++ Json.dump progression))
  | .error _ =>
    lit "Genre: " ++ genre ++ lit " | Artist: " ++ artist ++ lit " | Chord progression"

/-- The `description_parts` of `vectorize_melody_sequence`
(lines 221-255). -/
def melParts (melody : Json) (genre artist : Str) : Except Unit (List Str) := do
  let base2 := [lit "Genre: " ++ genre]
    ++ (if artist.isEmpty then [] else [lit "Artist style: " ++ artist])
  let intervals ← pyGet melody (lit "intervals") (jA [])
  let instrument ← pyGet melody (lit "instrument") (jS "Unknown")
  let startPitch ← pyGet melody (lit "start_pitch") (jI 60)
  let base3 := base2 ++ [lit "Instrument: " ++ pyStr instrument,
    lit "Starting pitch: " ++ pyStr startPitch]
  if intervals.truthy then do
    let xs ← pyIterate intervals
    let fl ← mapE pyFloat xs
    let avg ← meanOf (fl.map decAbs)
    let maxInt ← (match fl.map decAbs with
      | [] => .error ()
      | a :: t => .ok (decMaxGo a t))
    let base4 := base3
      ++ [lit "Average interval: " ++ fmtFixed 1 avg.1 avg.2 ++ lit " semitones",
        lit "Maximum leap: " ++ floatChars maxInt.1 maxInt.2 ++ lit " semitones",
        lit "Direction changes: " ++ natToChars (countSignChanges fl)]
    let mtype := if ratLtDec avg 15 1 then lit "stepwise"
      else if ratLtDec avg 30 1 then lit "moderate leaps" else lit "large leaps"
    pure (base4 ++ [lit "Melodic style: " ++ mtype])
  else pure base3

/-- `vectorize_melody_sequence` (lines 216-269). -/
def vectorize_melody_sequence (melody : Json) (genre artist : Str) : Str :=
  match melParts melody genre artist with
  | .ok parts => pyJoin (lit " | ") parts ++ (lit "\n\n" ++ (marker ++ Json.dump melody))
  | .error _ =>
    lit "Genre: " ++ genre ++ lit " | Artist: " ++ artist ++ lit " | Melody sequence"

/-- The document-side payload recovery of `retrieve_similar_patterns`
(lines 913-921): split on the marker, strip the part after the first
occurrence and parse it as JSON. -/
def splitRecover (doc : Str) : Option Json :=
  match (pySplit doc marker).get? 1 with
  | some part => Json.parse (pyStrip part)
  | none => none

theorem exceptBind_ok {α β : Type} {x : Except Unit α} {f : α → Except Unit β} {b : β}
    (h : x >>= f = .ok b) : ∃ a, x = .ok a ∧ f a = .ok b := by
  cases x with
  | error e => simp [Bind.bind, Except.bind] at h
  | ok a =>
    refine ⟨a, rfl, ?_⟩
    simpa [Bind.bind, Except.bind] using h

theorem exceptPure_ok {α : Type} {a b : α} (h : (pure a : Except Unit α) = .ok b) :
    a = b := by
  simpa [pure, Except.pure] using h

theorem mapE_ok_mem {α β : Type} {f : α → Except Unit β} :
    ∀ {l : List α} {l2 : List β}, mapE f l = .ok l2 → ∀ y ∈ l2, ∃ x ∈ l, f x = .ok y := by
  intro l
  induction l with
  | nil =>
    intro l2 h y hy
    simp [mapE] at h
    subst h
    simp at hy
  | cons a t ih =>
    intro l2 h y hy
    rw [mapE] at h
    split at h
    · cases h
    · next b hb =>
      split at h
      · cases h
      · next bs hbs =>
        cases h
        rcases List.mem_cons.mp hy with rfl | hy2
        · exact ⟨a, List.mem_cons_self _ _, hb⟩
        · obtain ⟨x, hx, hfx⟩ := ih hbs y hy2
          exact ⟨x, List.mem_cons_of_mem _ hx, hfx⟩

theorem pyPitches_mem :
    ∀ {l : List Json} {l2 : List Json}, pyPitches l = .ok l2 →
      ∀ y ∈ l2, ∃ x ∈ l, pySub0 x = .ok y := by
  intro l
  induction l with
  | nil =>
    intro l2 h y hy
    simp [pyPitches] at h
    subst h
    simp at hy
  | cons note t ih =>
    intro l2 h y hy
    rw [pyPitches] at h
    split at h
    · cases h
    · next n hn =>
      split at h
      · split at h
        · cases h
        · next v hv =>
          split at h
          · cases h
          · next vs hvs =>
            cases h
            rcases List.mem_cons.mp hy with rfl | hy2
            · exact ⟨note, List.mem_cons_self _ _, hv⟩
            · obtain ⟨x, hx, hfx⟩ := ih hvs y hy2
              exact ⟨x, List.mem_cons_of_mem _ hx, hfx⟩
      · obtain ⟨x, hx, hfx⟩ := ih h y hy
        exact ⟨x, List.mem_cons_of_mem _ hx, hfx⟩

theorem pyExtGo_mem (useMax : Bool) :
    ∀ (l : List Json) (acc y : Json), pyExtGo useMax acc l = .ok y →
      y = acc ∨ y ∈ l := by
  intro l
  induction l with
  | nil =>
    intro acc y h
    simp [pyExtGo] at h
    subst h
    exact Or.inl rfl
  | cons b t ih =>
    intro acc y h
    rw [pyExtGo] at h
    split at h
    · cases h
    · next o ho =>
      rcases ih _ y h with he | he
      · by_cases hsel : (if useMax then (if o = Ordering.gt then b else acc)
            else (if o = Ordering.lt then b else acc)) = b
        · rw [hsel] at he
          exact Or.inr (he ▸ List.mem_cons_self _ _)
        · have : (if useMax then (if o = Ordering.gt then b else acc)
              else (if o = Ordering.lt then b else acc)) = acc := by
            split at hsel <;> split at hsel <;> simp_all
          rw [this] at he
          exact Or.inl he
      · exact Or.inr (List.mem_cons_of_mem _ he)

theorem pyExtreme_mem {useMax : Bool} {l : List Json} {y : Json}
    (h : pyExtreme useMax l = .ok y) : y ∈ l := by
  cases l with
  | nil => cases h
  | cons a t =>
    rw [pyExtreme] at h
    rcases pyExtGo_mem useMax t a y h with rfl | hy
    · exact List.mem_cons_self _ _
    · exact List.mem_cons_of_mem _ hy

theorem no_eq_of_digits {s : Str} (h : ∀ c ∈ s, c.isDigit = true) : ('=' : Char) ∉ s :=
  fun he => absurd (h _ he) (by decide)

theorem no_eq_natToChars (n : Nat) : ('=' : Char) ∉ natToChars n :=
  no_eq_of_digits (natToChars_all_digits n)

theorem no_eq_intToChars (m : Int) : ('=' : Char) ∉ intToChars m := by
  intro h
  unfold intToChars at h
  split at h
  · rcases List.mem_cons.mp h with h1 | h1
    · cases h1
    · exact no_eq_natToChars _ h1
  · exact no_eq_natToChars _ h

theorem no_eq_numToChars (m : Int) (e : Nat) : ('=' : Char) ∉ numToChars m e := by
  intro h
  simp only [numToChars] at h
  split at h
  · exact no_eq_intToChars m h
  · rcases List.mem_append.mp h with h1 | h1
    · rcases List.mem_append.mp h1 with h2 | h2
      · split at h2
        · rw [List.mem_singleton] at h2
          cases h2
        · simp at h2
      · exact no_eq_natToChars _ h2
    · rcases List.mem_cons.mp h1 with h2 | h2
      · cases h2
      · rcases List.mem_append.mp h2 with h3 | h3
        · exact absurd (List.eq_of_mem_replicate h3) (by decide)
        · exact no_eq_natToChars _ h3

theorem no_eq_fmtFixed (k : Nat) (num den : Int) : ('=' : Char) ∉ fmtFixed k num den := by
  intro h
  simp only [fmtFixed] at h
  split at h
  · exact no_eq_intToChars _ h
  · rcases List.mem_append.mp h with h1 | h1
    · rcases List.mem_append.mp h1 with h2 | h2
      · split at h2
        · rw [List.mem_singleton] at h2
          cases h2
        · simp at h2
      · exact no_eq_natToChars _ h2
    · rcases List.mem_cons.mp h1 with h2 | h2
      · cases h2
      · rcases List.mem_append.mp h2 with h3 | h3
        · exact absurd (List.eq_of_mem_replicate h3) (by decide)
        · exact no_eq_natToChars _ h3

theorem no_eq_floatChars (m : Int) (e : Nat) : ('=' : Char) ∉ floatChars m e := by
  intro h
  unfold floatChars at h
  split at h
  · rcases List.mem_append.mp h with h1 | h1
    · exact no_eq_intToChars _ h1
    · exact absurd h1 (by decide)
  · exact no_eq_numToChars _ _ h

theorem escapeStr_append (a b : Str) : escapeStr (a ++ b) = escapeStr a ++ escapeStr b := by
  simp [escapeStr]

theorem escapeStr_marker : escapeStr marker = marker := by decide

theorem escapeStr_pres {s : Str} (h : marker <:+: s) : marker <:+: escapeStr s := by
  obtain ⟨u, v, huv⟩ := h
  refine ⟨escapeStr u, escapeStr v, ?_⟩
  rw [← huv, escapeStr_append, escapeStr_append, escapeStr_marker]

theorem marker_in_dump_str {s : Str} (h : marker <:+: s) :
    marker <:+: Json.dump (Json.str s) := by
  obtain ⟨u, v, huv⟩ := escapeStr_pres h
  refine ⟨'"' :: u, v ++ ['"'], ?_⟩
  rw [Json.dump, ← huv]
  simp

theorem dump_infix_elem : ∀ (l : JsonList) (j : Json), j ∈ l.toList →
    Json.dump j <:+: JsonList.dumpElems l
  | .nil, j, hj => by simp [JsonList.toList] at hj
  | .cons a tl, j, hj => by
    rw [JsonList.toList] at hj
    rcases List.mem_cons.mp hj with rfl | hj2
    · cases tl with
      | nil =>
        rw [JsonList.dumpElems]
      | cons b tl2 =>
        rw [JsonList.dumpElems]
        exact (List.prefix_append _ _).isInfix
    · have hi := dump_infix_elem tl j hj2
      cases tl with
      | nil => simp [JsonList.toList] at hj2
      | cons b tl2 =>
        rw [JsonList.dumpElems]
        have hsuf : JsonList.dumpElems (.cons b tl2) <:+
            Json.dump a ++ ',' :: ' ' :: JsonList.dumpElems (.cons b tl2) :=
          ⟨Json.dump a ++ [',', ' '], by simp⟩
        exact hi.trans hsuf.isInfix

theorem dump_infix_find : ∀ (fs : JsonFields) (k : Str) (v : Json), fs.find k = some v →
    Json.dump v <:+: JsonFields.dumpFields fs
  | .fnil, k, v, h => by cases h
  | .fcons k2 v2 tl, k, v, h => by
    rw [JsonFields.find] at h
    split at h
    · cases h
      cases tl with
      | fnil =>
        rw [JsonFields.dumpFields]
        exact ⟨'"' :: (escapeStr k2 ++ ['"', ':', ' ']), [], by simp⟩
      | fcons k3 v3 tl2 =>
        rw [JsonFields.dumpFields]
        exact ⟨'"' :: (escapeStr k2 ++ ['"', ':', ' ']),
          ',' :: ' ' :: JsonFields.dumpFields (.fcons k3 v3 tl2), by simp⟩
    · have hi := dump_infix_find tl k v h
      cases tl with
      | fnil =>
        rw [JsonFields.find] at h
        cases h
      | fcons k3 v3 tl2 =>
        rw [JsonFields.dumpFields]
        have hsuf : JsonFields.dumpFields (.fcons k3 v3 tl2) <:+
            ('"' :: (escapeStr k2 ++ '"' :: ':' :: ' ' :: Json.dump v2)) ++
              ',' :: ' ' :: JsonFields.dumpFields (.fcons k3 v3 tl2) :=
          ⟨('"' :: (escapeStr k2 ++ '"' :: ':' :: ' ' :: Json.dump v2)) ++ [',', ' '],
            by simp⟩
        exact hi.trans hsuf.isInfix

theorem dumpStr_key_occurs : ∀ (fs : JsonFields) (k : Str) (v : Json),
    (k, v) ∈ fs.toList →
    Json.dump (Json.str k) <:+: JsonFields.dumpFields fs
  | .fnil, k, v, h => by simp [JsonFields.toList] at h
  | .fcons k2 v2 tl, k, v, h => by
    rw [JsonFields.toList] at h
    rcases List.mem_cons.mp h with h1 | h2
    · have hk : k = k2 := congrArg Prod.fst h1
      subst hk
      cases tl with
      | fnil =>
        rw [JsonFields.dumpFields]
        exact ⟨[], ':' :: ' ' :: Json.dump v2, by simp [Json.dump]⟩
      | fcons k3 v3 tl2 =>
        rw [JsonFields.dumpFields]
        exact ⟨[], ':' :: ' ' :: Json.dump v2
            ++ ',' :: ' ' :: JsonFields.dumpFields (.fcons k3 v3 tl2),
          by simp [Json.dump]⟩
    · have hi := dumpStr_key_occurs tl k v h2
      cases tl with
      | fnil => simp [JsonFields.toList] at h2
      | fcons k3 v3 tl2 =>
        rw [JsonFields.dumpFields]
        have hsuf : JsonFields.dumpFields (.fcons k3 v3 tl2) <:+
            ('"' :: (escapeStr k2 ++ '"' :: ':' :: ' ' :: Json.dump v2)) ++
              ',' :: ' ' :: JsonFields.dumpFields (.fcons k3 v3 tl2) :=
          ⟨('"' :: (escapeStr k2 ++ '"' :: ':' :: ' ' :: Json.dump v2)) ++ [',', ' '],
            by simp⟩
        exact hi.trans hsuf.isInfix

theorem dump_infix_obj {fs : JsonFields} {X : Str}
    (h : X <:+: JsonFields.dumpFields fs) : X <:+: Json.dump (Json.obj fs) := by
  refine h.trans ?_
  exact ⟨['{'], ['}'], by simp [Json.dump]⟩

theorem dump_infix_arr {l : JsonList} {X : Str}
    (h : X <:+: JsonList.dumpElems l) : X <:+: Json.dump (Json.arr l) := by
  refine h.trans ?_
  exact ⟨['['], [']'], by simp [Json.dump]⟩

theorem escapeChar_length (c : Char) : (escapeChar c).length ≤ 6 := by
  unfold escapeChar
  repeat' split
  all_goals simp

theorem pyGet_track {j : Json} {k : Str} {d v : Json} (h : pyGet j k d = .ok v) :
    v = d ∨ Json.dump v <:+: Json.dump j := by
  unfold pyGet at h
  split at h
  · next fs =>
    cases hf : fs.find k with
    | none =>
      left
      cases h
      rw [hf]
      rfl
    | some w =>
      right
      cases h
      rw [hf]
      exact dump_infix_obj (dump_infix_find fs k w hf)
  · cases h

theorem marker_not_short {X : Str} (hlen : X.length ≤ 15) : ¬ marker <:+: X := by
  intro h
  have h1 := h.length_le
  have h16 : marker.length = 16 := by decide
  omega

theorem dump_single_char_short (c : Char) :
    (Json.dump (Json.str [c])).length ≤ 15 := by
  have h1 : Json.dump (Json.str [c]) = '"' :: (escapeStr [c] ++ ['"']) := rfl
  have h2 : escapeStr [c] = escapeChar c := by simp [escapeStr]
  rw [h1, h2]
  have := escapeChar_length c
  simp only [List.length_cons, List.length_append, List.length_nil]
  omega

theorem pyIterate_track {j x : Json} {l : List Json} (h : pyIterate j = .ok l)
    (hx : x ∈ l) (hm : marker <:+: Json.dump x) : marker <:+: Json.dump j := by
  unfold pyIterate at h
  split at h
  · next l0 =>
    cases h
    exact dump_infix_arr (hm.trans (dump_infix_elem l0 x hx))
  · next s =>
    cases h
    obtain ⟨c, hc, rfl⟩ := List.mem_map.mp hx
    exact absurd hm (marker_not_short (dump_single_char_short c))
  · next fs =>
    cases h
    obtain ⟨kv, hkv, rfl⟩ := List.mem_map.mp hx
    exact dump_infix_obj (hm.trans (dumpStr_key_occurs fs kv.1 kv.2 hkv))
  · cases h

theorem pyIterSlice10_track {j x : Json} {l : List Json} (h : pyIterSlice10 j = .ok l)
    (hx : x ∈ l) (hm : marker <:+: Json.dump x) : marker <:+: Json.dump j := by
  unfold pyIterSlice10 at h
  split at h
  · next l0 =>
    cases h
    exact dump_infix_arr (hm.trans (dump_infix_elem l0 x (List.mem_of_mem_take hx)))
  · next s =>
    cases h
    obtain ⟨c, hc, rfl⟩ := List.mem_map.mp hx
    exact absurd hm (marker_not_short (dump_single_char_short c))
  · cases h

theorem pySub0_track {j x : Json} (h : pySub0 j = .ok x)
    (hm : marker <:+: Json.dump x) : marker <:+: Json.dump j := by
  unfold pySub0 at h
  split at h
  · cases h
  · next j2 tl =>
    cases h
    exact dump_infix_arr (hm.trans (dump_infix_elem (.cons x tl) x (List.mem_cons_self _ _)))
  · cases h
  · next c tl =>
    cases h
    exact absurd hm (marker_not_short (dump_single_char_short c))
  · cases h

theorem hexDigitChar_not_marker {d : Nat} (hd : d < 16) : hexDigitChar d ∉ marker := by
  interval_cases d <;> decide

theorem reprEscapeChar_ne_nil (c : Char) : reprEscapeChar c ≠ [] := by
  unfold reprEscapeChar
  repeat' split
  all_goals simp

theorem reprEscapeChar_length (c : Char) : (reprEscapeChar c).length ≤ 4 := by
  unfold reprEscapeChar
  repeat' split
  all_goals simp

theorem reprEscapeChar_marker {c c' : Char} (h1 : c' ∈ reprEscapeChar c)
    (h2 : c' ∈ marker) : reprEscapeChar c = [c] ∧ c' = c := by
  by_cases hb : c = '\\'
  · subst hb
    simp [reprEscapeChar] at h1
    subst h1
    exact absurd h2 (by decide)
  by_cases hq : c = '\''
  · subst hq
    simp [reprEscapeChar] at h1
    rcases h1 with rfl | rfl <;> exact absurd h2 (by decide)
  by_cases hn : c = '\n'
  · subst hn
    simp [reprEscapeChar] at h1
    rcases h1 with rfl | rfl <;> exact absurd h2 (by decide)
  by_cases hr : c = '\r'
  · subst hr
    simp [reprEscapeChar] at h1
    rcases h1 with rfl | rfl <;> exact absurd h2 (by decide)
  by_cases ht : c = '\t'
  · subst ht
    simp [reprEscapeChar] at h1
    rcases h1 with rfl | rfl <;> exact absurd h2 (by decide)
  by_cases hc32 : c.toNat < 32
  · have he : reprEscapeChar c
        = ['\\', 'x', hexDigitChar (c.toNat / 16), hexDigitChar (c.toNat % 16)] := by
      simp [reprEscapeChar, hb, hq, hn, hr, ht, hc32]
    rw [he] at h1
    have hd1 : c.toNat / 16 < 16 := by omega
    have hd2 : c.toNat % 16 < 16 := Nat.mod_lt _ (by norm_num)
    simp at h1
    rcases h1 with rfl | rfl | rfl | rfl
    · exact absurd h2 (by decide)
    · exact absurd h2 (by decide)
    · exact absurd h2 (hexDigitChar_not_marker hd1)
    · exact absurd h2 (hexDigitChar_not_marker hd2)
  · have he : reprEscapeChar c = [c] := by
      simp [reprEscapeChar, hb, hq, hn, hr, ht, hc32]
    rw [he] at h1
    simp at h1
    exact ⟨he, h1⟩

theorem reprEscape_pre : ∀ (s w : Str), (∀ c ∈ w, c ∈ marker) →
    w <+: reprEscape s → w <+: s := by
  intro s
  induction s with
  | nil =>
    intro w hw h
    rw [show reprEscape [] = [] from rfl, List.prefix_nil] at h
    subst h
    exact List.nil_prefix
  | cons c s ih =>
    intro w hw h
    cases w with
    | nil => exact List.nil_prefix
    | cons d w2 =>
      rw [show reprEscape (c :: s) = reprEscapeChar c ++ reprEscape s
        from by simp [reprEscape]] at h
      obtain ⟨y, ys, hys⟩ : ∃ y ys, reprEscapeChar c = y :: ys := by
        cases hc : reprEscapeChar c with
        | nil => exact absurd hc (reprEscapeChar_ne_nil c)
        | cons y ys => exact ⟨y, ys, rfl⟩
      rw [hys, List.cons_append] at h
      obtain ⟨hdy, hw2⟩ := List.cons_prefix_cons.mp h
      have hdm : d ∈ marker := hw d (List.mem_cons_self _ _)
      have hdc : d ∈ reprEscapeChar c := by
        rw [hys, hdy]
        exact List.mem_cons_self _ _
      obtain ⟨hec, hdc2⟩ := reprEscapeChar_marker hdc hdm
      have hysnil : ys = [] := by
        rw [hec] at hys
        have := congrArg List.length hys
        simp at this
        exact this
      rw [hysnil, List.nil_append] at hw2
      have hw2s : w2 <+: s := ih w2 (fun x hx => hw x (List.mem_cons_of_mem _ hx)) hw2
      rw [hdc2]
      exact List.cons_prefix_cons.mpr ⟨rfl, hw2s⟩

theorem reprEscape_reflect : ∀ (s : Str), marker <:+: reprEscape s → marker <:+: s := by
  intro s
  induction s with
  | nil =>
    intro h
    rw [show reprEscape [] = [] from rfl] at h
    exact absurd h mfree_nil
  | cons c s ih =>
    intro h
    rw [show reprEscape (c :: s) = reprEscapeChar c ++ reprEscape s
      from by simp [reprEscape]] at h
    rcases infix_append_cases h with h1 | h2 | ⟨x, p, hm, hx, hp, hxE, hpR⟩
    · exact absurd h1 (marker_not_short (le_trans (reprEscapeChar_length c) (by norm_num)))
    · exact List.infix_cons (ih h2)
    · have hxeq : ('=' : Char) ∈ x := marker_eq_mem_left hm hx
      have hxc : ('=' : Char) ∈ reprEscapeChar c := hxE.subset hxeq
      obtain ⟨hec, heq⟩ := reprEscapeChar_marker hxc (by decide : ('=' : Char) ∈ marker)
      have hx1 : x = [c] := by
        rw [hec] at hxE
        obtain ⟨pre, hpre⟩ := hxE
        cases pre with
        | nil => simpa using hpre
        | cons a pre2 =>
          rw [List.cons_append] at hpre
          have h1 := (List.cons.injEq _ _ _ _ ▸ hpre).2
          rcases List.append_eq_nil.mp h1 with ⟨-, h3⟩
          exact absurd h3 hx
      have hpmem : ∀ ch ∈ p, ch ∈ marker := by
        intro ch hch
        rw [hm]
        exact List.mem_append_right x hch
      have hp2 : p <+: s := reprEscape_pre s p hpmem hpR
      rw [hm, hx1]
      exact (List.cons_prefix_cons.mpr ⟨rfl, hp2⟩).isInfix

mutual
/-- Structural size of a value (for strong induction). -/
def sizeJ : Json → Nat
  | .null => 1
  | .bool _ => 1
  | .num _ _ => 1
  | .str _ => 1
  | .arr l => sizeL l + 1
  | .obj fs => sizeF fs + 1
/-- Structural size of a value list. -/
def sizeL : JsonList → Nat
  | .nil => 0
  | .cons j tl => sizeJ j + sizeL tl + 1
/-- Structural size of a field list. -/
def sizeF : JsonFields → Nat
  | .fnil => 0
  | .fcons _ v tl => sizeJ v + sizeF tl + 1
end

theorem marker_sep_cases {sep : Str} (hsep0 : sep ≠ []) (hsep1 : ('=' : Char) ∉ sep)
    (hsep2 : ∀ c ∈ sep, c ∉ marker) {A B : Str} (h : marker <:+: A ++ (sep ++ B)) :
    marker <:+: A ∨ marker <:+: B := by
  by_contra hc
  push_neg at hc
  exact marker_free_sep_append sep hsep0 hsep1 hsep2 hc.1 hc.2 h

theorem marker_infix_wrap {q1 q2 : Char} {X : Str} (hq1 : q1 ∉ marker) (hq2 : q2 ∉ marker)
    (h : marker <:+: q1 :: (X ++ [q2])) : marker <:+: X := by
  rcases infix_append_cases (show marker <:+: [q1] ++ (X ++ [q2]) from h)
    with h1 | h2 | ⟨x, p, hm, hx, hp, hxE, hpB⟩
  · exact absurd h1 (marker_not_short (by simp))
  · rcases infix_append_cases h2 with h3 | h4 | ⟨x, p, hm, hx, hp, hxE, hpB⟩
    · exact h3
    · exact absurd h4 (marker_not_short (by simp))
    · have h5 := marker_eq_mem_right hm hp
      have h6 := List.mem_singleton.mp (hpB.subset h5)
      rw [← h6] at hq2
      exact absurd (by decide : ('=' : Char) ∈ marker) hq2
  · have h5 := marker_eq_mem_left hm hx
    have h6 := List.mem_singleton.mp (hxE.subset h5)
    rw [← h6] at hq1
    exact absurd (by decide : ('=' : Char) ∈ marker) hq1

theorem dump_value_occurs : ∀ (fs : JsonFields) (k : Str) (v : Json),
    (k, v) ∈ fs.toList →
    Json.dump v <:+: JsonFields.dumpFields fs
  | .fnil, k, v, h => by simp [JsonFields.toList] at h
  | .fcons k2 v2 tl, k, v, h => by
    rw [JsonFields.toList] at h
    rcases List.mem_cons.mp h with h1 | h2
    · have hv : v = v2 := congrArg Prod.snd h1
      subst hv
      cases tl with
      | fnil =>
        rw [JsonFields.dumpFields]
        exact ⟨'"' :: (escapeStr k2 ++ ['"', ':', ' ']), [], by simp⟩
      | fcons k3 v3 tl2 =>
        rw [JsonFields.dumpFields]
        exact ⟨'"' :: (escapeStr k2 ++ ['"', ':', ' ']),
          ',' :: ' ' :: JsonFields.dumpFields (.fcons k3 v3 tl2), by simp⟩
    · have hi := dump_value_occurs tl k v h2
      cases tl with
      | fnil => simp [JsonFields.toList] at h2
      | fcons k3 v3 tl2 =>
        rw [JsonFields.dumpFields]
        have hsuf : JsonFields.dumpFields (.fcons k3 v3 tl2) <:+
            ('"' :: (escapeStr k2 ++ '"' :: ':' :: ' ' :: Json.dump v2)) ++
              ',' :: ' ' :: JsonFields.dumpFields (.fcons k3 v3 tl2) :=
          ⟨('"' :: (escapeStr k2 ++ '"' :: ':' :: ' ' :: Json.dump v2)) ++ [',', ' '],
            by simp⟩
        exact hi.trans hsuf.isInfix

theorem pyRepr_reflect_core : ∀ n : Nat,
    (∀ j, sizeJ j ≤ n → marker <:+: pyRepr j → marker <:+: Json.dump j) ∧
    (∀ l, sizeL l ≤ n → marker <:+: JsonList.reprElems l →
      marker <:+: JsonList.dumpElems l) ∧
    (∀ fs, sizeF fs ≤ n → marker <:+: JsonFields.reprFields fs →
      marker <:+: JsonFields.dumpFields fs) := by
  intro n
  induction n with
  | zero =>
    refine ⟨?_, ?_, ?_⟩
    · intro j hs h
      exfalso
      cases j <;> simp [sizeJ] at hs
    · intro l hs h
      cases l with
      | nil =>
        rw [show JsonList.reprElems .nil = [] from rfl] at h
        exact absurd h mfree_nil
      | cons j tl => simp [sizeL] at hs
    · intro fs hs h
      cases fs with
      | fnil =>
        rw [show JsonFields.reprFields .fnil = [] from rfl] at h
        exact absurd h mfree_nil
      | fcons k v tl => simp [sizeF] at hs
  | succ n ih =>
    obtain ⟨ihj, ihl, ihf⟩ := ih
    refine ⟨?_, ?_, ?_⟩
    · intro j hs h
      cases j with
      | null => exact absurd h (marker_not_short (by decide))
      | bool b =>
        cases b with
        | true => exact absurd h (marker_not_short (by decide))
        | false => exact absurd h (marker_not_short (by decide))
      | num m e =>
        exfalso
        rw [show pyRepr (Json.num m e) = (if e = 0 then intToChars m else floatChars m e)
          from rfl] at h
        have he := h.subset (by decide : ('=' : Char) ∈ marker)
        split at he
        · exact no_eq_intToChars m he
        · exact no_eq_floatChars m e he
      | str s =>
        have h1 : marker <:+: reprEscape s :=
          @marker_infix_wrap '\'' '\'' (reprEscape s) (by decide) (by decide) h
        exact marker_in_dump_str (reprEscape_reflect s h1)
      | arr l =>
        have hs2 : sizeL l ≤ n := by
          simp [sizeJ] at hs
          omega
        have h1 : marker <:+: JsonList.reprElems l :=
          @marker_infix_wrap '[' ']' (JsonList.reprElems l) (by decide) (by decide) h
        exact dump_infix_arr (ihl l hs2 h1)
      | obj fs =>
        have hs2 : sizeF fs ≤ n := by
          simp [sizeJ] at hs
          omega
        have h1 : marker <:+: JsonFields.reprFields fs :=
          @marker_infix_wrap '{' '}' (JsonFields.reprFields fs) (by decide) (by decide) h
        exact dump_infix_obj (ihf fs hs2 h1)
    · intro l hs h
      cases l with
      | nil =>
        rw [show JsonList.reprElems .nil = [] from rfl] at h
        exact absurd h mfree_nil
      | cons j tl =>
        cases tl with
        | nil =>
          rw [show JsonList.reprElems (.cons j .nil) = pyRepr j from rfl] at h
          rw [show JsonList.dumpElems (.cons j .nil) = Json.dump j from rfl]
          refine ihj j ?_ h
          simp [sizeL] at hs
          omega
        | cons j2 tl2 =>
          rw [show JsonList.reprElems (.cons j (.cons j2 tl2))
              = pyRepr j ++ ([',', ' '] ++ JsonList.reprElems (.cons j2 tl2))
            from by rw [JsonList.reprElems]; rfl] at h
          have hsz : sizeJ j ≤ n ∧ sizeL (.cons j2 tl2) ≤ n := by
            simp [sizeL] at hs ⊢
            omega
          rcases @marker_sep_cases [',', ' '] (by decide) (by decide) (by decide) _ _ h
            with h1 | h1
          · have hd := ihj j hsz.1 h1
            rw [JsonList.dumpElems]
            exact hd.trans (List.prefix_append _ _).isInfix
          · have hd := ihl _ hsz.2 h1
            rw [JsonList.dumpElems]
            have hsuf : JsonList.dumpElems (.cons j2 tl2) <:+
                Json.dump j ++ ',' :: ' ' :: JsonList.dumpElems (.cons j2 tl2) :=
              ⟨Json.dump j ++ [',', ' '], by simp⟩
            exact hd.trans hsuf.isInfix
    · intro fs hs h
      cases fs with
      | fnil =>
        rw [show JsonFields.reprFields .fnil = [] from rfl] at h
        exact absurd h mfree_nil
      | fcons k v tl =>
        cases tl with
        | fnil =>
          rw [show JsonFields.reprFields (.fcons k v .fnil)
              = pyRepr (Json.str k) ++ ([':', ' '] ++ pyRepr v)
            from by rw [JsonFields.reprFields]; simp [pyRepr]] at h
          have hsz : sizeJ v ≤ n := by
            simp [sizeF] at hs
            omega
          rcases @marker_sep_cases [':', ' '] (by decide) (by decide) (by decide) _ _ h
            with h1 | h1
          · have hk : marker <:+: k :=
              reprEscape_reflect k
                (@marker_infix_wrap '\'' '\'' (reprEscape k) (by decide) (by decide) h1)
            exact (marker_in_dump_str hk).trans
              (dumpStr_key_occurs (.fcons k v .fnil) k v (List.mem_cons_self _ _))
          · exact (ihj v hsz h1).trans
              (dump_value_occurs (.fcons k v .fnil) k v (List.mem_cons_self _ _))
        | fcons k2 v2 tl2 =>
          rw [show JsonFields.reprFields (.fcons k v (.fcons k2 v2 tl2))
              = (pyRepr (Json.str k) ++ ([':', ' '] ++ pyRepr v))
                ++ ([',', ' '] ++ JsonFields.reprFields (.fcons k2 v2 tl2))
            from by rw [JsonFields.reprFields]; simp [pyRepr]] at h
          have hsz : sizeJ v ≤ n ∧ sizeF (.fcons k2 v2 tl2) ≤ n := by
            simp [sizeF] at hs ⊢
            omega
          rcases @marker_sep_cases [',', ' '] (by decide) (by decide) (by decide) _ _ h
            with h1 | h1
          · rcases @marker_sep_cases [':', ' '] (by decide) (by decide) (by decide) _ _ h1
            with h2 | h2
            · have hk : marker <:+: k :=
                reprEscape_reflect k
                  (@marker_infix_wrap '\'' '\'' (reprEscape k) (by decide) (by decide) h2)
              exact (marker_in_dump_str hk).trans
                (dumpStr_key_occurs (.fcons k v (.fcons k2 v2 tl2)) k v
                  (List.mem_cons_self _ _))
            · exact (ihj v hsz.1 h2).trans
                (dump_value_occurs (.fcons k v (.fcons k2 v2 tl2)) k v
                  (List.mem_cons_self _ _))
          · have hd := ihf _ hsz.2 h1
            rw [JsonFields.dumpFields]
            have hsuf : JsonFields.dumpFields (.fcons k2 v2 tl2) <:+
                ('"' :: (escapeStr k ++ '"' :: ':' :: ' ' :: Json.dump v)) ++
                  ',' :: ' ' :: JsonFields.dumpFields (.fcons k2 v2 tl2) :=
              ⟨('"' :: (escapeStr k ++ '"' :: ':' :: ' ' :: Json.dump v)) ++ [',', ' '],
                by simp⟩
            exact hd.trans hsuf.isInfix

theorem pyRepr_reflect {j : Json} (h : marker <:+: pyRepr j) : marker <:+: Json.dump j :=
  (pyRepr_reflect_core (sizeJ j)).1 j le_rfl h

theorem pyStr_reflect {j : Json} (h : marker <:+: pyStr j) : marker <:+: Json.dump j := by
  cases j with
  | str s =>
    exact marker_in_dump_str (by rw [show pyStr (Json.str s) = s from rfl] at h; exact h)
  | null => exact pyRepr_reflect h
  | bool b => exact pyRepr_reflect h
  | num m e => exact pyRepr_reflect h
  | arr l => exact pyRepr_reflect h
  | obj fs => exact pyRepr_reflect h

theorem mfree_prefix_append {F B : Str} (hF : ('=' : Char) ∉ F) (hB : ¬ marker <:+: B) :
    ¬ marker <:+: F ++ B := by
  intro h
  rcases infix_append_cases h with h1 | h2 | ⟨s, p, hm, hs, hp, hsF, hpB⟩
  · exact mfree_of_no_eq hF h1
  · exact hB h2
  · exact hF (hsF.subset (marker_eq_mem_left hm hs))

theorem mfree_append_no_eq {A R : Str} (hA : ¬ marker <:+: A) (hR : ('=' : Char) ∉ R) :
    ¬ marker <:+: A ++ R := by
  intro h
  rcases infix_append_cases h with h1 | h2 | ⟨s, p, hm, hs, hp, hsA, hpR⟩
  · exact hA h1
  · exact mfree_of_no_eq hR h2
  · exact hR (hpR.subset (marker_eq_mem_right hm hp))

theorem mfree_pitch_part {A B C : Str} (hA : ¬ marker <:+: A) (hB : ¬ marker <:+: B)
    (hC : ¬ marker <:+: C) :
    ¬ marker <:+: A ++ (lit " pitch range: " ++ (B ++ '-' :: C)) := by
  intro h
  rcases @marker_sep_cases (lit " pitch range: ") (by decide) (by decide) (by decide)
    _ _ h with h1 | h1
  · exact hA h1
  · rw [show ('-' :: C) = ['-'] ++ C from rfl] at h1
    rcases @marker_sep_cases ['-'] (by decide) (by decide) (by decide) _ _ h1 with h2 | h2
    · exact hB h2
    · exact hC h2

theorem mfree_pyStr_num (m : Int) (e : Nat) : ¬ marker <:+: pyStr (Json.num m e) := by
  refine mfree_of_no_eq ?_
  intro he
  rw [show pyStr (Json.num m e) = (if e = 0 then intToChars m else floatChars m e)
    from rfl] at he
  split at he
  · exact no_eq_intToChars m he
  · exact no_eq_floatChars m e he

theorem track_pyStr {j : Json} {k : Str} {d v : Json}
    (h : pyGet j k d = .ok v) (hj : ¬ marker <:+: Json.dump j)
    (hd : ¬ marker <:+: pyStr d) : ¬ marker <:+: pyStr v := by
  intro hm
  rcases pyGet_track h with rfl | hdd
  · exact hd hm
  · exact hj ((pyStr_reflect hm).trans hdd)

theorem track_dump {j : Json} {k : Str} {d v : Json}
    (h : pyGet j k d = .ok v) (hj : ¬ marker <:+: Json.dump j)
    (hd : ¬ marker <:+: Json.dump d) : ¬ marker <:+: Json.dump v := by
  intro hm
  rcases pyGet_track h with rfl | hdd
  · exact hd hm
  · exact hj (hm.trans hdd)

theorem segInstParts_mfree {inst : Json} {ps : List Str}
    (hok : segInstParts inst = .ok ps)
    (hi : ¬ marker <:+: Json.dump inst) : ∀ x ∈ ps, ¬ marker <:+: x := by
  unfold segInstParts at hok
  obtain ⟨instName, hname, hok⟩ := exceptBind_ok hok
  obtain ⟨noteSeq, hns, hok⟩ := exceptBind_ok hok
  obtain ⟨melInts, hmi, hok⟩ := exceptBind_ok hok
  obtain ⟨rhythm, hrh, hok⟩ := exceptBind_ok hok
  obtain ⟨p1, hp1, hok⟩ := exceptBind_ok hok
  obtain ⟨p2, hp2, hok⟩ := exceptBind_ok hok
  obtain ⟨p3, hp3, hok⟩ := exceptBind_ok hok
  have hps := (exceptPure_ok hok).symm
  subst hps
  have hnameFree : ¬ marker <:+: pyStr instName :=
    track_pyStr hname hi (by decide)
  have hP1 : ∀ x ∈ p1, ¬ marker <:+: x := by
    split at hp1
    · obtain ⟨notes, hnotes, hp1⟩ := exceptBind_ok hp1
      obtain ⟨pitches, hpitches, hp1⟩ := exceptBind_ok hp1
      have hnsFree : ¬ marker <:+: Json.dump noteSeq :=
        track_dump hns hi (by decide)
      have hpitchFree : ∀ v ∈ pitches, ¬ marker <:+: pyStr v := by
        intro v hv hm
        obtain ⟨note, hnote, hsub⟩ := pyPitches_mem hpitches v hv
        exact hnsFree (pyIterate_track hnotes hnote (pySub0_track hsub (pyStr_reflect hm)))
      split at hp1
      · have := (exceptPure_ok hp1).symm
        subst this
        intro x hx
        simp at hx
      · obtain ⟨pmin, hpmin, hp1⟩ := exceptBind_ok hp1
        obtain ⟨pmax, hpmax, hp1⟩ := exceptBind_ok hp1
        have := (exceptPure_ok hp1).symm
        subst this
        intro x hx
        rw [List.mem_singleton] at hx
        subst hx
        intro h
        simp only [List.append_assoc] at h
        exact mfree_pitch_part hnameFree
          (hpitchFree pmin (pyExtreme_mem hpmin))
          (hpitchFree pmax (pyExtreme_mem hpmax)) h
    · have := (exceptPure_ok hp1).symm
      subst this
      intro x hx
      simp at hx
  have hP2 : ∀ x ∈ p2, ¬ marker <:+: x := by
    split at hp2
    · obtain ⟨xs, hxs, hp2⟩ := exceptBind_ok hp2
      obtain ⟨fl, hfl, hp2⟩ := exceptBind_ok hp2
      obtain ⟨avg, havg, hp2⟩ := exceptBind_ok hp2
      obtain ⟨avgAll, havgAll, hp2⟩ := exceptBind_ok hp2
      have := (exceptPure_ok hp2).symm
      subst this
      intro x hx
      rw [List.mem_singleton] at hx
      subst hx
      intro h
      simp only [List.append_assoc] at h
      refine mfree_append_no_eq hnameFree ?_ h
      intro he
      simp only [List.mem_append] at he
      rcases he with he | he | he | he | he
      · exact absurd he (by decide)
      · split at he <;> exact absurd he (by decide)
      · exact absurd he (by decide)
      · exact no_eq_fmtFixed _ _ _ he
      · exact absurd he (by decide)
    · have := (exceptPure_ok hp2).symm
      subst this
      intro x hx
      simp at hx
  have hP3 : ∀ x ∈ p3, ¬ marker <:+: x := by
    split at hp3
    · obtain ⟨xs, hxs, hp3⟩ := exceptBind_ok hp3
      obtain ⟨fl, hfl, hp3⟩ := exceptBind_ok hp3
      obtain ⟨avg, havg, hp3⟩ := exceptBind_ok hp3
      have := (exceptPure_ok hp3).symm
      subst this
      intro x hx
      rw [List.mem_singleton] at hx
      subst hx
      intro h
      simp only [List.append_assoc] at h
      refine mfree_append_no_eq hnameFree ?_ h
      intro he
      simp only [List.mem_append] at he
      rcases he with he | he | he | he | he
      · exact absurd he (by decide)
      · split at he <;> first
          | exact absurd he (by decide)
          | (split at he <;> exact absurd he (by decide))
      · exact absurd he (by decide)
      · exact no_eq_fmtFixed _ _ _ he
      · exact absurd he (by decide)
    · have := (exceptPure_ok hp3).symm
      subst this
      intro x hx
      simp at hx
  intro x hx
  simp only [List.mem_append] at hx
  rcases hx with (hx | hx) | hx
  · exact hP1 x hx
  · exact hP2 x hx
  · exact hP3 x hx

theorem segParts_mfree {p : Json} {genre artist : Str} {ps : List Str}
    (hok : segParts p genre artist = .ok ps)
    (hg : ¬ marker <:+: genre) (ha : ¬ marker <:+: artist)
    (hp : ¬ marker <:+: Json.dump p) :
    ∀ x ∈ ps, ¬ marker <:+: x := by
  unfold segParts at hok
  obtain ⟨duration, hdur, hok⟩ := exceptBind_ok hok
  obtain ⟨dstr, hdstr, hok⟩ := exceptBind_ok hok
  obtain ⟨instruments, hinst, hok⟩ := exceptBind_ok hok
  have hGenre : ¬ marker <:+: lit "Genre: " ++ genre :=
    mfree_prefix_append (by decide) hg
  have hArtist : ¬ marker <:+: lit "Artist style: " ++ artist :=
    mfree_prefix_append (by decide) ha
  have hDur : ¬ marker <:+: lit "Duration: " ++ (dstr ++ lit " seconds") := by
    unfold pyFmtFixed at hdstr
    split at hdstr
    · cases hdstr
      refine mfree_of_no_eq ?_
      intro he
      simp only [List.append_assoc, List.mem_append] at he
      rcases he with he | he | he
      · exact absurd he (by decide)
      · exact no_eq_fmtFixed _ _ _ he
      · exact absurd he (by decide)
    · cases hdstr
  have hInstrumentsFree : ¬ marker <:+: Json.dump instruments :=
    track_dump hinst hp (by decide)
  split at hok
  · obtain ⟨insts, hinsts, hok⟩ := exceptBind_ok hok
    obtain ⟨names, hnames, hok⟩ := exceptBind_ok hok
    obtain ⟨joined, hjoined, hok⟩ := exceptBind_ok hok
    obtain ⟨lists, hlists, hok⟩ := exceptBind_ok hok
    have hps := (exceptPure_ok hok).symm
    subst hps
    have hInstFree : ∀ i ∈ insts, ¬ marker <:+: Json.dump i := fun i hi2 hm =>
      hInstrumentsFree (pyIterate_track hinsts hi2 hm)
    have hJoined : ¬ marker <:+: joined := by
      unfold pyJoinStrs at hjoined
      split at hjoined
      · cases hjoined
      · next ss hss =>
        cases hjoined
        refine mfree_join_sep (lit ", ") (by decide) (by decide) (by decide) ?_
        intro s hs hm
        obtain ⟨nj, hnj, hex⟩ := mapE_ok_mem hss s hs
        obtain ⟨i, hi2, hgot⟩ := mapE_ok_mem hnames nj hnj
        have hnjs : nj = Json.str s := by
          split at hex
          · cases hex
            rfl
          · cases hex
        subst hnjs
        rcases pyGet_track hgot with hu | hd
        · injection hu with hs2
          rw [hs2] at hm
          exact absurd hm (by decide)
        · exact hInstFree i hi2 ((marker_in_dump_str hm).trans hd)
    intro x hx
    simp only [List.append_assoc, List.mem_append, List.mem_singleton] at hx
    rcases hx with rfl | hx
    · exact hGenre
    rcases hx with hx | hx
    · split at hx
      · simp at hx
      · rw [List.mem_singleton] at hx
        subst hx
        exact hArtist
    rcases hx with rfl | hx
    · exact hDur
    rcases hx with rfl | hx
    · exact mfree_prefix_append (by decide) hJoined
    · obtain ⟨lp, hlp, hxlp⟩ := List.mem_flatten.mp hx
      obtain ⟨i, hi2, hok2⟩ := mapE_ok_mem hlists lp hlp
      exact segInstParts_mfree hok2 (hInstFree i hi2) x hxlp
  · have hps := (exceptPure_ok hok).symm
    subst hps
    intro x hx
    simp only [List.append_assoc, List.mem_append, List.mem_singleton] at hx
    rcases hx with rfl | hx
    · exact hGenre
    rcases hx with hx | hx
    · split at hx
      · simp at hx
      · rw [List.mem_singleton] at hx
        subst hx
        exact hArtist
    · subst hx
      exact hDur

theorem chordName_mfree {c : Json} {name : Str} (hok : chordName c = .ok name)
    (hc : ¬ marker <:+: Json.dump c) : ¬ marker <:+: name := by
  unfold chordName at hok
  obtain ⟨root, hroot, hok⟩ := exceptBind_ok hok
  obtain ⟨pitches, hpit, hok⟩ := exceptBind_ok hok
  obtain ⟨n, hn, hok⟩ := exceptBind_ok hok
  have hRoot : ¬ marker <:+: pyStr root :=
    track_pyStr hroot hc (mfree_pyStr_num 0 0)
  by_cases hcond : n ≥ 3
  · rw [if_pos hcond] at hok
    obtain ⟨ps, hps, hok⟩ := exceptBind_ok hok
    obtain ⟨ms, hms, hok⟩ := exceptBind_ok hok
    simp only [] at hok
    split at hok
    · have := (exceptPure_ok hok).symm
      subst this
      exact mfree_prefix_append (by decide) hRoot
    · split at hok
      · have := (exceptPure_ok hok).symm
        subst this
        exact mfree_prefix_append (by decide) hRoot
      · have := (exceptPure_ok hok).symm
        subst this
        exact mfree_prefix_append (by decide) hRoot
  · rw [if_neg hcond] at hok
    have := (exceptPure_ok hok).symm
    subst this
    exact mfree_prefix_append (by decide) hRoot

theorem progParts_mfree {p : Json} {genre artist : Str} {ps : List Str}
    (hok : progParts p genre artist = .ok ps)
    (hg : ¬ marker <:+: genre) (ha : ¬ marker <:+: artist)
    (hp : ¬ marker <:+: Json.dump p) :
    ∀ x ∈ ps, ¬ marker <:+: x := by
  unfold progParts at hok
  obtain ⟨chords, hch, hok⟩ := exceptBind_ok hok
  have hGenre : ¬ marker <:+: lit "Genre: " ++ genre :=
    mfree_prefix_append (by decide) hg
  have hArtist : ¬ marker <:+: lit "Artist style: " ++ artist :=
    mfree_prefix_append (by decide) ha
  have hChordsFree : ¬ marker <:+: Json.dump chords :=
    track_dump hch hp (by decide)
  split at hok
  · obtain ⟨cl, hcl, hok⟩ := exceptBind_ok hok
    obtain ⟨roots, hroots, hok⟩ := exceptBind_ok hok
    obtain ⟨names, hnames, hok⟩ := exceptBind_ok hok
    obtain ⟨durs, hdurs, hok⟩ := exceptBind_ok hok
    obtain ⟨avg, havg, hok⟩ := exceptBind_ok hok
    have hps := (exceptPure_ok hok).symm
    subst hps
    have hClFree : ∀ i ∈ cl, ¬ marker <:+: Json.dump i := fun i hi2 hm =>
      hChordsFree (pyIterate_track hcl hi2 hm)
    intro x hx
    simp only [List.append_assoc, List.mem_append, List.mem_singleton,
      List.mem_cons, List.not_mem_nil, or_false] at hx
    rcases hx with rfl | hx
    · exact hGenre
    rcases hx with hx | hx
    · split at hx
      · simp at hx
      · rw [List.mem_singleton] at hx
        subst hx
        exact hArtist
    rcases hx with rfl | rfl
    · refine mfree_prefix_append (by decide) ?_
      refine mfree_join_sep (lit " -> ") (by decide) (by decide) (by decide) ?_
      intro s hs
      obtain ⟨i, hi2, hok2⟩ := mapE_ok_mem hnames s (List.mem_of_mem_take hs)
      exact chordName_mfree hok2 (hClFree i hi2)
    · refine mfree_of_no_eq ?_
      intro he
      simp only [List.append_assoc, List.mem_append] at he
      rcases he with he | he | he
      · exact absurd he (by decide)
      · exact no_eq_fmtFixed _ _ _ he
      · exact absurd he (by decide)
  · have hps := (exceptPure_ok hok).symm
    subst hps
    intro x hx
    simp only [List.mem_append, List.mem_singleton] at hx
    rcases hx with rfl | hx
    · exact hGenre
    · split at hx
      · simp at hx
      · rw [List.mem_singleton] at hx
        subst hx
        exact hArtist

theorem melParts_mfree {p : Json} {genre artist : Str} {ps : List Str}
    (hok : melParts p genre artist = .ok ps)
    (hg : ¬ marker <:+: genre) (ha : ¬ marker <:+: artist)
    (hp : ¬ marker <:+: Json.dump p) :
    ∀ x ∈ ps, ¬ marker <:+: x := by
  unfold melParts at hok
  obtain ⟨intervals, hints, hok⟩ := exceptBind_ok hok
  obtain ⟨instrument, hinstr, hok⟩ := exceptBind_ok hok
  obtain ⟨startPitch, hsp, hok⟩ := exceptBind_ok hok
  have hGenre : ¬ marker <:+: lit "Genre: " ++ genre :=
    mfree_prefix_append (by decide) hg
  have hArtist : ¬ marker <:+: lit "Artist style: " ++ artist :=
    mfree_prefix_append (by decide) ha
  have hInstr : ¬ marker <:+: lit "Instrument: " ++ pyStr instrument :=
    mfree_prefix_append (by decide) (track_pyStr hinstr hp (by decide))
  have hStart : ¬ marker <:+: lit "Starting pitch: " ++ pyStr startPitch :=
    mfree_prefix_append (by decide) (track_pyStr hsp hp (mfree_pyStr_num 60 0))
  simp only [] at hok
  by_cases htr : intervals.truthy = true
  · rw [if_pos htr] at hok
    obtain ⟨xs, hxs, hok⟩ := exceptBind_ok hok
    obtain ⟨fl, hfl, hok⟩ := exceptBind_ok hok
    obtain ⟨avg, havg, hok⟩ := exceptBind_ok hok
    obtain ⟨maxInt, hmax, hok⟩ := exceptBind_ok hok
    have hps := (exceptPure_ok hok).symm
    subst hps
    have hAvg : ¬ marker <:+: lit "Average interval: "
        ++ (fmtFixed 1 avg.1 avg.2 ++ lit " semitones") := by
      refine mfree_of_no_eq ?_
      intro he
      simp only [List.mem_append] at he
      rcases he with he | he | he
      · exact absurd he (by decide)
      · exact no_eq_fmtFixed _ _ _ he
      · exact absurd he (by decide)
    have hMax : ¬ marker <:+: lit "Maximum leap: "
        ++ (floatChars maxInt.1 maxInt.2 ++ lit " semitones") := by
      refine mfree_of_no_eq ?_
      intro he
      simp only [List.mem_append] at he
      rcases he with he | he | he
      · exact absurd he (by decide)
      · exact no_eq_floatChars _ _ he
      · exact absurd he (by decide)
    have hDirC : ¬ marker <:+: lit "Direction changes: "
        ++ natToChars (countSignChanges fl) := by
      refine mfree_of_no_eq ?_
      intro he
      simp only [List.mem_append] at he
      rcases he with he | he
      · exact absurd he (by decide)
      · exact no_eq_of_digits (natToChars_all_digits _) he
    have hStyle : ¬ marker <:+: lit "Melodic style: "
        ++ (if ratLtDec avg 15 1 = true then lit "stepwise"
            else if ratLtDec avg 30 1 = true then lit "moderate leaps"
            else lit "large leaps") := by
      refine mfree_of_no_eq ?_
      intro he
      simp only [List.mem_append] at he
      rcases he with he | he
      · exact absurd he (by decide)
      · split at he <;> first
          | exact absurd he (by decide)
          | (split at he <;> exact absurd he (by decide))
    intro x hx
    simp only [List.append_assoc, List.mem_append, List.mem_singleton,
      List.mem_cons, List.not_mem_nil, or_false] at hx
    rcases hx with rfl | hx | (rfl | rfl) | (rfl | rfl | rfl) | rfl
    · exact hGenre
    · split at hx
      · simp at hx
      · rw [List.mem_singleton] at hx
        subst hx
        exact hArtist
    · exact hInstr
    · exact hStart
    · exact hAvg
    · exact hMax
    · exact hDirC
    · exact hStyle
  · rw [if_neg htr] at hok
    have hps := (exceptPure_ok hok).symm
    subst hps
    intro x hx
    simp only [List.append_assoc, List.mem_append, List.mem_singleton,
      List.mem_cons, List.not_mem_nil, or_false] at hx
    rcases hx with rfl | hx
    · exact hGenre
    rcases hx with hx | hx
    · split at hx
      · simp at hx
      · rw [List.mem_singleton] at hx
        subst hx
        exact hArtist
    rcases hx with rfl | rfl
    · exact hInstr
    · exact hStart

theorem splitRecover_output {parts : List Str} {p : Json} {fs : JsonFields}
    (hparts : ∀ x ∈ parts, ¬ marker <:+: x)
    (hp : ¬ marker <:+: Json.dump p) (hobj : p = Json.obj fs) :
    splitRecover (pyJoin (lit " | ") parts ++ (lit "\n\n" ++ (marker ++ Json.dump p)))
      = some p := by
  have hshape : pyJoin (lit " | ") parts ++ (lit "\n\n" ++ (marker ++ Json.dump p))
      = (pyJoin (lit " | ") parts ++ lit "\n\n") ++ (marker ++ Json.dump p) := by
    simp [List.append_assoc]
  have hA : ¬ marker <:+: (pyJoin (lit " | ") parts ++ lit "\n\n") ++ marker.dropLast := by
    rw [List.append_assoc]
    exact marker_free_sep_append (lit "\n\n") (by decide) (by decide) (by decide)
      (mfree_join hparts)
      (marker_not_short (by decide : (marker.dropLast).length ≤ 15))
  unfold splitRecover
  rw [hshape, pySplit_marker _ _ hA hp]
  have hget : ([(pyJoin (lit " | ") parts ++ lit "\n\n"), Json.dump p] : List Str).get? 1
      = some (Json.dump p) := rfl
  rw [hget]
  subst hobj
  show Json.parse (pyStrip ('{' :: (JsonFields.dumpFields fs ++ ['}']))) = some (Json.obj fs)
  rw [pyStrip_brace]
  exact json_roundtrip (Json.obj fs)

theorem vectorize_seg_recover {p : Json} {genre artist : Str} {ps : List Str}
    {fs : JsonFields} (hobj : p = Json.obj fs)
    (hg : ¬ marker <:+: genre) (ha : ¬ marker <:+: artist)
    (hp : ¬ marker <:+: Json.dump p)
    (hok : segParts p genre artist = .ok ps) :
    splitRecover (vectorize_musical_segment p genre artist) = some p := by
  unfold vectorize_musical_segment
  rw [hok]
  exact splitRecover_output (segParts_mfree hok hg ha hp) hp hobj

theorem vectorize_prog_recover {p : Json} {genre artist : Str} {ps : List Str}
    {fs : JsonFields} (hobj : p = Json.obj fs)
    (hg : ¬ marker <:+: genre) (ha : ¬ marker <:+: artist)
    (hp : ¬ marker <:+: Json.dump p)
    (hok : progParts p genre artist = .ok ps) :
    splitRecover (vectorize_chord_progression p genre artist) = some p := by
  unfold vectorize_chord_progression
  rw [hok]
  exact splitRecover_output (progParts_mfree hok hg ha hp) hp hobj

theorem vectorize_mel_recover {p : Json} {genre artist : Str} {ps : List Str}
    {fs : JsonFields} (hobj : p = Json.obj fs)
    (hg : ¬ marker <:+: genre) (ha : ¬ marker <:+: artist)
    (hp : ¬ marker <:+: Json.dump p)
    (hok : melParts p genre artist = .ok ps) :
    splitRecover (vectorize_melody_sequence p genre artist) = some p := by
  unfold vectorize_melody_sequence
  rw [hok]
  exact splitRecover_output (melParts_mfree hok hg ha hp) hp hobj

/-- Claim C3 (amended): for every pattern object p whose JSON serialization is
free of the marker string, and all genre and artist strings that are themselves
free of the marker, whenever the description-building core of the vectorizer
succeeds (the non-fallback path), splitting the vectorizer output on
"==PATTERN_DATA==", stripping the piece after the marker, and parsing it as
JSON recovers exactly p - for each of the three vectorizers. The original
claim allowed arbitrary genre and artist strings and did not exclude the
exception fallback; both cases break it (see the counterexample). -/
theorem vectorizer_payload_roundtrip (fs : JsonFields) (genre artist : Str)
    (hg : pyIn marker genre = false) (ha : pyIn marker artist = false)
    (hp : pyIn marker (Json.dump (Json.obj fs)) = false) :
    (∀ ps, segParts (Json.obj fs) genre artist = .ok ps →
      splitRecover (vectorize_musical_segment (Json.obj fs) genre artist)
        = some (Json.obj fs)) ∧
    (∀ ps, progParts (Json.obj fs) genre artist = .ok ps →
      splitRecover (vectorize_chord_progression (Json.obj fs) genre artist)
        = some (Json.obj fs)) ∧
    (∀ ps, melParts (Json.obj fs) genre artist = .ok ps →
      splitRecover (vectorize_melody_sequence (Json.obj fs) genre artist)
        = some (Json.obj fs)) := by
  have hg' : ¬ marker <:+: genre := of_decide_eq_false hg
  have ha' : ¬ marker <:+: artist := of_decide_eq_false ha
  have hp' : ¬ marker <:+: Json.dump (Json.obj fs) := of_decide_eq_false hp
  exact ⟨fun ps hok => vectorize_seg_recover rfl hg' ha' hp' hok,
    fun ps hok => vectorize_prog_recover rfl hg' ha' hp' hok,
    fun ps hok => vectorize_mel_recover rfl hg' ha' hp' hok⟩

/-- Counterexample to C3 as stated. Both patterns serialize without the marker,
as the claim requires. First: with the genre string equal to the marker, the
first marker occurrence in the segment vectorizer output lies inside the
"Genre: ..." description part, so index 1 of the split is a slice of the
description, and recovery yields none instead of the pattern. Second: with an
ordinary genre but a string-valued duration, the f-string formatting raises,
the vectorizer returns the fallback description that carries no marker and no
payload at all, and recovery again yields none. -/
theorem vectorizer_payload_roundtrip_counterexample :
    pyIn marker (Json.dump (jO [("duration", jI 0)])) = false ∧
    splitRecover (vectorize_musical_segment (jO [("duration", jI 0)]) marker [])
      = none ∧
    pyIn marker (Json.dump (jO [("duration", jS "x")])) = false ∧
    splitRecover (vectorize_musical_segment (jO [("duration", jS "x")]) (lit "rock") [])
      = none := by
  exact ⟨rfl, rfl, rfl, rfl⟩

/-- Witness: the round-trip theorem applied, for each vectorizer, to a concrete
pattern object, genre "rock" and empty artist. -/
theorem vectorizer_payload_roundtrip_witness :
    splitRecover (vectorize_musical_segment (jO [("duration", jI 0)]) (lit "rock") [])
      = some (jO [("duration", jI 0)]) ∧
    splitRecover (vectorize_chord_progression (jO []) (lit "rock") [])
      = some (jO []) ∧
    splitRecover (vectorize_melody_sequence (jO [("start_pitch", jI 0)]) (lit "rock") [])
      = some (jO [("start_pitch", jI 0)]) := by
  refine ⟨?_, ?_, ?_⟩
  · exact (vectorizer_payload_roundtrip
      (JsonFields.fcons (lit "duration") (jI 0) JsonFields.fnil)
      (lit "rock") [] rfl rfl rfl).1 _ rfl
  · exact (vectorizer_payload_roundtrip JsonFields.fnil
      (lit "rock") [] rfl rfl rfl).2.1 _ rfl
  · exact (vectorizer_payload_roundtrip
      (JsonFields.fcons (lit "start_pitch") (jI 0) JsonFields.fnil)
      (lit "rock") [] rfl rfl rfl).2.2 _ rfl
